import Mathlib

/-!
Verification of the WIPACrepo/wipac-dev-py-setup-action repository.

This file shallowly embeds the Python sources (`pyproject_toml_builder.py`,
`setup_builder.py`, `ensure_dependabot.py`, `find_packages.py`) into Lean 4:

* Python strings are modelled as `List Char` (`PyStr`); substring containment
  (Python's `in`) is `List.IsInfix`, `str.startswith` is `List.IsPrefix`.
* Decimal rendering of an integer (Python `str(n)` for a non-negative `n`)
  is `natDigits`; it is fuel-based so that it evaluates by `decide`/`rfl`.
* Fallible code is modelled with `Except`/`Option`; an uncaught Python
  exception is an `Except.error`.
-/

namespace WipacSetup

/-- Python strings, modelled as lists of unicode code points. -/
abbrev PyStr := List Char

/-- The decimal digit characters, as produced by Python's `str(int)` for one
digit (only ever applied to `n < 10`). -/
def digitChar (n : Nat) : Char :=
  match n with
  | 0 => '0' | 1 => '1' | 2 => '2' | 3 => '3' | 4 => '4'
  | 5 => '5' | 6 => '6' | 7 => '7' | 8 => '8' | _ => '9'

/-- Numeric value of a decimal digit character. -/
def digitVal (c : Char) : Nat := c.toNat - 48

/-- Is `c` a decimal ASCII digit? -/
def isDigitChar (c : Char) : Bool := 48 ≤ c.toNat && c.toNat ≤ 57

/-- Fuel-based decimal rendering (least significant digit last). -/
def natDigitsRev (fuel : Nat) (n : Nat) : PyStr :=
  match fuel with
  | 0 => []
  | fuel + 1 =>
    if n < 10 then [digitChar n]
    else natDigitsRev fuel (n / 10) ++ [digitChar (n % 10)]

/-- Decimal rendering of a natural number: the model of Python `str(n)`. -/
def natDigits (n : Nat) : PyStr := natDigitsRev (n + 1) n

/-- Parse an all-digit string into a natural number (no validity check). -/
def parseNatCore (l : PyStr) : Nat := l.foldl (fun acc c => acc * 10 + digitVal c) 0

/-- Model of Python `int(s)` restricted to plain non-empty decimal-digit
strings (the only shape these scripts feed to it); anything else errors. -/
def parseNat (l : PyStr) : Option Nat :=
  if l.isEmpty then none
  else if l.all isDigitChar then some (parseNatCore l)
  else none

theorem digitVal_digitChar {m : Nat} (h : m < 10) : digitVal (digitChar m) = m := by
  interval_cases m <;> decide

theorem isDigitChar_digitChar {m : Nat} (h : m < 10) : isDigitChar (digitChar m) = true := by
  interval_cases m <;> decide

theorem digitChar_ne_dot {m : Nat} : digitChar m ≠ '.' := by
  unfold digitChar
  split <;> decide

theorem digitChar_eq_zero_iff {m : Nat} (h : m < 10) : digitChar m = '0' ↔ m = 0 := by
  interval_cases m <;> decide

theorem natDigitsRev_congr (n : Nat) :
    ∀ f1 f2, n < f1 → n < f2 → natDigitsRev f1 n = natDigitsRev f2 n := by
  induction n using Nat.strong_induction_on with
  | _ n ih =>
    intro f1 f2 h1 h2
    match f1, f2 with
    | g1 + 1, g2 + 1 =>
      by_cases h10 : n < 10
      · simp [natDigitsRev, h10]
      · have hdiv : n / 10 < n := Nat.div_lt_self (by omega) (by omega)
        simp only [natDigitsRev, h10, if_false]
        rw [ih (n / 10) hdiv g1 g2 (by omega) (by omega)]

/-- Unfolding equation for `natDigits`. -/
theorem natDigits_eq (n : Nat) :
    natDigits n = if n < 10 then [digitChar n]
                  else natDigits (n / 10) ++ [digitChar (n % 10)] := by
  by_cases h10 : n < 10
  · unfold natDigits natDigitsRev
    simp [h10]
  · have hdiv : n / 10 < n := Nat.div_lt_self (by omega) (by omega)
    show natDigitsRev (n + 1) n = _
    simp only [natDigitsRev, h10, if_false]
    rw [natDigitsRev_congr (n / 10) n (n / 10 + 1) (by omega) (by omega)]
    rfl

theorem natDigits_ne_nil (n : Nat) : natDigits n ≠ [] := by
  rw [natDigits_eq]
  split <;> simp

theorem natDigits_all_digits (n : Nat) : ∀ c ∈ natDigits n, isDigitChar c = true := by
  induction n using Nat.strong_induction_on with
  | _ n ih =>
    rw [natDigits_eq]
    by_cases h10 : n < 10
    · simp only [h10, if_true, List.mem_singleton]
      rintro c rfl
      exact isDigitChar_digitChar h10
    · simp only [h10, if_false, List.mem_append, List.mem_singleton]
      rintro c (hc | rfl)
      · exact ih (n / 10) (Nat.div_lt_self (by omega) (by omega)) c hc
      · exact isDigitChar_digitChar (Nat.mod_lt _ (by omega))

theorem dot_not_mem_natDigits (n : Nat) : '.' ∉ natDigits n := by
  intro h
  have := natDigits_all_digits n '.' h
  simp [isDigitChar] at this

theorem parseNatCore_append_digit (l : PyStr) (c : Char) :
    parseNatCore (l ++ [c]) = parseNatCore l * 10 + digitVal c := by
  simp [parseNatCore, List.foldl_append]

theorem parseNatCore_natDigits (n : Nat) : parseNatCore (natDigits n) = n := by
  induction n using Nat.strong_induction_on with
  | _ n ih =>
    rw [natDigits_eq]
    by_cases h10 : n < 10
    · simp only [h10, if_true]
      show 0 * 10 + digitVal (digitChar n) = n
      rw [digitVal_digitChar h10]
      omega
    · simp only [h10, if_false]
      rw [parseNatCore_append_digit,
        ih (n / 10) (Nat.div_lt_self (by omega) (by omega)),
        digitVal_digitChar (Nat.mod_lt _ (by omega))]
      omega

theorem parseNat_natDigits (n : Nat) : parseNat (natDigits n) = some n := by
  have h1 := natDigits_ne_nil n
  have h2 := natDigits_all_digits n
  simp only [parseNat, List.isEmpty_iff]
  rw [if_neg h1, if_pos (by simpa using List.all_eq_true.mpr h2)]
  rw [parseNatCore_natDigits]

theorem natDigits_injective : Function.Injective natDigits := by
  intro a b h
  have := parseNatCore_natDigits a
  rw [h, parseNatCore_natDigits] at this
  omega

theorem natDigits_head_ne_zero {n : Nat} (hn : 1 ≤ n) :
    ∀ t, natDigits n ≠ '0' :: t := by
  induction n using Nat.strong_induction_on with
  | _ n ih =>
    intro t h
    rw [natDigits_eq] at h
    by_cases h10 : n < 10
    · rw [if_pos h10] at h
      have : digitChar n = '0' := by
        have := List.head_eq_of_cons_eq h
        exact this
      rw [digitChar_eq_zero_iff h10] at this
      omega
    · rw [if_neg h10] at h
      obtain ⟨hd, tl, hcons⟩ := List.exists_cons_of_ne_nil (natDigits_ne_nil (n / 10))
      rw [hcons] at h
      simp only [List.cons_append, List.cons.injEq] at h
      have hge : 1 ≤ n / 10 := by
        have h10' : 10 ≤ n := by omega
        exact Nat.le_div_iff_mul_le (by omega) |>.mpr (by omega)
      exact ih (n / 10) (Nat.div_lt_self (by omega) (by omega)) hge
        tl (by rw [hcons, h.1])

theorem natDigits_zero : natDigits 0 = ['0'] := by decide

theorem natDigits_eq_zero_iff {n : Nat} : natDigits n = ['0'] ↔ n = 0 := by
  constructor
  · intro h
    have := parseNatCore_natDigits n
    rw [h] at this
    simpa [parseNatCore, digitVal] using this.symm
  · rintro rfl
    decide

theorem natDigits_append_ne_zero_cons {n : Nat} (hn : 1 ≤ n) (t s : PyStr) :
    natDigits n ++ t ≠ '0' :: s := by
  intro h
  obtain ⟨hd, tl, hcons⟩ := List.exists_cons_of_ne_nil (natDigits_ne_nil n)
  rw [hcons] at h
  simp only [List.cons_append, List.cons.injEq] at h
  exact natDigits_head_ne_zero hn tl (by rw [hcons, h.1])

theorem not_zero_dot_prefix {n : Nat} (hn : 1 ≤ n) (t : PyStr) :
    ¬ ('0' :: '.' :: [] <+: natDigits n ++ t) := by
  rintro ⟨s, hs⟩
  exact natDigits_append_ne_zero_cons hn t ('.' :: s) hs.symm

theorem takeWhile_append_cons {p : Char → Bool} (l : PyStr) (a : Char) (r : PyStr)
    (hl : ∀ c ∈ l, p c = true) (ha : p a = false) :
    (l ++ a :: r).takeWhile p = l := by
  induction l with
  | nil => simp [List.takeWhile, ha]
  | cons c cs ih =>
    have hc : p c = true := hl c (by simp)
    simp only [List.cons_append, List.takeWhile_cons, hc, if_true]
    rw [ih (fun d hd => hl d (by simp [hd]))]

/-! ## The development-status classifier (C1)

`get_development_status` in `pyproject_toml_builder.py` and
`FromFiles._get_development_status` in `setup_builder.py` share the same
decision structure; they differ only in their marker lists, so the shared
body is `devStatusCore` applied to each file's marker constants. -/

/-- Python's `needle in haystack` on strings: substring containment. -/
def pyIn (needle hay : PyStr) : Bool := decide (needle <:+: hay)

/-- `any(k in commit_message for k in markers)`. -/
def anyMarker (markers : List PyStr) (msg : PyStr) : Bool :=
  markers.any (fun k => pyIn k msg)

/-- `SEMANTIC_RELEASE_MAJOR` in `pyproject_toml_builder.py`. -/
def SEMANTIC_RELEASE_MAJOR : List PyStr := ["[major]".data]

/-- `SEMANTIC_RELEASE_MINOR` in `pyproject_toml_builder.py`. -/
def SEMANTIC_RELEASE_MINOR : List PyStr := ["[minor]".data, "[feature]".data]

/-- `SEMANTIC_RELEASE_PATCH` in `pyproject_toml_builder.py`. -/
def SEMANTIC_RELEASE_PATCH : List PyStr := ["[patch]".data, "[fix]".data]

/-- `SEMANTIC_RELEASE_MAJOR` in `setup_builder.py`. -/
def CFG_SEMANTIC_RELEASE_MAJOR : List PyStr := ["[major]".data]

/-- `SEMANTIC_RELEASE_MINOR` in `setup_builder.py` (no `[feature]`). -/
def CFG_SEMANTIC_RELEASE_MINOR : List PyStr := ["[minor]".data]

/-- `SEMANTIC_RELEASE_PATCH` in `setup_builder.py`. -/
def CFG_SEMANTIC_RELEASE_PATCH : List PyStr := ["[fix]".data, "[patch]".data]

def DEV_STATUS_PREALPHA_0_0_0 : PyStr := "Development Status :: 2 - Pre-Alpha".data
def DEV_STATUS_ALPHA_0_0_Z : PyStr := "Development Status :: 3 - Alpha".data
def DEV_STATUS_BETA_0_Y_Z : PyStr := "Development Status :: 4 - Beta".data
def DEV_STATUS_PROD_X_Y_Z : PyStr := "Development Status :: 5 - Production/Stable".data

/-- Shared body of the two classifiers; `none` models the trailing
`raise Exception(...)` (and a `ValueError` from `int(...)`). -/
def devStatusCore (majors minors patches : List PyStr)
    (version : PyStr) (patch_without_tag : Bool) (commit_message : PyStr) :
    Option PyStr :=
  let pending_major := anyMarker majors commit_message
  let pending_minor := anyMarker minors commit_message
  let pending_patch := patch_without_tag || anyMarker patches commit_message
  if version = "0.0.0".data then
    if pending_major then some DEV_STATUS_PROD_X_Y_Z
    else if pending_minor then some DEV_STATUS_BETA_0_Y_Z
    else if pending_patch then some DEV_STATUS_ALPHA_0_0_Z
    else some DEV_STATUS_PREALPHA_0_0_0
  else if "0.0.".data <+: version then
    if pending_major then some DEV_STATUS_PROD_X_Y_Z
    else if pending_minor then some DEV_STATUS_BETA_0_Y_Z
    else some DEV_STATUS_ALPHA_0_0_Z
  else if "0.".data <+: version then
    if pending_major then some DEV_STATUS_PROD_X_Y_Z
    else some DEV_STATUS_BETA_0_Y_Z
  else
    match parseNat (version.takeWhile (· ≠ '.')) with
    | some n => if 1 ≤ n then some DEV_STATUS_PROD_X_Y_Z else none
    | none => none

/-- `get_development_status` (pyproject_toml_builder.py, lines 256-310). -/
def get_development_status (version : PyStr) (patch_without_tag : Bool)
    (commit_message : PyStr) : Option PyStr :=
  devStatusCore SEMANTIC_RELEASE_MAJOR SEMANTIC_RELEASE_MINOR
    SEMANTIC_RELEASE_PATCH version patch_without_tag commit_message

/-- `FromFiles._get_development_status` (setup_builder.py, lines 356-408),
with `self._bsec.get_patch_without_tag()` already resolved to a boolean. -/
def cfg_get_development_status (version : PyStr) (patch_without_tag : Bool)
    (commit_message : PyStr) : Option PyStr :=
  devStatusCore CFG_SEMANTIC_RELEASE_MAJOR CFG_SEMANTIC_RELEASE_MINOR
    CFG_SEMANTIC_RELEASE_PATCH version patch_without_tag commit_message

/-- The version string `"X.Y.Z"` rendered from numeric components. -/
def mkVersion (x y z : Nat) : PyStr :=
  natDigits x ++ '.' :: (natDigits y ++ '.' :: natDigits z)

/-- The development-status priority table, written from the spec's §4.1. -/
def spec_development_status (x y z : Nat)
    (hasMajor hasMinor hasPatch patch_without_tag : Bool) : PyStr :=
  if 1 ≤ x then DEV_STATUS_PROD_X_Y_Z
  else if 1 ≤ y then
    if hasMajor then DEV_STATUS_PROD_X_Y_Z else DEV_STATUS_BETA_0_Y_Z
  else if 1 ≤ z then
    if hasMajor then DEV_STATUS_PROD_X_Y_Z
    else if hasMinor then DEV_STATUS_BETA_0_Y_Z
    else DEV_STATUS_ALPHA_0_0_Z
  else
    if hasMajor then DEV_STATUS_PROD_X_Y_Z
    else if hasMinor then DEV_STATUS_BETA_0_Y_Z
    else if hasPatch || patch_without_tag then DEV_STATUS_ALPHA_0_0_Z
    else DEV_STATUS_PREALPHA_0_0_0

theorem devStatusCore_mkVersion (majors minors patches : List PyStr)
    (x y z : Nat) (flag : Bool) (msg : PyStr) :
    devStatusCore majors minors patches (mkVersion x y z) flag msg =
      some (spec_development_status x y z (anyMarker majors msg)
        (anyMarker minors msg) (anyMarker patches msg) flag) := by
  rcases Nat.eq_zero_or_pos x with hx | hx
  · subst hx
    rcases Nat.eq_zero_or_pos y with hy | hy
    · subst hy
      rcases Nat.eq_zero_or_pos z with hz | hz
      · subst hz
        have hv : mkVersion 0 0 0 = "0.0.0".data := by decide
        simp only [devStatusCore, spec_development_status, hv, if_pos rfl]
        split_ifs <;> first | rfl | omega | tauto | (simp [Bool.or_comm] at *; done) | simp_all | simp [Bool.or_comm] at *
      · have hv : mkVersion 0 0 z = '0' :: '.' :: '0' :: '.' :: natDigits z := by
          simp [mkVersion, natDigits_zero]
        have hne : mkVersion 0 0 z ≠ "0.0.0".data := by
          rw [hv]
          intro h
          simp only [show ("0.0.0".data : PyStr) = '0' :: '.' :: '0' :: '.' :: ['0'] from rfl,
            List.cons.injEq] at h
          have : natDigits z = ['0'] := by tauto
          rw [natDigits_eq_zero_iff] at this
          omega
        have hpre : ("0.0.".data : PyStr) <+: mkVersion 0 0 z := by
          rw [hv]
          exact ⟨natDigits z, rfl⟩
        simp only [devStatusCore, spec_development_status, if_neg hne, if_pos hpre]
        simp only [show ¬ (1:Nat) ≤ 0 by omega, if_false]
        rw [if_pos (by omega : 1 ≤ z)]
        split_ifs <;> first | rfl | omega | tauto | (simp [Bool.or_comm] at *; done) | simp_all | simp [Bool.or_comm] at *
    · have hv : mkVersion 0 y z =
          '0' :: '.' :: (natDigits y ++ '.' :: natDigits z) := by
        simp [mkVersion, natDigits_zero]
      have hne : mkVersion 0 y z ≠ "0.0.0".data := by
        rw [hv]
        intro h
        simp only [show ("0.0.0".data : PyStr) = '0' :: '.' :: ('0' :: '.' :: ['0']) from rfl,
          List.cons.injEq] at h
        exact natDigits_append_ne_zero_cons hy _ _ (by tauto)
      have hnpre : ¬ (("0.0.".data : PyStr) <+: mkVersion 0 y z) := by
        rw [hv]
        rintro ⟨s, hs⟩
        simp only [show ("0.0.".data : PyStr) = '0' :: '.' :: ('0' :: '.' :: []) from rfl,
          List.cons_append, List.cons.injEq] at hs
        exact natDigits_append_ne_zero_cons hy _ _ (by tauto)
      have hpre : ("0.".data : PyStr) <+: mkVersion 0 y z := by
        rw [hv]
        exact ⟨natDigits y ++ '.' :: natDigits z, rfl⟩
      simp only [devStatusCore, spec_development_status,
        if_neg hne, if_neg hnpre, if_pos hpre]
      simp only [show ¬ (1:Nat) ≤ 0 by omega, if_false]
      rw [if_pos (by omega : 1 ≤ y)]
      split_ifs <;> first | rfl | omega | tauto | (simp [Bool.or_comm] at *; done) | simp_all
  · have hform : mkVersion x y z =
        natDigits x ++ '.' :: (natDigits y ++ '.' :: natDigits z) := rfl
    have hne : mkVersion x y z ≠ "0.0.0".data := by
      rw [hform]
      intro h
      exact natDigits_append_ne_zero_cons hx _ _ h
    have hnpre2 : ¬ (("0.0.".data : PyStr) <+: mkVersion x y z) := by
      rintro ⟨s, hs⟩
      rw [hform] at hs
      exact natDigits_append_ne_zero_cons hx _ _ hs.symm
    have hnpre1 : ¬ (("0.".data : PyStr) <+: mkVersion x y z) := by
      rintro ⟨s, hs⟩
      rw [hform] at hs
      exact natDigits_append_ne_zero_cons hx _ _ hs.symm
    have htake : (mkVersion x y z).takeWhile (· ≠ '.') = natDigits x := by
      rw [hform]
      refine takeWhile_append_cons _ _ _ (fun c hc => ?_) (by simp)
      have := natDigits_all_digits x c hc
      simp only [decide_eq_true_eq, ne_eq]
      intro hdot
      rw [hdot] at this
      simp [isDigitChar] at this
    simp only [devStatusCore, spec_development_status,
      if_neg hne, if_neg hnpre2, if_neg hnpre1, htake, parseNat_natDigits]
    rw [if_pos (show 1 ≤ x from hx), if_pos (show 1 ≤ x from hx)]

/-- C1: For every version of shape `X.Y.Z` (numeric components), every commit
message, and every `patch_without_tag` flag, both development-status
classifiers (`get_development_status` in the TOML builder and
`FromFiles._get_development_status` in the cfg builder, each with its own
marker lists) return exactly the status of the spec's priority table:
at `0.0.0` major ⇒ Production/Stable, else minor ⇒ Beta, else patch marker
or flag ⇒ Alpha, else Pre-Alpha; at `0.0.Z` (Z>0) major ⇒ Production/Stable,
else minor ⇒ Beta, else Alpha; at `0.Y.Z` (Y>0) major ⇒ Production/Stable,
else Beta; at `X.Y.Z` (X≥1) always Production/Stable. -/
theorem C1_development_status_matches_table (x y z : Nat) (msg : PyStr) (flag : Bool) :
    get_development_status (mkVersion x y z) flag msg =
      some (spec_development_status x y z
        (anyMarker SEMANTIC_RELEASE_MAJOR msg)
        (anyMarker SEMANTIC_RELEASE_MINOR msg)
        (anyMarker SEMANTIC_RELEASE_PATCH msg) flag) ∧
    cfg_get_development_status (mkVersion x y z) flag msg =
      some (spec_development_status x y z
        (anyMarker CFG_SEMANTIC_RELEASE_MAJOR msg)
        (anyMarker CFG_SEMANTIC_RELEASE_MINOR msg)
        (anyMarker CFG_SEMANTIC_RELEASE_PATCH msg) flag) :=
  ⟨devStatusCore_mkVersion _ _ _ x y z flag msg,
   devStatusCore_mkVersion _ _ _ x y z flag msg⟩

/-! ## Python release-range computation (C5, C8) -/

theorem dropWhile_append_cons {p : Char → Bool} (l : PyStr) (a : Char) (r : PyStr)
    (hl : ∀ c ∈ l, p c = true) (ha : p a = false) :
    (l ++ a :: r).dropWhile p = a :: r := by
  induction l with
  | nil => simp [List.dropWhile, ha]
  | cons c cs ih =>
    have hc : p c = true := hl c (by simp)
    simp only [List.cons_append, List.dropWhile_cons, hc, if_true]
    exact ih (fun d hd => hl d (by simp [hd]))

/-- `GHAInput.get_requires_python` (pyproject_toml_builder.py, lines 132-137):
`f">={min0}.{min1}, <{max0}.{max1 + 1}"`. -/
def get_requires_python (python_min python_max : Nat × Nat) : PyStr :=
  ">=".data ++ natDigits python_min.1 ++ ".".data ++ natDigits python_min.2
    ++ ", <".data ++ natDigits python_max.1 ++ ".".data ++ natDigits (python_max.2 + 1)

/-- `GHAInput.python_classifiers` (pyproject_toml_builder.py, lines 139-147):
one classifier per minor release in `range(min1, max1 + 1)`. -/
def python_classifiers (python_min python_max : Nat × Nat) : List PyStr :=
  (List.range' python_min.2 (python_max.2 + 1 - python_min.2)).map
    (fun r => "Programming Language :: Python :: 3.".data ++ natDigits r)

/-- The regex `(?P<maj>\d+)\.(?P<min>\d+)$` of
`BuilderSection._python3_min_max.get_py3_minor`, `re.match`-anchored at both
ends: digits, a dot, digits, nothing else. -/
def parseRelease (s : PyStr) : Option (Nat × Nat) :=
  let a := s.takeWhile isDigitChar
  match s.dropWhile isDigitChar with
  | '.' :: b =>
    if a.isEmpty then none
    else if b.isEmpty then none
    else if b.all isDigitChar then some (parseNatCore a, parseNatCore b)
    else none
  | _ => none

/-- `get_py3_minor` (setup_builder.py, lines 118-134): parse `"maj.min"`,
reject a major version `< 3` or `≥ 4`, return the minor. -/
def get_py3_minor (py_release : PyStr) : Except PyStr Nat :=
  match parseRelease py_release with
  | none => .error "is not a valid release".data
  | some (major, minor) =>
    if major < 3 then .error "does not work for python <3.".data
    else if 4 ≤ major then .error "does not work for python 4+.".data
    else .ok minor

/-- Python `sorted` on a two-element list of int pairs (lexicographic, stable). -/
def pySort2 (a b : Nat × Nat) : (Nat × Nat) × (Nat × Nat) :=
  if a.1 < b.1 ∨ (a.1 = b.1 ∧ a.2 ≤ b.2) then (a, b) else (b, a)

/-- `BuilderSection._python3_min_max` (setup_builder.py, lines 115-143), with
the latest-python-release collaborator value passed in as `latest`. -/
def python3_min_max (python_min python_max : PyStr) (latest : Nat × Nat) :
    Except PyStr ((Nat × Nat) × (Nat × Nat)) := do
  let min_minor ← get_py3_minor python_min
  if python_max.isEmpty then
    .ok (pySort2 (3, min_minor) latest)
  else
    let max_minor ← get_py3_minor python_max
    .ok (pySort2 (3, min_minor) (3, max_minor))

/-- `BuilderSection.python_requires` (setup_builder.py, lines 145-151). -/
def cfg_python_requires (python_min python_max : PyStr) (latest : Nat × Nat) :
    Except PyStr PyStr := do
  let mm ← python3_min_max python_min python_max latest
  .ok (">=".data ++ natDigits mm.1.1 ++ ".".data ++ natDigits mm.1.2
    ++ ", <".data ++ natDigits mm.2.1 ++ ".".data ++ natDigits (mm.2.2 + 1))

/-- `BuilderSection.python_classifiers` (setup_builder.py, lines 153-163). -/
def cfg_python_classifiers (python_min python_max : PyStr) (latest : Nat × Nat) :
    Except PyStr (List PyStr) := do
  let mm ← python3_min_max python_min python_max latest
  .ok ((List.range' mm.1.2 (mm.2.2 + 1 - mm.1.2)).map
    (fun r => "Programming Language :: Python :: 3.".data ++ natDigits r))

/-- The python min/max major-version validation loop of
`GHAInput.__post_init__` (pyproject_toml_builder.py, lines 118-130). -/
def validate_python_bounds (python_min python_max : Nat × Nat) :
    Except PyStr Unit :=
  if python_min.1 < 3 then .error "does not work for python <3.".data
  else if 4 ≤ python_min.1 then .error "does not work for python 4+.".data
  else if python_max.1 < 3 then .error "does not work for python <3.".data
  else if 4 ≤ python_max.1 then .error "does not work for python 4+.".data
  else .ok ()

theorem parseRelease_mk (a b : Nat) :
    parseRelease (natDigits a ++ '.' :: natDigits b) = some (a, b) := by
  have hdots : ∀ c ∈ natDigits a, isDigitChar c = true := natDigits_all_digits a
  have hdot : isDigitChar '.' = false := by decide
  simp only [parseRelease, takeWhile_append_cons _ _ _ hdots hdot,
    dropWhile_append_cons _ _ _ hdots hdot]
  rw [if_neg (by simp [List.isEmpty_iff, natDigits_ne_nil]),
    if_neg (by simp [List.isEmpty_iff, natDigits_ne_nil]),
    if_pos (by simpa using List.all_eq_true.mpr (natDigits_all_digits b))]
  rw [parseNatCore_natDigits, parseNatCore_natDigits]

theorem get_py3_minor_mk (a b : Nat) (ha : a = 3) :
    get_py3_minor (natDigits a ++ '.' :: natDigits b) = .ok b := by
  subst ha
  simp [get_py3_minor, parseRelease_mk]

/-- Count of each classifier string in the generated list. -/
theorem count_python_classifiers (m M r : Nat) :
    (python_classifiers (3, m) (3, M)).count
        ("Programming Language :: Python :: 3.".data ++ natDigits r)
      = if m ≤ r ∧ r ≤ M then 1 else 0 := by
  have hmap : ∀ (l : List Nat),
      (l.map (fun t =>
          ("Programming Language :: Python :: 3.".data ++ natDigits t : PyStr))).count
        ("Programming Language :: Python :: 3.".data ++ natDigits r) = l.count r := by
    intro l
    induction l with
    | nil => simp
    | cons a t ih =>
      simp only [List.map_cons, List.count_cons, ih]
      congr 1
      by_cases har : a = r
      · subst har
        simp
      · have hne : (("Programming Language :: Python :: 3.".data ++ natDigits a : PyStr)
            == "Programming Language :: Python :: 3.".data ++ natDigits r) = false := by
          simp only [beq_eq_false_iff_ne, ne_eq]
          exact fun h => har (natDigits_injective (List.append_cancel_left h))
        simp [hne, har, natDigits_injective.eq_iff]
  rw [python_classifiers, hmap]
  by_cases hmem : r ∈ List.range' m (M + 1 - m)
  · rw [List.count_eq_one_of_mem (List.nodup_range' _ _ _ (by omega)) hmem]
    rw [List.mem_range'_1] at hmem
    rw [if_pos ⟨hmem.1, by omega⟩]
  · rw [List.count_eq_zero_of_not_mem hmem]
    rw [List.mem_range'_1] at hmem
    refine (if_neg (fun hc => hmem ⟨hc.1, by omega⟩)).symm

theorem python3_min_max_mk (m M : Nat) (hmM : m ≤ M) (latest : Nat × Nat) :
    python3_min_max ("3.".data ++ natDigits m) ("3.".data ++ natDigits M) latest
      = .ok ((3, m), (3, M)) := by
  have hgm : get_py3_minor ("3.".data ++ natDigits m) = .ok m := get_py3_minor_mk 3 m rfl
  have hgM : get_py3_minor ("3.".data ++ natDigits M) = .ok M := get_py3_minor_mk 3 M rfl
  have hne : ("3.".data ++ natDigits M : PyStr).isEmpty = false := rfl
  simp only [python3_min_max, hgm, hgM, hne, Bind.bind, Except.bind,
    Bool.false_eq_true, if_false]
  rw [pySort2, if_pos (Or.inr ⟨rfl, hmM⟩)]

/-- C5: For `python_min = (3, m)` and `python_max = (3, M)` with `m ≤ M`, the
requires-python constraint is the string `">=3.m, <3.(M+1)"`, and the
classifier list contains exactly one `"Programming Language :: Python :: 3.r"`
entry for each `r` in `[m, M]` (and none outside); the string-input
`BuilderSection` variant computes the same constraint and the same list. -/
theorem C5_python_range (m M : Nat) (hmM : m ≤ M) (latest : Nat × Nat) :
    get_requires_python (3, m) (3, M)
        = ">=3.".data ++ natDigits m ++ ", <3.".data ++ natDigits (M + 1) ∧
    (∀ r : Nat, (python_classifiers (3, m) (3, M)).count
        ("Programming Language :: Python :: 3.".data ++ natDigits r)
      = if m ≤ r ∧ r ≤ M then 1 else 0) ∧
    cfg_python_requires ("3.".data ++ natDigits m) ("3.".data ++ natDigits M) latest
        = .ok (">=3.".data ++ natDigits m ++ ", <3.".data ++ natDigits (M + 1)) ∧
    cfg_python_classifiers ("3.".data ++ natDigits m) ("3.".data ++ natDigits M) latest
        = .ok (python_classifiers (3, m) (3, M)) := by
  have hfold : ∀ u v : PyStr,
      (">=".data : PyStr) ++ natDigits 3 ++ ".".data ++ u ++ ", <".data
          ++ natDigits 3 ++ ".".data ++ v
        = ">=3.".data ++ u ++ ", <3.".data ++ v := by
    intro u v
    rw [show natDigits 3 = ['3'] from by decide]
    simp only [show (">=".data : PyStr) = ['>', '='] from rfl,
      show ((".".data : PyStr)) = ['.'] from rfl,
      show ((", <".data : PyStr)) = [',', ' ', '<'] from rfl,
      show ((">=3.".data : PyStr)) = ['>', '=', '3', '.'] from rfl,
      show ((", <3.".data : PyStr)) = [',', ' ', '<', '3', '.'] from rfl,
      List.append_assoc, List.cons_append, List.nil_append]
  refine ⟨?_, fun r => count_python_classifiers m M r, ?_, ?_⟩
  · rw [get_requires_python]
    exact hfold (natDigits m) (natDigits (M + 1))
  · simp only [cfg_python_requires, python3_min_max_mk m M hmM latest,
      Bind.bind, Except.bind, Except.ok.injEq]
    exact hfold (natDigits m) (natDigits (M + 1))
  · simp only [cfg_python_classifiers, python3_min_max_mk m M hmM latest,
      Bind.bind, Except.bind]
    rfl

/-- Witness for C5 at the spec's concrete example: `python_min = (3,6)`,
latest release `3.11`. -/
theorem C5_python_range_witness :
    get_requires_python (3, 6) (3, 11) = ">=3.6, <3.12".data ∧
    (python_classifiers (3, 6) (3, 11)).count
        "Programming Language :: Python :: 3.7".data = 1 ∧
    (python_classifiers (3, 6) (3, 11)).count
        "Programming Language :: Python :: 3.12".data = 0 ∧
    cfg_python_requires "3.6".data "3.11".data (3, 12) = .ok ">=3.6, <3.12".data := by
  have h := C5_python_range 6 11 (by omega) (3, 12)
  have h36 : ("3.".data ++ natDigits 6 : PyStr) = "3.6".data := by decide
  have h311 : ("3.".data ++ natDigits 11 : PyStr) = "3.11".data := by decide
  refine ⟨?_, ?_, ?_, ?_⟩
  · rw [h.1]
    decide
  · have h7 := h.2.1 7
    rw [show ("Programming Language :: Python :: 3.".data ++ natDigits 7 : PyStr)
        = "Programming Language :: Python :: 3.7".data from by decide] at h7
    rw [h7]
    decide
  · have h12 := h.2.1 12
    rw [show ("Programming Language :: Python :: 3.".data ++ natDigits 12 : PyStr)
        = "Programming Language :: Python :: 3.12".data from by decide] at h12
    rw [h12]
    decide
  · have hc := h.2.2.1
    rw [h36, h311] at hc
    rw [hc]
    simp only [Except.ok.injEq]
    decide

/-- C8: a supplied python bound whose major component is `< 3` or `≥ 4` is
rejected by input validation in both builders (for every minor component),
and a bound with major component exactly 3 passes the major-version check. -/
theorem C8_python_major_validation (maj minor : Nat) :
    (maj < 3 ∨ 4 ≤ maj →
      (∃ e, validate_python_bounds (maj, minor) (3, 0) = .error e) ∧
      (∃ e, validate_python_bounds (3, 0) (maj, minor) = .error e) ∧
      (∃ e, get_py3_minor (natDigits maj ++ '.' :: natDigits minor) = .error e)) ∧
    (maj = 3 →
      validate_python_bounds (maj, minor) (maj, minor) = .ok () ∧
      get_py3_minor (natDigits maj ++ '.' :: natDigits minor) = .ok minor) := by
  constructor
  · rintro (h | h)
    · have h3 : ¬ (3:Nat) < 3 := by omega
      have h43 : ¬ (4:Nat) ≤ 3 := by omega
      refine ⟨⟨"does not work for python <3.".data, ?_⟩,
        ⟨"does not work for python <3.".data, ?_⟩,
        ⟨"does not work for python <3.".data, ?_⟩⟩
      · simp [validate_python_bounds, h]
      · simp [validate_python_bounds, h, h3, h43]
      · simp [get_py3_minor, parseRelease_mk, h]
    · have h3 : ¬ maj < 3 := by omega
      have h33 : ¬ (3:Nat) < 3 := by omega
      have h43 : ¬ (4:Nat) ≤ 3 := by omega
      refine ⟨⟨"does not work for python 4+.".data, ?_⟩,
        ⟨"does not work for python 4+.".data, ?_⟩,
        ⟨"does not work for python 4+.".data, ?_⟩⟩
      · simp [validate_python_bounds, h, h3]
      · simp [validate_python_bounds, h, h3, h33, h43]
      · simp [get_py3_minor, parseRelease_mk, h, h3]
  · rintro rfl
    refine ⟨?_, get_py3_minor_mk 3 minor rfl⟩
    simp [validate_python_bounds]

/-- Witness for C8 at `maj = 2` and `maj = 3`, `minor = 7`. -/
theorem C8_python_major_validation_witness :
    (∃ e, validate_python_bounds (2, 7) (3, 0) = .error e) ∧
    validate_python_bounds (3, 7) (3, 7) = .ok () ∧
    get_py3_minor (natDigits 3 ++ '.' :: natDigits 7) = .ok 7 := by
  refine ⟨((C8_python_major_validation 2 7).1 (Or.inl (by omega))).1,
    ((C8_python_major_validation 3 7).2 rfl).1,
    ((C8_python_major_validation 3 7).2 rfl).2⟩

/-! ## ensure_dependabot.py (C4, C10)

YAML values are modelled by the inductive `YVal`; a parsed document is an
association list of top-level keys (`YDict`). Python `==` on parsed YAML
values is the structural test `yeq`. -/

inductive YVal where
  | str (s : PyStr)
  | int (n : Int)
  | bool (b : Bool)
  | list (xs : List YVal)
  | map (kvs : List (PyStr × YVal))

mutual

/-- Structural equality on YAML values: Python `==` on parsed YAML data. -/
def yeq : YVal → YVal → Bool
  | .str a, .str b => a == b
  | .int a, .int b => a == b
  | .bool a, .bool b => a == b
  | .list xs, .list ys => yeqList xs ys
  | .map xs, .map ys => yeqMap xs ys
  | _, _ => false

def yeqList : List YVal → List YVal → Bool
  | [], [] => true
  | x :: xs, y :: ys => yeq x y && yeqList xs ys
  | _, _ => false

def yeqMap : List (PyStr × YVal) → List (PyStr × YVal) → Bool
  | [], [] => true
  | (k1, v1) :: xs, (k2, v2) :: ys => k1 == k2 && yeq v1 v2 && yeqMap xs ys
  | _, _ => false

end

/-- Python `obj.get(k)` on a dict value (`None`, i.e. `none`, otherwise). -/
def yget (v : YVal) (k : PyStr) : Option YVal :=
  match v with
  | .map kvs => (kvs.find? (fun p => p.1 == k)).map (·.2)
  | _ => none

/-- Python `==` on two optional values (`None == None` is `True`). -/
def optYeq : Option YVal → Option YVal → Bool
  | none, none => true
  | some a, some b => yeq a b
  | _, _ => false

/-- `isinstance(obj, dict)`. -/
def YVal.isDict : YVal → Bool
  | .map _ => true
  | _ => false

/-- `CANON_PIP` (ensure_dependabot.py, lines 17-21). -/
def CANON_PIP : YVal := .map
  [("package-ecosystem".data, .str "pip".data),
   ("directory".data, .str "/".data),
   ("schedule".data, .map [("interval".data, .str "weekly".data)])]

/-- `CANON_GHA` (ensure_dependabot.py, lines 22-26). -/
def CANON_GHA : YVal := .map
  [("package-ecosystem".data, .str "github-actions".data),
   ("directory".data, .str "/".data),
   ("schedule".data, .map [("interval".data, .str "weekly".data)])]

/-- The per-entry match test inside `upsert_exact` (lines 54-59):
`isinstance(obj, dict) and obj.get("package-ecosystem") == desired[...]
and obj.get("directory") == desired[...]` (`desired` always carries both
keys, so indexing it is modelled by `yget`). -/
def upsertMatches (obj desired : YVal) : Bool :=
  obj.isDict
    && optYeq (yget obj "package-ecosystem".data) (yget desired "package-ecosystem".data)
    && optYeq (yget obj "directory".data) (yget desired "directory".data)

/-- `upsert_exact` (ensure_dependabot.py, lines 51-62): replace the first
matching entry in place; append `desired` when nothing matches. -/
def upsert_exact (updates : List YVal) (desired : YVal) : List YVal :=
  match updates with
  | [] => [desired]
  | obj :: rest =>
    if upsertMatches obj desired then desired :: rest
    else obj :: upsert_exact rest desired

instance : Inhabited YVal := ⟨.int 0⟩

/-- A parsed top-level YAML document (a dict). -/
abbrev YDict := List (PyStr × YVal)

/-- Python `d.get(k)` on the top-level document (first occurrence). -/
def alGet {α : Type} : List (PyStr × α) → PyStr → Option α
  | [], _ => none
  | (k', v) :: t, k => if k' = k then some v else alGet t k

/-- Python `d[k] = v`: overwrite the key's value in place when present
(keeping its position), else append the new key at the end. -/
def alSet {α : Type} : List (PyStr × α) → PyStr → α → List (PyStr × α)
  | [], k, v => [(k, v)]
  | (k', v') :: t, k, v =>
    if k' = k then (k', v) :: t else (k', v') :: alSet t k v

/-- Python `k in d` on a dict. -/
def alHas {α : Type} (d : List (PyStr × α)) (k : PyStr) : Bool :=
  (alGet d k).isSome

def dictGet (d : YDict) (k : PyStr) : Option YVal := alGet d k

def dictSet (d : YDict) (k : PyStr) (v : YVal) : YDict := alSet d k v

theorem alGet_alSet_same {α : Type} (d : List (PyStr × α)) (k : PyStr) (v : α) :
    alGet (alSet d k v) k = some v := by
  induction d with
  | nil => simp [alGet, alSet]
  | cons a t ih =>
    obtain ⟨k0, v0⟩ := a
    by_cases hk : k0 = k
    · simp [alGet, alSet, hk]
    · simp [alGet, alSet, hk, ih]

theorem alGet_alSet_other {α : Type} (d : List (PyStr × α)) (k k' : PyStr) (v : α)
    (h : k ≠ k') : alGet (alSet d k' v) k = alGet d k := by
  induction d with
  | nil => simp [alGet, alSet, Ne.symm h]
  | cons a t ih =>
    obtain ⟨k0, v0⟩ := a
    by_cases h0 : k0 = k'
    · subst h0
      simp [alGet, alSet, Ne.symm h]
    · by_cases h1 : k0 = k <;> simp [alGet, alSet, h0, h1, ih, h]

theorem dictGet_dictSet_same (d : YDict) (k : PyStr) (v : YVal) :
    dictGet (dictSet d k v) k = some v := alGet_alSet_same d k v

theorem dictGet_dictSet_other (d : YDict) (k k' : PyStr) (v : YVal) (h : k ≠ k') :
    dictGet (dictSet d k' v) k = dictGet d k := alGet_alSet_other d k k' v h

theorem mem_upsert_self (u : List YVal) (d : YVal) : d ∈ upsert_exact u d := by
  induction u with
  | nil => simp [upsert_exact]
  | cons obj rest ih =>
    rw [upsert_exact]
    by_cases h : upsertMatches obj d = true
    · simp [h]
    · simp only [h, Bool.false_eq_true, if_false, List.mem_cons]
      exact Or.inr ih

theorem mem_upsert_of_mem (u : List YVal) (d e : YVal) (he : e ∈ u)
    (hne : upsertMatches e d = false) : e ∈ upsert_exact u d := by
  induction u with
  | nil => cases he
  | cons obj rest ih =>
    rw [upsert_exact]
    by_cases h : upsertMatches obj d = true
    · rcases List.mem_cons.mp he with heq | he'
      · rw [← heq, hne] at h
        simp at h
      · simp only [h, if_true, List.mem_cons]
        exact Or.inr he'
    · rcases List.mem_cons.mp he with heq | he'
      · simp [h, heq]
      · simp only [h, Bool.false_eq_true, if_false, List.mem_cons]
        exact Or.inr (ih he')

theorem filter_upsert (u : List YVal) (d : YVal) (P : YVal → Bool)
    (hPd : P d = false) (hmatch : ∀ e, upsertMatches e d = true → P e = false) :
    (upsert_exact u d).filter P = u.filter P := by
  induction u with
  | nil => simp [upsert_exact, hPd]
  | cons obj rest ih =>
    rw [upsert_exact]
    by_cases h : upsertMatches obj d = true
    · rw [if_pos h, List.filter_cons, List.filter_cons, hPd, hmatch obj h]
      simp
    · rw [if_neg h, List.filter_cons, List.filter_cons, ih]

theorem upsert_exact_characterization (u : List YVal) (d : YVal) :
    upsert_exact u d =
      match u.findIdx? (fun e => upsertMatches e d) with
      | some i => u.set i d
      | none => u ++ [d] := by
  induction u with
  | nil => rfl
  | cons obj rest ih =>
    rw [upsert_exact]
    by_cases h : upsertMatches obj d = true
    · simp [List.findIdx?_cons, h]
    · simp only [h, Bool.false_eq_true, if_false, List.findIdx?_cons]
      cases hfi : rest.findIdx? (fun e => upsertMatches e d) with
      | some i =>
        rw [hfi] at ih
        simp [hfi, ih]
      | none =>
        rw [hfi] at ih
        simp [hfi, ih]

/-- The entry with pip's key pair but a `monthly` schedule (for the C4
counterexample). -/
def pipMonthly : YVal := .map
  [("package-ecosystem".data, .str "pip".data),
   ("directory".data, .str "/".data),
   ("schedule".data, .map [("interval".data, .str "monthly".data)])]

/-- The entry with pip's key pair but a `daily` schedule (for the C4
counterexample). -/
def pipDaily : YVal := .map
  [("package-ecosystem".data, .str "pip".data),
   ("directory".data, .str "/".data),
   ("schedule".data, .map [("interval".data, .str "daily".data)])]

/-- C4 (amended): after the two upserts of `main`, the result contains both
canonical entries; every entry whose `(package-ecosystem, directory)` pair
matches neither canonical key is preserved unchanged in its original
relative order; and each upsert replaces exactly the FIRST entry whose pair
matches (appending the canonical entry when none matches) — later entries
with a matching pair are preserved, not replaced. -/
theorem C4_upsert_canonical (updates : List YVal) :
    CANON_PIP ∈ upsert_exact (upsert_exact updates CANON_PIP) CANON_GHA ∧
    CANON_GHA ∈ upsert_exact (upsert_exact updates CANON_PIP) CANON_GHA ∧
    (upsert_exact (upsert_exact updates CANON_PIP) CANON_GHA).filter
        (fun e => !upsertMatches e CANON_PIP && !upsertMatches e CANON_GHA)
      = updates.filter
        (fun e => !upsertMatches e CANON_PIP && !upsertMatches e CANON_GHA) ∧
    upsert_exact updates CANON_PIP =
      (match updates.findIdx? (fun e => upsertMatches e CANON_PIP) with
       | some i => updates.set i CANON_PIP
       | none => updates ++ [CANON_PIP]) ∧
    upsert_exact (upsert_exact updates CANON_PIP) CANON_GHA =
      (match (upsert_exact updates CANON_PIP).findIdx?
          (fun e => upsertMatches e CANON_GHA) with
       | some i => (upsert_exact updates CANON_PIP).set i CANON_GHA
       | none => upsert_exact updates CANON_PIP ++ [CANON_GHA]) := by
  have hpg : upsertMatches CANON_PIP CANON_GHA = false := by decide
  refine ⟨?_, ?_, ?_, ?_, ?_⟩
  · exact mem_upsert_of_mem _ _ _ (mem_upsert_self updates CANON_PIP) hpg
  · exact mem_upsert_self _ _
  · rw [filter_upsert _ CANON_GHA _ (by decide) ?hg,
      filter_upsert _ CANON_PIP _ (by decide) ?hp]
    case hg =>
      intro e he
      simp [he]
    case hp =>
      intro e he
      simp [he]
  · exact upsert_exact_characterization _ _
  · exact upsert_exact_characterization _ _

/-- Counterexample to C4 as stated: with two entries both carrying the pip
key pair, only the first is replaced; the second keeps its pair-matching,
non-canonical content in the output. -/
theorem C4_counterexample_duplicate_pair :
    upsert_exact (upsert_exact [pipDaily, pipMonthly] CANON_PIP) CANON_GHA
      = [CANON_PIP, pipMonthly, CANON_GHA] ∧
    upsertMatches pipMonthly CANON_PIP = true ∧
    yeq pipMonthly CANON_PIP = false := by
  refine ⟨rfl, rfl, rfl⟩

/-- The `version` normalization of `load_or_init` (lines 44-45): force
`version` to 2 unless it already equals 2. -/
def versionStep (kvs : YDict) : YDict :=
  match dictGet kvs "version".data with
  | some v => if yeq v (.int 2) then kvs else dictSet kvs "version".data (.int 2)
  | none => dictSet kvs "version".data (.int 2)

/-- The `updates` normalization of `load_or_init` (lines 46-47): force
`updates` to a list. -/
def updatesStep (d : YDict) : YDict :=
  match dictGet d "updates".data with
  | some (.list _) => d
  | _ => dictSet d "updates".data (.list [])

/-- `load_or_init` (ensure_dependabot.py, lines 29-48), on an already-parsed
input: `none` models a missing file; a non-dict parse result becomes `{}`.
(A YAML parse error calls `sys.exit(1)` before any write and is outside this
model.) -/
def load_or_init (input : Option YVal) : YDict :=
  match input with
  | none => [("version".data, .int 2), ("updates".data, .list [])]
  | some d0 => updatesStep (versionStep (match d0 with | .map kvs => kvs | _ => []))

/-- `main` (ensure_dependabot.py, lines 65-84): the document that is written
back to the dependabot config file. -/
def ensure_dependabot_main (input : Option YVal) : YDict :=
  let doc := load_or_init input
  let updates := match dictGet doc "updates".data with
    | some (.list xs) => xs
    | _ => []
  dictSet doc "updates".data
    (.list (upsert_exact (upsert_exact updates CANON_PIP) CANON_GHA))

theorem yeq_int_two {v : YVal} (h : yeq v (.int 2) = true) : v = .int 2 := by
  cases v <;> simp [yeq] at h ⊢
  omega

theorem versionStep_version (kvs : YDict) :
    dictGet (versionStep kvs) "version".data = some (.int 2) := by
  rw [versionStep]
  match hv : dictGet kvs "version".data with
  | some v =>
    show dictGet (if yeq v (.int 2) = true then kvs
      else dictSet kvs "version".data (.int 2)) "version".data = some (.int 2)
    by_cases hy : yeq v (.int 2) = true
    · rw [if_pos hy, hv, yeq_int_two hy]
    · rw [if_neg hy]
      exact dictGet_dictSet_same _ _ _
  | none => exact dictGet_dictSet_same _ _ _

theorem updatesStep_updates (d : YDict) :
    ∃ xs, dictGet (updatesStep d) "updates".data = some (.list xs) := by
  rw [updatesStep]
  match hu : dictGet d "updates".data with
  | some (.list xs) => exact ⟨xs, hu⟩
  | some (.str s) => exact ⟨[], dictGet_dictSet_same _ _ _⟩
  | some (.int n) => exact ⟨[], dictGet_dictSet_same _ _ _⟩
  | some (.bool b) => exact ⟨[], dictGet_dictSet_same _ _ _⟩
  | some (.map m) => exact ⟨[], dictGet_dictSet_same _ _ _⟩
  | none => exact ⟨[], dictGet_dictSet_same _ _ _⟩

theorem updatesStep_version (d : YDict) :
    dictGet (updatesStep d) "version".data = dictGet d "version".data := by
  have hvu : ("version".data : PyStr) ≠ "updates".data := by decide
  rw [updatesStep]
  match hu : dictGet d "updates".data with
  | some (.list xs) => rfl
  | some (.str s) => exact dictGet_dictSet_other _ _ _ _ hvu
  | some (.int n) => exact dictGet_dictSet_other _ _ _ _ hvu
  | some (.bool b) => exact dictGet_dictSet_other _ _ _ _ hvu
  | some (.map m) => exact dictGet_dictSet_other _ _ _ _ hvu
  | none => exact dictGet_dictSet_other _ _ _ _ hvu

theorem load_or_init_invariant (input : Option YVal) :
    dictGet (load_or_init input) "version".data = some (.int 2) ∧
    ∃ xs, dictGet (load_or_init input) "updates".data = some (.list xs) := by
  cases input with
  | none => exact ⟨rfl, [], rfl⟩
  | some d0 =>
    exact ⟨(updatesStep_version _).trans (versionStep_version _), updatesStep_updates _⟩

/-- C10: every document written by `ensure_dependabot` satisfies the
invariant `version = 2` and `updates` is a list, for every prior state of
the input file: missing file, a document parsing to a non-dict value, a
version other than 2, and a non-list updates value are all normalized
before the canonical entries are upserted and the file is written. -/
theorem C10_ensure_dependabot_invariant (input : Option YVal) :
    dictGet (ensure_dependabot_main input) "version".data = some (.int 2) ∧
    ∃ xs, dictGet (ensure_dependabot_main input) "updates".data = some (.list xs) := by
  have hvu : ("version".data : PyStr) ≠ "updates".data := by decide
  obtain ⟨h1, xs, h2⟩ := load_or_init_invariant input
  rw [ensure_dependabot_main]
  exact ⟨(dictGet_dictSet_other _ _ _ _ hvu).trans h1, _, dictGet_dictSet_same _ _ _⟩

/-! ## find_packages.py and package discovery (C9) -/

/-- Python exception kinds distinguished by this development. -/
inductive PyErr where
  | attributeError
  | keyError
  | typeError
  | indexError
  | exception (msg : PyStr)
  deriving DecidableEq

/-- One entry of the repository root directory, as seen by
`root_dir.iterdir()`: its name, whether it is a directory, and whether that
directory contains a file named `__init__.py`. -/
structure DirEntry where
  name : PyStr
  isDir : Bool
  hasInit : Bool

/-- `iterate_dirnames` (find_packages.py, lines 7-21). When `dirs_exclude`
is a non-empty list, the comprehension
`[d.split().split("/") for d in dirs_exclude]` calls `.split` on a `list`
and raises `AttributeError` before the loop yields anything; `None` and the
empty list skip or run an empty comprehension and reach the working loop. -/
def iterate_dirnames (root : List DirEntry) (dirs_exclude : Option (List PyStr)) :
    Except PyErr (List PyStr) :=
  match dirs_exclude with
  | none => .ok ((root.filter (fun d => d.isDir && d.hasInit)).map (·.name))
  | some [] => .ok ((root.filter (fun d => d.isDir && d.hasInit)).map (·.name))
  | some (_ :: _) => .error .attributeError

/-- `GHAInput.exclude_dirs`'s default value
(pyproject_toml_builder.py, lines 87-98). -/
def default_exclude_dirs : List PyStr :=
  ["test".data, "tests".data, "doc".data, "docs".data,
   "resource".data, "resources".data, "example".data, "examples".data]

/-- `FromFiles._get_package_paths` (pyproject_toml_builder.py, lines
167-203), with paths reported root-relative (as names). -/
def toml_get_package_paths (root : List DirEntry) (package_dirs : List PyStr)
    (exclude_dirs : List PyStr) : Except PyErr (List PyStr) := do
  let available_pkgs ← iterate_dirnames root (some exclude_dirs)
  if available_pkgs.isEmpty then
    .error (.exception "No package found".data)
  else if !package_dirs.isEmpty then
    if (package_dirs.filter (fun p => !available_pkgs.contains p)).isEmpty then
      .ok package_dirs
    else
      .error (.exception "Package directory not found".data)
  else if available_pkgs.length > 1 then
    .error (.exception "More than one package found".data)
  else
    .ok (available_pkgs.take 1)

/-- C9: `iterate_dirnames` raises `AttributeError` (before yielding any
name) for every non-empty exclusion list; it acts as a package finder
(directories containing `__init__.py`, nothing excluded) only for `None` or
the empty list; and the TOML builder's discovery, which always receives the
non-empty default exclusion list, therefore always fails with
`AttributeError`. -/
theorem C9_iterate_dirnames_attribute_error (root : List DirEntry)
    (excl : List PyStr) (hne : excl ≠ []) :
    iterate_dirnames root (some excl) = .error .attributeError ∧
    iterate_dirnames root none
      = .ok ((root.filter (fun d => d.isDir && d.hasInit)).map (·.name)) ∧
    iterate_dirnames root (some [])
      = .ok ((root.filter (fun d => d.isDir && d.hasInit)).map (·.name)) ∧
    default_exclude_dirs ≠ [] ∧
    (∀ package_dirs, toml_get_package_paths root package_dirs default_exclude_dirs
      = .error .attributeError) := by
  refine ⟨?_, rfl, rfl, by decide, fun package_dirs => rfl⟩
  match excl with
  | [] => exact absurd rfl hne
  | e :: es => rfl

/-- Witness for C9 at a concrete root and the source's own default list. -/
theorem C9_iterate_dirnames_attribute_error_witness :
    iterate_dirnames [⟨"pkg".data, true, true⟩] (some ["tests".data])
      = .error .attributeError ∧
    toml_get_package_paths [⟨"pkg".data, true, true⟩] [] default_exclude_dirs
      = .error .attributeError := by
  refine ⟨(C9_iterate_dirnames_attribute_error
      [⟨"pkg".data, true, true⟩] ["tests".data] (by decide)).1,
    (C9_iterate_dirnames_attribute_error
      [⟨"pkg".data, true, true⟩] ["tests".data] (by decide)).2.2.2.2 []⟩

/-! ## README badge-block manager (C3)

`READMEMarkdownManager.__init__` (pyproject_toml_builder.py, lines 316-340)
reads the README's lines, drops both delimiter lines and everything between
them, and prepends `badges_lines()` to what is left; `work` writes the
resulting list of strings by concatenation. -/

def REAMDE_BADGES_START_DELIMITER : PyStr :=
  "<!--- Top of README Badges (automated) --->".data

def REAMDE_BADGES_END_DELIMITER : PyStr :=
  "<!--- End of README Badges (automated) --->".data

/-- ASCII whitespace as stripped by Python `str.strip()`. -/
def isPySpace (c : Char) : Bool :=
  c = ' ' || c = '\t' || c = '\n' || c = '\r' || c.toNat = 11 || c.toNat = 12

/-- Drop trailing characters satisfying `p`. -/
def dropTrailing (p : Char → Bool) : PyStr → PyStr
  | [] => []
  | c :: r =>
    match dropTrailing p r with
    | [] => if p c then [] else [c]
    | r' => c :: r'

/-- Python `str.strip()` (restricted to ASCII whitespace). -/
def pyStrip (l : PyStr) : PyStr := dropTrailing isPySpace (l.dropWhile isPySpace)

/-- The inputs `badges_lines` depends on: the repo slug, the GitHub API's
default branch and repo URL, the configured PyPI name (empty = none), and
whether `.circleci/config.yml` exists. -/
structure BadgePolicy where
  github_full_repo : PyStr
  default_branch : PyStr
  url : PyStr
  pypi_name : PyStr
  has_circleci : Bool

/-- `READMEMarkdownManager.badges_lines`'s `badges_line` accumulator
(pyproject_toml_builder.py, lines 347-375). -/
def badges_line (p : BadgePolicy) : PyStr :=
  (if p.has_circleci then
    "[![CircleCI](https://img.shields.io/circleci/build/github/".data
      ++ p.github_full_repo
      ++ ")](https://app.circleci.com/pipelines/github/".data ++ p.github_full_repo
      ++ "?branch=".data ++ p.default_branch ++ "&filter=all) ".data
   else [])
  ++ (if !p.pypi_name.isEmpty then
    "[![PyPI](https://img.shields.io/pypi/v/".data ++ p.pypi_name
      ++ ")](https://pypi.org/project/".data ++ p.pypi_name ++ "/) ".data
   else [])
  ++ "[![GitHub release (latest by date including pre-releases)](https://img.shields.io/github/v/release/".data
      ++ p.github_full_repo ++ "?include_prereleases)](".data ++ p.url ++ "/) ".data
  ++ (if !p.pypi_name.isEmpty then
    "[![Versions](https://img.shields.io/pypi/pyversions/".data ++ p.pypi_name
      ++ ".svg)](https://pypi.org/project/".data ++ p.pypi_name ++ ") ".data
   else [])
  ++ (if !p.pypi_name.isEmpty then
    "[![PyPI - License](https://img.shields.io/pypi/l/".data ++ p.pypi_name
      ++ ")](".data ++ p.url ++ "/blob/".data ++ p.default_branch ++ "/LICENSE) ".data
   else [])
  ++ "[![GitHub issues](https://img.shields.io/github/issues/".data ++ p.github_full_repo
      ++ ")](".data ++ p.url ++ "/issues?q=is%3Aissue+sort%3Aupdated-desc+is%3Aopen) ".data
  ++ "[![GitHub pull requests](https://img.shields.io/github/issues-pr/".data
      ++ p.github_full_repo
      ++ ")](".data ++ p.url ++ "/pulls?q=is%3Apr+sort%3Aupdated-desc+is%3Aopen) ".data

/-- `READMEMarkdownManager.badges_lines` (lines 377-384). -/
def badges_lines (p : BadgePolicy) : List PyStr :=
  [REAMDE_BADGES_START_DELIMITER, "\n".data, pyStrip (badges_line p), "\n".data,
   REAMDE_BADGES_END_DELIMITER, "\n".data]

/-- The keep-loop of `READMEMarkdownManager.__init__` (lines 327-339). -/
def keepLines : Bool → List PyStr → List PyStr
  | _, [] => []
  | in_badges, line :: rest =>
    if pyStrip line = REAMDE_BADGES_START_DELIMITER then keepLines true rest
    else if pyStrip line = REAMDE_BADGES_END_DELIMITER then keepLines false rest
    else if in_badges then keepLines in_badges rest
    else line :: keepLines in_badges rest

/-- `self.lines = self.badges_lines() + lines_to_keep` (line 340). -/
def readme_manager_lines (p : BadgePolicy) (file_lines : List PyStr) : List PyStr :=
  badges_lines p ++ keepLines false file_lines

/-- Python `f.readlines()`: split after each newline, keeping the ends. -/
def splitLines : PyStr → List PyStr
  | [] => []
  | c :: rest =>
    if c = '\n' then ['\n'] :: splitLines rest
    else
      match splitLines rest with
      | [] => [[c]]
      | l :: ls => (c :: l) :: ls

/-- One full run on the README bytes: read lines, rebuild, write them all
(`work`, lines 654-657). -/
def readme_run (p : BadgePolicy) (content : PyStr) : PyStr :=
  (readme_manager_lines p (splitLines content)).flatten

/-- A well-formed README line: non-empty, ends with a newline, and has no
interior newline. -/
def IsNlLine (l : PyStr) : Prop :=
  l ≠ [] ∧ l.getLast? = some '\n' ∧ '\n' ∉ l.dropLast

theorem keepLines_subset {b : Bool} {ls : List PyStr} {l : PyStr}
    (h : l ∈ keepLines b ls) : l ∈ ls := by
  induction ls generalizing b with
  | nil => cases h
  | cons a t ih =>
    rw [keepLines] at h
    split at h
    · exact List.mem_cons_of_mem _ (ih h)
    · split at h
      · exact List.mem_cons_of_mem _ (ih h)
      · split at h
        · exact List.mem_cons_of_mem _ (ih h)
        · rcases List.mem_cons.mp h with rfl | h'
          · exact List.mem_cons_self _ _
          · exact List.mem_cons_of_mem _ (ih h')

theorem keepLines_no_delim {b : Bool} {ls : List PyStr} {l : PyStr}
    (h : l ∈ keepLines b ls) :
    pyStrip l ≠ REAMDE_BADGES_START_DELIMITER ∧
    pyStrip l ≠ REAMDE_BADGES_END_DELIMITER := by
  induction ls generalizing b with
  | nil => cases h
  | cons a t ih =>
    rw [keepLines] at h
    split at h
    · exact ih h
    · split at h
      · exact ih h
      · split at h
        · exact ih h
        · rcases List.mem_cons.mp h with rfl | h'
          · constructor <;> assumption
          · exact ih h'

theorem keepLines_id {ls : List PyStr}
    (h : ∀ l ∈ ls, pyStrip l ≠ REAMDE_BADGES_START_DELIMITER ∧
      pyStrip l ≠ REAMDE_BADGES_END_DELIMITER) :
    keepLines false ls = ls := by
  induction ls with
  | nil => rfl
  | cons a t ih =>
    have ha := h a (by simp)
    rw [keepLines, if_neg ha.1, if_neg ha.2]
    simp only [Bool.false_eq_true, if_false]
    rw [ih (fun l hl => h l (by simp [hl]))]

theorem keepLines_skip {ls : List PyStr} (rest : List PyStr)
    (h : ∀ l ∈ ls, pyStrip l ≠ REAMDE_BADGES_START_DELIMITER ∧
      pyStrip l ≠ REAMDE_BADGES_END_DELIMITER) :
    keepLines true (ls ++ rest) = keepLines true rest := by
  induction ls with
  | nil => rfl
  | cons a t ih =>
    have ha := h a (by simp)
    rw [List.cons_append, keepLines, if_neg ha.1, if_neg ha.2, if_pos rfl]
    exact ih (fun l hl => h l (by simp [hl]))

theorem keepLines_keep_pfx {ls : List PyStr} (rest : List PyStr)
    (h : ∀ l ∈ ls, pyStrip l ≠ REAMDE_BADGES_START_DELIMITER ∧
      pyStrip l ≠ REAMDE_BADGES_END_DELIMITER) :
    keepLines false (ls ++ rest) = ls ++ keepLines false rest := by
  induction ls with
  | nil => rfl
  | cons a t ih =>
    have ha := h a (by simp)
    rw [List.cons_append, keepLines, if_neg ha.1, if_neg ha.2]
    simp only [Bool.false_eq_true, if_false, List.cons_append, List.cons.injEq]
    exact ⟨trivial, ih (fun l hl => h l (by simp [hl]))⟩

/-- The keep-loop on a README whose delimited block sits between `pre` and
`suf`: the block is removed, everything else is kept in order. -/
theorem keepLines_decomposition (pre mid suf : List PyStr) (s e : PyStr)
    (hpre : ∀ l ∈ pre, pyStrip l ≠ REAMDE_BADGES_START_DELIMITER ∧
      pyStrip l ≠ REAMDE_BADGES_END_DELIMITER)
    (hmid : ∀ l ∈ mid, pyStrip l ≠ REAMDE_BADGES_START_DELIMITER ∧
      pyStrip l ≠ REAMDE_BADGES_END_DELIMITER)
    (hsuf : ∀ l ∈ suf, pyStrip l ≠ REAMDE_BADGES_START_DELIMITER ∧
      pyStrip l ≠ REAMDE_BADGES_END_DELIMITER)
    (hs : pyStrip s = REAMDE_BADGES_START_DELIMITER)
    (he : pyStrip e = REAMDE_BADGES_END_DELIMITER) :
    keepLines false (pre ++ s :: (mid ++ e :: suf)) = pre ++ suf := by
  rw [keepLines_keep_pfx _ hpre, keepLines, if_pos hs, keepLines_skip _ hmid,
    keepLines, if_neg (by rw [he]; decide), if_pos he, keepLines_id hsuf]

theorem splitLines_eq_nil_iff {s : PyStr} : splitLines s = [] ↔ s = [] := by
  constructor
  · intro h
    match s with
    | [] => rfl
    | c :: rest =>
      rw [splitLines] at h
      split at h
      · cases h
      · split at h <;> cases h
  · rintro rfl
    rfl

theorem splitLines_line_append (l : PyStr) (hl : IsNlLine l) :
    ∀ s, splitLines (l ++ s) = l :: splitLines s := by
  induction l with
  | nil => exact absurd rfl hl.1
  | cons c r ih =>
    intro s
    match r, hl, ih with
    | [], hl, _ =>
      have hc : c = '\n' := by
        have := hl.2.1
        simp [List.getLast?] at this
        exact this
      subst hc
      simp [splitLines]
    | d :: r', hl, ih =>
      have hc : c ≠ '\n' := by
        have := hl.2.2
        rw [List.dropLast_cons₂] at this
        exact fun h => this (h ▸ List.mem_cons_self _ _)
      have hr : IsNlLine (d :: r') := by
        refine ⟨by simp, ?_, ?_⟩
        · have := hl.2.1
          rwa [List.getLast?_cons_cons] at this
        · have := hl.2.2
          rw [List.dropLast_cons₂] at this
          exact fun h => this (List.mem_cons_of_mem _ h)
      rw [List.cons_append, splitLines, if_neg hc, ih hr s]

theorem splitLines_wf (s : PyStr) (hlast : s.getLast? = some '\n') :
    ∀ l ∈ splitLines s, IsNlLine l := by
  induction s with
  | nil => intro l hl; cases hl
  | cons c rest ih =>
    intro l hl
    match rest, hlast, ih, hl with
    | [], hlast, _, hl =>
      have hc : c = '\n' := by simpa [List.getLast?] using hlast
      subst hc
      rw [show splitLines ['\n'] = [['\n']] from rfl] at hl
      rcases List.mem_cons.mp hl with rfl | hl'
      · exact ⟨by simp, rfl, by simp⟩
      · cases hl'
    | d :: r', hlast, ih, hl =>
      have hlast' : (d :: r').getLast? = some '\n' := by
        rwa [List.getLast?_cons_cons] at hlast
      have ihw := ih hlast'
      rw [splitLines] at hl
      by_cases hc : c = '\n'
      · rw [if_pos hc] at hl
        rcases List.mem_cons.mp hl with rfl | hl'
        · exact ⟨by simp, rfl, by simp⟩
        · exact ihw l hl'
      · rw [if_neg hc] at hl
        obtain ⟨l0, ls, hsp⟩ : ∃ l0 ls, splitLines (d :: r') = l0 :: ls := by
          cases hsp : splitLines (d :: r') with
          | nil => exact absurd (splitLines_eq_nil_iff.mp hsp) (by simp)
          | cons a b => exact ⟨a, b, rfl⟩
        rw [hsp] at hl
        rcases List.mem_cons.mp hl with rfl | hl'
        · have hl0 : IsNlLine l0 := ihw l0 (by rw [hsp]; simp)
          obtain ⟨x, xs, rfl⟩ : ∃ x xs, l0 = x :: xs := by
            match l0, hl0 with
            | x :: xs, _ => exact ⟨x, xs, rfl⟩
            | [], h => exact absurd rfl h.1
          refine ⟨by simp, ?_, ?_⟩
          · rw [List.getLast?_cons_cons]
            exact hl0.2.1
          · rw [List.dropLast_cons₂]
            intro hmem
            rcases List.mem_cons.mp hmem with heq | hmem'
            · exact hc heq.symm
            · exact hl0.2.2 hmem'
        · exact ihw l (by rw [hsp]; exact List.mem_cons_of_mem _ hl')

theorem splitLines_flatten {ls : List PyStr} (h : ∀ l ∈ ls, IsNlLine l) :
    splitLines ls.flatten = ls := by
  induction ls with
  | nil => rfl
  | cons a t ih =>
    rw [List.flatten_cons, splitLines_line_append a (h a (by simp)),
      ih (fun l hl => h l (by simp [hl]))]

theorem dropTrailing_sublist (p : Char → Bool) (l : PyStr) :
    List.Sublist (dropTrailing p l) l := by
  induction l with
  | nil => exact List.Sublist.refl _
  | cons c r ih =>
    rw [dropTrailing]
    cases hdt : dropTrailing p r with
    | nil =>
      show List.Sublist (if p c = true then [] else [c]) (c :: r)
      by_cases hc : p c = true
      · rw [if_pos hc]
        exact List.nil_sublist _
      · rw [if_neg hc]
        exact (List.nil_sublist r).cons₂ c
    | cons x xs =>
      show List.Sublist (c :: x :: xs) (c :: r)
      rw [← hdt]
      exact ih.cons₂ c

theorem mem_pyStrip {l : PyStr} {x : Char} (h : x ∈ pyStrip l) : x ∈ l := by
  have h1 := (dropTrailing_sublist isPySpace (l.dropWhile isPySpace)).subset h
  exact (List.dropWhile_sublist isPySpace).subset h1

theorem exists_cons_of_head_eq {l : PyStr} {c : Char} (h : l.head? = some c) :
    ∃ t, l = c :: t := by
  match l, h with
  | a :: t, h => exact ⟨t, by simpa using (Option.some.injEq .. ▸ h : a = c) ▸ rfl⟩

theorem append_head {l : PyStr} {c : Char} (h : l.head? = some c) (x : PyStr) :
    ∃ t, l ++ x = c :: t := by
  obtain ⟨t0, rfl⟩ := exists_cons_of_head_eq h
  exact ⟨t0 ++ x, rfl⟩

theorem badges_line_head (p : BadgePolicy) : ∃ t, badges_line p = '[' :: t := by
  cases hc : p.has_circleci <;> cases hp : p.pypi_name.isEmpty <;>
    (simp only [badges_line, hc, hp, Bool.not_true, Bool.not_false, if_true, if_false,
      Bool.false_eq_true, Bool.true_eq_false, List.nil_append, List.append_assoc]
     exact append_head (by decide) _)

theorem pyStrip_head_lbracket {l : PyStr} (h : ∃ t, l = '[' :: t) :
    ∃ t, pyStrip l = '[' :: t := by
  obtain ⟨t, rfl⟩ := h
  rw [pyStrip, List.dropWhile_cons]
  simp only [show isPySpace '[' = false from rfl, Bool.false_eq_true, if_false]
  rw [dropTrailing]
  cases hdt : dropTrailing isPySpace t with
  | nil => exact ⟨[], rfl⟩
  | cons x xs => exact ⟨x :: xs, rfl⟩

theorem lbracket_cons_ne_start (t : PyStr) :
    '[' :: t ≠ REAMDE_BADGES_START_DELIMITER := by
  intro h
  have : '[' = '<' := List.head_eq_of_cons_eq h
  exact absurd this (by decide)

theorem lbracket_cons_ne_end (t : PyStr) :
    '[' :: t ≠ REAMDE_BADGES_END_DELIMITER := by
  intro h
  have : '[' = '<' := List.head_eq_of_cons_eq h
  exact absurd this (by decide)

/-- One run is byte-for-byte stable under a second run, for every README
whose content ends with a newline (given that no collaborator-supplied badge
string smuggles in a newline). -/
theorem readme_run_idempotent (p : BadgePolicy) (content : PyStr)
    (hnl : '\n' ∉ badges_line p)
    (hlast : content.getLast? = some '\n') :
    readme_run p (readme_run p content) = readme_run p content := by
  have hKwf : ∀ l ∈ keepLines false (splitLines content), IsNlLine l :=
    fun l hl => splitLines_wf content hlast l (keepLines_subset hl)
  have hKnd : ∀ l ∈ keepLines false (splitLines content),
      pyStrip l ≠ REAMDE_BADGES_START_DELIMITER ∧
      pyStrip l ≠ REAMDE_BADGES_END_DELIMITER :=
    fun l hl => keepLines_no_delim hl
  have hbnl : '\n' ∉ pyStrip (badges_line p) := fun hx => hnl (mem_pyStrip hx)
  obtain ⟨bt, hbt⟩ := pyStrip_head_lbracket (badges_line_head p)
  have hline1 : IsNlLine (REAMDE_BADGES_START_DELIMITER ++ ['\n']) :=
    ⟨by decide, by decide, by decide⟩
  have hline3 : IsNlLine (REAMDE_BADGES_END_DELIMITER ++ ['\n']) :=
    ⟨by decide, by decide, by decide⟩
  have hline2 : IsNlLine (pyStrip (badges_line p) ++ ['\n']) := by
    refine ⟨by simp, List.getLast?_concat _, ?_⟩
    rw [List.dropLast_concat]
    exact hbnl
  have hflat : readme_run p content
      = (REAMDE_BADGES_START_DELIMITER ++ ['\n'])
        ++ ((pyStrip (badges_line p) ++ ['\n'])
        ++ ((REAMDE_BADGES_END_DELIMITER ++ ['\n'])
        ++ (keepLines false (splitLines content)).flatten)) := by
    rw [readme_run, readme_manager_lines, badges_lines]
    simp [List.append_assoc]
  have hsplit2 : splitLines (readme_run p content)
      = (REAMDE_BADGES_START_DELIMITER ++ ['\n'])
        :: (pyStrip (badges_line p) ++ ['\n'])
        :: (REAMDE_BADGES_END_DELIMITER ++ ['\n'])
        :: keepLines false (splitLines content) := by
    rw [hflat, splitLines_line_append _ hline1, splitLines_line_append _ hline2,
      splitLines_line_append _ hline3, splitLines_flatten hKwf]
  obtain ⟨t2, ht2⟩ := pyStrip_head_lbracket
    (l := pyStrip (badges_line p) ++ ['\n']) ⟨bt ++ ['\n'], by rw [hbt, List.cons_append]⟩
  rw [readme_run, hsplit2, readme_manager_lines]
  rw [keepLines, if_pos (by decide)]
  rw [keepLines, if_neg (by rw [ht2]; exact lbracket_cons_ne_start t2),
    if_neg (by rw [ht2]; exact lbracket_cons_ne_end t2), if_pos rfl]
  rw [keepLines, if_neg (by decide), if_pos (by decide)]
  rw [keepLines_id hKnd]
  rw [readme_run, readme_manager_lines]

/-- C3 (amended): one run of the badge manager removes the two delimiter
lines and everything between them from wherever the block sits, prepends the
freshly generated badge block at the TOP of the file, and keeps every other
line unchanged in its original relative order; a second run on the written
bytes is byte-for-byte identical. -/
theorem C3_readme_badge_regeneration (p : BadgePolicy) (content : PyStr)
    (pre mid suf : List PyStr) (s e : PyStr)
    (hsplit : splitLines content = pre ++ s :: (mid ++ e :: suf))
    (hpre : ∀ l ∈ pre, pyStrip l ≠ REAMDE_BADGES_START_DELIMITER ∧
      pyStrip l ≠ REAMDE_BADGES_END_DELIMITER)
    (hmid : ∀ l ∈ mid, pyStrip l ≠ REAMDE_BADGES_START_DELIMITER ∧
      pyStrip l ≠ REAMDE_BADGES_END_DELIMITER)
    (hsuf : ∀ l ∈ suf, pyStrip l ≠ REAMDE_BADGES_START_DELIMITER ∧
      pyStrip l ≠ REAMDE_BADGES_END_DELIMITER)
    (hs : pyStrip s = REAMDE_BADGES_START_DELIMITER)
    (he : pyStrip e = REAMDE_BADGES_END_DELIMITER)
    (hnl : '\n' ∉ badges_line p)
    (hlast : content.getLast? = some '\n') :
    readme_manager_lines p (splitLines content)
      = badges_lines p ++ (pre ++ suf) ∧
    readme_run p (readme_run p content) = readme_run p content := by
  constructor
  · rw [readme_manager_lines, hsplit,
      keepLines_decomposition pre mid suf s e hpre hmid hsuf hs he]
  · exact readme_run_idempotent p content hnl hlast

/-- A concrete policy for the C3 counterexample and witness: no CircleCI
config, no PyPI name. -/
def badgePolicy0 : BadgePolicy :=
  ⟨"o/r".data, "main".data, "https://github.com/o/r".data, [], false⟩

/-- A concrete README whose badge block sits in the middle of the file. -/
def readmeLines0 : List PyStr :=
  ["# Title\n".data,
   REAMDE_BADGES_START_DELIMITER ++ ['\n'],
   "old badge line\n".data,
   REAMDE_BADGES_END_DELIMITER ++ ['\n'],
   "rest\n".data]

def readmeContent0 : PyStr := readmeLines0.flatten

/-- Counterexample to C3 as stated: on a README whose delimited block is NOT
at the top, the run does not replace only the delimited region in place —
the rebuilt file starts with the badge block, so the first line (which lies
outside the delimited region) is not left in place. -/
theorem C3_counterexample_block_not_in_place :
    readmeLines0.head? = some "# Title\n".data ∧
    (readme_manager_lines badgePolicy0 readmeLines0).head?
      = some REAMDE_BADGES_START_DELIMITER ∧
    REAMDE_BADGES_START_DELIMITER ≠ "# Title\n".data :=
  ⟨rfl, rfl, by decide⟩

/-- Witness for C3 at the concrete README and policy. -/
theorem C3_readme_badge_regeneration_witness :
    readme_manager_lines badgePolicy0 (splitLines readmeContent0)
      = badges_lines badgePolicy0 ++ (["# Title\n".data] ++ ["rest\n".data]) ∧
    readme_run badgePolicy0 (readme_run badgePolicy0 readmeContent0)
      = readme_run badgePolicy0 readmeContent0 :=
  C3_readme_badge_regeneration badgePolicy0 readmeContent0
    ["# Title\n".data] ["old badge line\n".data] ["rest\n".data]
    (REAMDE_BADGES_START_DELIMITER ++ ['\n'])
    (REAMDE_BADGES_END_DELIMITER ++ ['\n'])
    (by decide) (by decide) (by decide) (by decide) (by decide) (by decide)
    (by decide) (by decide)

/-! ## Generic association-list lemmas (shared by the config-merge models) -/

theorem alSet_eq_self {α : Type} {d : List (PyStr × α)} {k : PyStr} {v : α}
    (h : alGet d k = some v) : alSet d k v = d := by
  induction d with
  | nil => cases h
  | cons a t ih =>
    obtain ⟨k0, v0⟩ := a
    by_cases hk : k0 = k
    · subst hk
      rw [alGet] at h
      rw [if_pos rfl] at h
      cases h
      simp [alSet]
    · rw [alGet, if_neg hk] at h
      simp [alSet, hk, ih h]

/-- `{**base, **new}` / `dict.update`: set every pair of `new` in order. -/
def alMerge {α : Type} (base new : List (PyStr × α)) : List (PyStr × α) :=
  new.foldl (fun acc p => alSet acc p.1 p.2) base

theorem alGet_alMerge_other {α : Type} (base new : List (PyStr × α)) (k : PyStr)
    (h : ∀ p ∈ new, p.1 ≠ k) : alGet (alMerge base new) k = alGet base k := by
  induction new generalizing base with
  | nil => rfl
  | cons a t ih =>
    rw [alMerge, List.foldl_cons]
    rw [show List.foldl (fun acc p => alSet acc p.1 p.2) (alSet base a.1 a.2) t
      = alMerge (alSet base a.1 a.2) t from rfl]
    rw [ih _ (fun p hp => h p (by simp [hp]))]
    exact alGet_alSet_other base k a.1 a.2 (fun he => h a (by simp) he.symm)

theorem alGet_alMerge_mem {α : Type} (base : List (PyStr × α))
    (new : List (PyStr × α)) (k : PyStr) (v : α)
    (hnd : (new.map (·.1)).Nodup) (hmem : (k, v) ∈ new) :
    alGet (alMerge base new) k = some v := by
  induction new generalizing base with
  | nil => cases hmem
  | cons a t ih =>
    rw [alMerge, List.foldl_cons,
      show List.foldl (fun acc p => alSet acc p.1 p.2) (alSet base a.1 a.2) t
        = alMerge (alSet base a.1 a.2) t from rfl]
    rcases List.mem_cons.mp hmem with rfl | hmem'
    · rw [alGet_alMerge_other _ _ _ ?hother]
      · exact alGet_alSet_same _ _ _
      case hother =>
        intro p hp hpk
        have := (List.nodup_cons.mp hnd).1
        exact this (hpk ▸ List.mem_map_of_mem (·.1) hp)
    · exact ih _ (List.nodup_cons.mp hnd).2 hmem'

theorem alMerge_eq_self {α : Type} {d new : List (PyStr × α)}
    (h : ∀ p ∈ new, alGet d p.1 = some p.2) : alMerge d new = d := by
  induction new with
  | nil => rfl
  | cons a t ih =>
    rw [alMerge, List.foldl_cons, alSet_eq_self (h a (by simp)),
      show List.foldl (fun acc p => alSet acc p.1 p.2) d t = alMerge d t from rfl]
    exact ih (fun p hp => h p (by simp [hp]))

/-- `remove_section`. -/
def alRemove {α : Type} (d : List (PyStr × α)) (k : PyStr) : List (PyStr × α) :=
  d.filter (fun p => decide (p.1 ≠ k))

theorem alGet_alRemove_other {α : Type} (d : List (PyStr × α)) (k k' : PyStr)
    (h : k ≠ k') : alGet (alRemove d k') k = alGet d k := by
  induction d with
  | nil => rfl
  | cons a t ih =>
    obtain ⟨k0, v0⟩ := a
    by_cases h0 : k0 = k'
    · have hd : alRemove ((k0, v0) :: t) k' = alRemove t k' := by
        rw [alRemove, List.filter_cons, if_neg (by simp [h0])]
        rfl
      rw [hd, ih, alGet, if_neg (fun hk => h (by rw [← hk]; exact h0))]
    · have hd : alRemove ((k0, v0) :: t) k' = (k0, v0) :: alRemove t k' := by
        rw [alRemove, List.filter_cons, if_pos (by simp [h0])]
        rfl
      rw [hd]
      by_cases h1 : k0 = k
      · simp [alGet, h1]
      · rw [alGet, if_neg h1, alGet, if_neg h1]
        exact ih

theorem alGet_append {α : Type} (a b : List (PyStr × α)) (k : PyStr) :
    alGet (a ++ b) k = (alGet a k).or (alGet b k) := by
  induction a with
  | nil => rfl
  | cons x t ih =>
    obtain ⟨k0, v0⟩ := x
    by_cases h0 : k0 = k
    · rw [List.cons_append, alGet, if_pos h0, alGet, if_pos h0]
      rfl
    · rw [List.cons_append, alGet, if_neg h0, alGet, if_neg h0]
      exact ih

theorem alGet_eq_none_of_not_mem {α : Type} {d : List (PyStr × α)} {k : PyStr}
    (h : k ∉ d.map (·.1)) : alGet d k = none := by
  induction d with
  | nil => rfl
  | cons a t ih =>
    obtain ⟨k0, v0⟩ := a
    have h1 : k0 ≠ k := fun he =>
      h (by rw [List.map_cons]; exact he ▸ List.mem_cons_self _ _)
    have h2 : k ∉ t.map (·.1) := fun hm =>
      h (by rw [List.map_cons]; exact List.mem_cons_of_mem _ hm)
    rw [alGet, if_neg h1]
    exact ih h2

/-! ## String helpers shared by the builders -/

theorem dropWhile_head_spec (p : Char → Bool) (l : PyStr) :
    l.dropWhile p = [] ∨
    ∃ c r, l.dropWhile p = c :: r ∧ p c = false := by
  induction l with
  | nil => exact Or.inl rfl
  | cons a t ih =>
    by_cases ha : p a = true
    · rw [List.dropWhile_cons, if_pos ha]
      exact ih
    · rw [List.dropWhile_cons, if_neg ha]
      exact Or.inr ⟨a, t, rfl, by simpa using ha⟩

theorem dropTrailing_last_spec (p : Char → Bool) (l : PyStr) :
    dropTrailing p l = [] ∨
    ∃ a, (dropTrailing p l).getLast? = some a ∧ p a = false := by
  induction l with
  | nil => exact Or.inl rfl
  | cons c r ih =>
    rw [dropTrailing]
    cases hdt : dropTrailing p r with
    | nil =>
      by_cases hc : p c = true
      · exact Or.inl (by rw [if_pos hc])
      · refine Or.inr ⟨c, ?_, by simpa using hc⟩
        rw [if_neg hc]
        rfl
    | cons x xs =>
      rcases ih with h | ⟨a, ha, hpa⟩
      · rw [h] at hdt
        cases hdt
      · refine Or.inr ⟨a, ?_, hpa⟩
        rw [hdt] at ha
        show List.getLast? (c :: x :: xs) = some a
        rw [List.getLast?_cons_cons]
        exact ha

theorem dropTrailing_eq_self_of_last (p : Char → Bool) (l : PyStr)
    (h : ∀ a, l.getLast? = some a → p a = false) : dropTrailing p l = l := by
  induction l with
  | nil => rfl
  | cons c r ih =>
    rw [dropTrailing]
    cases hr : r with
    | nil =>
      subst hr
      have hpc := h c rfl
      show (if p c = true then [] else [c]) = [c]
      rw [if_neg (by simp [hpc])]
    | cons x xs =>
      subst hr
      have hrec : dropTrailing p (x :: xs) = x :: xs :=
        ih (fun a ha => h a (by rw [List.getLast?_cons_cons]; exact ha))
      show (match dropTrailing p (x :: xs) with
        | [] => if p c = true then [] else [c]
        | r' => c :: r') = c :: x :: xs
      rw [hrec]

theorem dropTrailing_head_spec (p : Char → Bool) (l : PyStr) :
    dropTrailing p l = [] ∨ (dropTrailing p l).head? = l.head? := by
  induction l with
  | nil => exact Or.inl rfl
  | cons c r _ =>
    rw [dropTrailing]
    cases hdt : dropTrailing p r with
    | nil =>
      by_cases hc : p c = true
      · exact Or.inl (by rw [if_pos hc])
      · exact Or.inr (by rw [if_neg hc]; rfl)
    | cons x xs => exact Or.inr rfl

theorem pyStrip_idem (l : PyStr) : pyStrip (pyStrip l) = pyStrip l := by
  rw [pyStrip, pyStrip]
  rcases dropWhile_head_spec isPySpace l with h | ⟨c, r, h, hc⟩
  · rw [h]
    rfl
  · rw [h]
    have hdw : (dropTrailing isPySpace (c :: r)).dropWhile isPySpace
        = dropTrailing isPySpace (c :: r) := by
      rcases dropTrailing_head_spec isPySpace (c :: r) with h2 | h2
      · rw [h2]
        rfl
      · match hv : dropTrailing isPySpace (c :: r) with
        | [] => rfl
        | x :: xs =>
          rw [hv] at h2
          have hx : x = c := by
            have : some x = some c := h2
            exact Option.some.injEq .. ▸ this
          rw [List.dropWhile_cons, if_neg (by rw [hx, hc]; simp)]
    rw [hdw]
    refine dropTrailing_eq_self_of_last _ _ (fun a ha => ?_)
    rcases dropTrailing_last_spec isPySpace (c :: r) with h2 | ⟨b, hb, hpb⟩
    · rw [h2] at ha
      cases ha
    · rw [hb] at ha
      cases ha
      exact hpb

/-- `"a\nb".split("\n")`: split on a separator character, separators
dropped. -/
def splitChAux (sep : Char) : PyStr → PyStr → List PyStr
  | [], acc => [acc.reverse]
  | c :: r, acc =>
    if c = sep then acc.reverse :: splitChAux sep r []
    else splitChAux sep r (c :: acc)

def splitCh (sep : Char) (s : PyStr) : List PyStr := splitChAux sep s []

/-- Python `str.split()` with no argument: split on whitespace runs. -/
def pySplitWsAux : PyStr → PyStr → List PyStr
  | [], acc => if acc.isEmpty then [] else [acc.reverse]
  | c :: r, acc =>
    if isPySpace c then
      if acc.isEmpty then pySplitWsAux r []
      else acc.reverse :: pySplitWsAux r []
    else pySplitWsAux r (c :: acc)

def pySplitWs (s : PyStr) : List PyStr := pySplitWsAux s []

/-- Python `sorted` on strings: stable ascending lexicographic sort. -/
def pySorted (l : List PyStr) : List PyStr :=
  List.insertionSort (fun a b : PyStr => a ≤ b) l

theorem pySorted_idem (l : List PyStr) : pySorted (pySorted l) = pySorted l :=
  List.Sorted.insertionSort_eq (List.sorted_insertionSort _ l)

/-- `list_to_dangling` (setup_builder.py, lines 236-240). -/
def list_to_dangling (lines : List PyStr) (sort : Bool) : PyStr :=
  let stripped := (lines.map pyStrip).filter (fun ln => !ln.isEmpty)
  '\n' :: List.intercalate ['\n'] (if sort then pySorted stripped else stripped)

/-! ## The setup.cfg builder (`setup_builder.py`) -/

def BUILDER_SECTION_NAME : PyStr := "wipac:cicd_setup_builder".data

/-- `strtobool` (from wipac_dev_tools; distutils semantics). -/
def strtobool (s : PyStr) : Except PyErr Bool :=
  let v := s.map Char.toLower
  if v ∈ (["y".data, "yes".data, "t".data, "true".data, "on".data, "1".data] : List PyStr)
  then .ok true
  else if v ∈ (["n".data, "no".data, "f".data, "false".data, "off".data, "0".data] : List PyStr)
  then .ok false
  else .error (.exception "invalid truth value".data)

/-- A `setup.cfg` section: option name (lower-cased by configparser) to
string value. -/
abbrev IniSection := List (PyStr × PyStr)

/-- A parsed `setup.cfg`: ordered sections. -/
abbrev IniCfg := List (PyStr × IniSection)

/-- `BuilderSection` (setup_builder.py, lines 88-101). -/
structure BuilderSection where
  python_min : PyStr
  author : PyStr
  author_email : PyStr
  pypi_name : PyStr
  python_max : PyStr
  package_dirs : PyStr
  keywords_spaced : PyStr
  patch_without_tag : PyStr

def bsecFieldNames : List PyStr :=
  ["python_min".data, "author".data, "author_email".data, "pypi_name".data,
   "python_max".data, "package_dirs".data, "keywords_spaced".data,
   "patch_without_tag".data]

/-- `BuilderSection(**dict(cfg[BUILDER_SECTION_NAME]))` plus
`__post_init__` (lines 103-110): unknown options or a missing `python_min`
raise a `TypeError`; `pypi_name` without author/author_email raises. -/
def mkBuilderSection (sec : IniSection) : Except PyErr BuilderSection :=
  if !(sec.all (fun p => bsecFieldNames.contains p.1)) then
    .error .typeError
  else
    match alGet sec "python_min".data with
    | none => .error .typeError
    | some pm =>
      let b : BuilderSection := {
        python_min := pm,
        author := (alGet sec "author".data).getD [],
        author_email := (alGet sec "author_email".data).getD [],
        pypi_name := (alGet sec "pypi_name".data).getD [],
        python_max := (alGet sec "python_max".data).getD [],
        package_dirs := (alGet sec "package_dirs".data).getD [],
        keywords_spaced := (alGet sec "keywords_spaced".data).getD [],
        patch_without_tag := (alGet sec "patch_without_tag".data).getD "True".data }
      if !b.pypi_name.isEmpty && (b.author.isEmpty || b.author_email.isEmpty) then
        .error (.exception "author and author_email must be provided".data)
      else .ok b

/-- The word-fold of `BuilderSection.keywords_list` (lines 169-191),
carrying the accumulated keywords and the open quoted phrase. -/
def kwFold : List PyStr → List PyStr → List PyStr → List PyStr
  | [], keywords, _ => keywords
  | word :: rest, keywords, phrase =>
    if word.head? = some '"' ∧ word.getLast? = some '"' then
      kwFold rest
        (keywords ++ [dropTrailing (fun c => decide (c = '"'))
          (word.dropWhile (fun c => decide (c = '"')))]) phrase
    else if word.head? = some '"' then
      kwFold rest keywords [word.dropWhile (fun c => decide (c = '"'))]
    else if word.getLast? = some '"' then
      kwFold rest
        (keywords ++ [List.intercalate [' ']
          (phrase ++ [dropTrailing (fun c => decide (c = '"')) word])]) []
    else if !phrase.isEmpty then
      kwFold rest keywords (phrase ++ [word])
    else kwFold rest (keywords ++ [word]) phrase

/-- `BuilderSection.keywords_list` (lines 169-199). -/
def keywords_list (bsec : BuilderSection) (base_keywords : List PyStr) :
    Except PyErr (List PyStr) :=
  let keywords := kwFold (pySplitWs (pyStrip bsec.keywords_spaced)) [] [] ++ base_keywords
  if keywords.isEmpty && !bsec.pypi_name.isEmpty then
    .error (.exception "keywords must be provided".data)
  else .ok keywords

/-- `long_description_content_type` (lines 243-251). -/
def long_description_content_type (suffix : PyStr) : PyStr :=
  if suffix = ".md".data then "text/markdown".data
  else if suffix = ".rst".data then "text/x-rst".data
  else "text/plain".data

/-- `OptionsSection.__post_init__` (lines 229-233): re-sort a dangling
multi-line `install_requires`. -/
def osec_install_requires (ir : PyStr) : PyStr :=
  if (pyStrip ir).contains '\n' then
    list_to_dangling ((pyStrip ir).splitOn '\n') true
  else ir

/-- The GitHub API collaborator's data. -/
structure GhPolicy where
  url : PyStr
  default_branch : PyStr
  description : PyStr

/-- The filesystem as far as `FromFiles` reads it. -/
structure CfgFs where
  root : List DirEntry
  initLines : PyStr → List PyStr
  readme : Option (PyStr × PyStr)

/-- Everything `_build_out_sections` reads besides the cfg document. -/
structure CfgPolicy where
  gh : GhPolicy
  base_keywords : List PyStr
  dirs_exclude : List PyStr
  repo_license : PyStr
  commit_message : PyStr
  latest_py3 : Nat × Nat
  fs : CfgFs

/-- The inline `_get_packages` of `FromFiles._get_package_paths`
(setup_builder.py, lines 279-285): directories with an `__init__.py` not in
the exclusion list. -/
def cfg_available_packages (root : List DirEntry) (dirs_exclude : List PyStr) :
    List PyStr :=
  (root.filter (fun d => d.isDir && !dirs_exclude.contains d.name && d.hasInit)).map (·.name)

/-- `FromFiles._get_package_paths` (lines 276-318), root-relative. -/
def cfg_get_package_paths (root : List DirEntry) (bsec_packages : List PyStr)
    (dirs_exclude : List PyStr) : Except PyErr (List PyStr) :=
  let available := cfg_available_packages root dirs_exclude
  if available.isEmpty then .error (.exception "No package found".data)
  else if !bsec_packages.isEmpty then
    if (bsec_packages.filter (fun p => !available.contains p)).isEmpty then
      .ok bsec_packages
    else .error (.exception "Package directory not found".data)
  else if available.length > 1 then
    .error (.exception "More than one package found".data)
  else .ok (available.take 1)

/-- The version parse of `FromFiles._get_version.version` (line 344):
`line.replace('"', "'").split("=")[-1].split("'")[1]`; a missing quote is
an `IndexError`. -/
def cfg_parse_version_line (line : PyStr) : Except PyErr PyStr :=
  let l := line.map (fun c => if c = '"' then '\'' else c)
  let afterEq := (l.reverse.takeWhile (fun c => decide (c ≠ '='))).reverse
  match afterEq.dropWhile (fun c => decide (c ≠ '\'')) with
  | _ :: r2 => .ok (r2.takeWhile (fun c => decide (c ≠ '\'')))
  | [] => .error .indexError

/-- `version(ppath)` (lines 338-346): first line containing `__version__`. -/
def cfg_version_of_init (lines : List PyStr) : Except PyErr PyStr :=
  match lines.find? (fun l => pyIn "__version__".data l) with
  | some line => cfg_parse_version_line line
  | none => .error (.exception "Cannot find __version__".data)

/-- `FromFiles._get_version` (lines 327-354). -/
def cfg_get_version (initLines : PyStr → List PyStr) (pkg_paths : List PyStr) :
    Except PyErr PyStr := do
  let versions ← pkg_paths.mapM (fun pth => cfg_version_of_init (initLines pth))
  if versions.dedup.length = 1 then .ok (versions.headD [])
  else .error (.exception "Version mismatch between packages".data)

/-- `cfg["sec"]["k"] = v` on an existing section. -/
def secSet (cfg : IniCfg) (sec k v : PyStr) : IniCfg :=
  alSet cfg sec (alSet ((alGet cfg sec).getD []) k v)

/-- `"_".join(ffile.packages).replace("_", "-")` (line 521). -/
def metaName (packages : List PyStr) : PyStr :=
  (List.intercalate ['_'] packages).map (fun c => if c = '_' then '-' else c)

/-- The `MetadataSection` fields, in dataclass order (lines 202-218 and
533-559). -/
def msecFields (pol : CfgPolicy) (bsec : BuilderSection) (meta_version : PyStr)
    (readmeName readmeSuffix : PyStr) (kws : List PyStr) (dev_status : PyStr)
    (classifiers : List PyStr) : IniSection :=
  [("name".data, bsec.pypi_name),
   ("version".data, meta_version),
   ("url".data, pol.gh.url),
   ("author".data, bsec.author),
   ("author_email".data, bsec.author_email),
   ("description".data, pol.gh.description),
   ("long_description".data, "file: ".data ++ readmeName),
   ("long_description_content_type".data, long_description_content_type readmeSuffix),
   ("keywords".data, list_to_dangling kws false),
   ("license".data, pol.repo_license),
   ("classifiers".data, list_to_dangling
     ([dev_status] ++ ["License :: OSI Approved :: MIT License".data] ++ classifiers) false),
   ("download_url".data, "https://pypi.org/project/".data ++ bsec.pypi_name ++ "/".data),
   ("project_urls".data, list_to_dangling
     ["Tracker = ".data ++ pol.gh.url ++ "/issues".data,
      "Source = ".data ++ pol.gh.url] false)]

/-- The fully-regenerated `[semantic_release]` section (lines 563-577). -/
def semrelSection (pol : CfgPolicy) (bsec : BuilderSection)
    (packages : List PyStr) : IniSection :=
  [("version_variable".data, List.intercalate [',']
     (packages.map (fun p => p ++ "/__init__.py:__version__".data))),
   ("upload_to_pypi".data, if !bsec.pypi_name.isEmpty then "True".data else "False".data),
   ("patch_without_tag".data, bsec.patch_without_tag),
   ("commit_parser".data, "semantic_release.history.emoji_parser".data),
   ("major_emoji".data, List.intercalate [',', ' '] CFG_SEMANTIC_RELEASE_MAJOR),
   ("minor_emoji".data, List.intercalate [',', ' '] CFG_SEMANTIC_RELEASE_MINOR),
   ("patch_emoji".data, List.intercalate [',', ' '] CFG_SEMANTIC_RELEASE_PATCH),
   ("branch".data, pol.gh.default_branch)]

/-- The `[metadata]` step of `_build_out_sections` (lines 513-560): ensure
the section, then either set the non-PyPI fields or merge the full
`MetadataSection`. -/
def bos_metadata (pol : CfgPolicy) (bsec : BuilderSection) (packages : List PyStr)
    (dev_status : PyStr) (readmePair : PyStr × PyStr) (cfg0 : IniCfg) :
    Except PyErr IniCfg := do
  let cfg := if alHas cfg0 "metadata".data then cfg0 else alSet cfg0 "metadata".data []
  let meta_version := "attr: ".data ++ packages.headD [] ++ ".__version__".data
  if bsec.pypi_name.isEmpty then do
    let cfg := secSet cfg "metadata".data "name".data (metaName packages)
    let cfg := secSet cfg "metadata".data "version".data meta_version
    let cfg := if !bsec.author.isEmpty then
        secSet cfg "metadata".data "author".data bsec.author else cfg
    let cfg := if !bsec.author_email.isEmpty then
        secSet cfg "metadata".data "author_email".data bsec.author_email else cfg
    let kws ← keywords_list bsec pol.base_keywords
    let cfg := if !kws.isEmpty then
        secSet cfg "metadata".data "keywords".data (list_to_dangling kws false) else cfg
    Except.ok cfg
  else do
    let kws ← keywords_list bsec pol.base_keywords
    let classifiers ← (cfg_python_classifiers bsec.python_min bsec.python_max
      pol.latest_py3).mapError PyErr.exception
    let msec := msecFields pol bsec meta_version readmePair.1 readmePair.2
      kws dev_status classifiers
    Except.ok (alSet cfg "metadata".data
      (alMerge ((alGet cfg "metadata".data).getD []) msec))

/-- The `[semantic_release]` step (lines 562-577): remove and fully
regenerate the section. -/
def bos_semrel (pol : CfgPolicy) (bsec : BuilderSection) (packages : List PyStr)
    (cfg : IniCfg) : IniCfg :=
  alSet (alRemove cfg "semantic_release".data) "semantic_release".data
    (semrelSection pol bsec packages)

/-- The `[options]` step (lines 579-588): ensure the section and merge the
`OptionsSection` (re-sorting a dangling `install_requires` read from the
existing section). -/
def bos_options (pol : CfgPolicy) (bsec : BuilderSection) (cfg0 : IniCfg) :
    Except PyErr IniCfg := do
  let cfg := if alHas cfg0 "options".data then cfg0 else alSet cfg0 "options".data []
  let pr ← (cfg_python_requires bsec.python_min bsec.python_max
    pol.latest_py3).mapError PyErr.exception
  let osec : IniSection :=
    [("python_requires".data, pr),
     ("install_requires".data, osec_install_requires
       ((alGet ((alGet cfg "options".data).getD []) "install_requires".data).getD [])),
     ("packages".data, "find:".data)]
  Except.ok (alSet cfg "options".data (alMerge ((alGet cfg "options".data).getD []) osec))

/-- The `[options.packages.find]` step (lines 590-598): when
`options/packages` is `find:`, rebuild the whole section. -/
def bos_find (pol : CfgPolicy) (bsec : BuilderSection) (cfg : IniCfg) : IniCfg :=
  if (alGet ((alGet cfg "options".data).getD []) "packages".data) = some "find:".data then
    let cfg := alSet cfg "options.packages.find".data []
    let pkgs := pySplitWs (pyStrip bsec.package_dirs)
    let cfg := if !pkgs.isEmpty then
        secSet cfg "options.packages.find".data "include".data
          (list_to_dangling (pkgs ++ pkgs.map (fun p => p ++ ".*".data)) false)
      else cfg
    if !pol.dirs_exclude.isEmpty then
      secSet cfg "options.packages.find".data "exclude".data
        (list_to_dangling pol.dirs_exclude false)
    else cfg
  else cfg

/-- The `[options.package_data]` step (lines 600-608): ensure the section
and prepend `py.typed` to `*` when absent. -/
def bos_pkgdata (cfg0 : IniCfg) : IniCfg :=
  let cfg := if alHas cfg0 "options.package_data".data then cfg0
    else alSet cfg0 "options.package_data".data []
  let pd := (alGet cfg "options.package_data".data).getD []
  if !(pyIn "py.typed".data ((alGet pd "*".data).getD [])) then
    let star := if ((alGet pd "*".data).getD []).isEmpty then "py.typed".data
      else "py.typed, ".data ++ ((alGet pd "*".data).getD [])
    secSet cfg "options.package_data".data "*".data star
  else cfg

/-- `_build_out_sections` (setup_builder.py, lines 490-612), on the cfg
document: inputs read from files and the builder section, then the five
section-building steps in source order (the returned README manager is
modelled separately, see the `readme_manager_lines` section). -/
def readme_or_err (r : Option (PyStr × PyStr)) : Except PyErr (PyStr × PyStr) :=
  match r with
  | some p => Except.ok p
  | none => Except.error (PyErr.exception "No README file found".data)

def dev_status_or_err (o : Option PyStr) : Except PyErr PyStr :=
  match o with
  | some st => Except.ok st
  | none => Except.error (PyErr.exception "Could not figure Development Status".data)

def build_out_sections (pol : CfgPolicy) (cfg0 : IniCfg) : Except PyErr IniCfg := do
  let bsec ← mkBuilderSection ((alGet cfg0 BUILDER_SECTION_NAME).getD [])
  let packages ← cfg_get_package_paths pol.fs.root
    (pySplitWs (pyStrip bsec.package_dirs)) pol.dirs_exclude
  let version ← cfg_get_version pol.fs.initLines packages
  let readmePair ← readme_or_err pol.fs.readme
  let patchBool ← strtobool bsec.patch_without_tag
  let dev_status ← dev_status_or_err
    (cfg_get_development_status version patchBool pol.commit_message)
  let cfg ← bos_metadata pol bsec packages dev_status readmePair cfg0
  let cfg ← bos_options pol bsec (bos_semrel pol bsec packages cfg)
  Except.ok (bos_pkgdata (bos_find pol bsec cfg))

/-- The pinned-first section names of `write_setup_cfg` (lines 651-660):
the four fixed tool sections plus the sorted `options.*` sections of the
built document. -/
def iniTops (cfg : IniCfg) : List PyStr :=
  let tops : List PyStr :=
    [BUILDER_SECTION_NAME, "metadata".data, "semantic_release".data, "options".data]
  tops ++ pySorted ((cfg.map (·.1)).filter
    (fun sec => decide ("options.".data <+: sec) && !tops.contains sec))

/-- The rebuild loop of `write_setup_cfg` (lines 662-668): pinned sections
first (a missing pinned section is a `KeyError`), then the remaining
sections in original order. -/
def reorderSections (cfg : IniCfg) : Except PyErr IniCfg := do
  let firsts ← (iniTops cfg).mapM (fun sec =>
    match alGet cfg sec with
    | some content => Except.ok (sec, content)
    | none => Except.error PyErr.keyError)
  Except.ok (firsts ++ cfg.filter (fun p => !(iniTops cfg).contains p.1))

/-- `write_setup_cfg` (lines 619-704) at the document level: require the
builder section, build out the sections, rebuild in pinned order. (The final
text-level comment annotation of the serialized file is outside the
document model.) -/
def write_setup_cfg_model (pol : CfgPolicy) (cfg0 : IniCfg) : Except PyErr IniCfg := do
  if !alHas cfg0 BUILDER_SECTION_NAME then
    Except.error (PyErr.exception "setup.cfg is missing the builder section".data)
  else do
    let cfg ← build_out_sections pol cfg0
    reorderSections cfg

/-! ## The pyproject.toml builder (`pyproject_toml_builder.py`) -/

/-- A TOML value as manipulated through tomlkit. -/
inductive TVal where
  | str (s : PyStr)
  | bool (b : Bool)
  | int (n : Int)
  | arr (xs : List TVal)
  | table (kvs : List (PyStr × TVal))

instance : Inhabited TVal := ⟨.int 0⟩

/-- A parsed `pyproject.toml` document: its top-level table. -/
abbrev TomlDoc := List (PyStr × TVal)

/-- Python truthiness of a TOML value. -/
def pyTruthy : TVal → Bool
  | .str s => !s.isEmpty
  | .bool b => b
  | .int n => n ≠ 0
  | .arr xs => !xs.isEmpty
  | .table kvs => !kvs.isEmpty

/-- `GHAInput` (pyproject_toml_builder.py, lines 74-107). -/
structure GHAInput where
  python_min : Nat × Nat
  python_max : Nat × Nat
  package_dirs : List PyStr
  exclude_dirs : List PyStr
  pypi_name : PyStr
  patch_without_tag : Bool
  keywords : List PyStr
  author : PyStr
  author_email : PyStr
  auto_mypy_option : Bool

/-- `GHAInput.__post_init__` (lines 109-130): the PyPI required-field check,
then the python min/max major validation. -/
def mkGHAInput (g : GHAInput) : Except PyErr GHAInput :=
  if !g.pypi_name.isEmpty &&
      (g.keywords.isEmpty || g.author.isEmpty || g.author_email.isEmpty) then
    .error (.exception
      "'keywords', 'author', and 'author_email' must be provided".data)
  else
    ((validate_python_bounds g.python_min g.python_max).mapError
      PyErr.exception).map (fun _ => g)

/-- `PATCH_WITHOUT_TAG_WORKAROUND` (lines 38-42): every printable ASCII
character except `"` `,` `\`, as one-character strings. -/
def PATCH_WITHOUT_TAG_WORKAROUND : List PyStr :=
  (List.range' 32 95).filterMap (fun i =>
    let c := Char.ofNat i
    if c = '"' ∨ c = ',' ∨ c = '\\' then none else some [c])

/-- `\w` (restricted to ASCII, the shape these scripts produce). -/
def isWordChar (c : Char) : Bool :=
  ('a' ≤ c && c ≤ 'z') || ('A' ≤ c && c ≤ 'Z') || ('0' ≤ c && c ≤ '9') || c = '_'

/-- The regex `^__version__ = ["\'](?P<version>\w+\.\w+\.\w+)["\']` of
`get_init_version` (lines 229-238); no match raises. -/
def parseDunderVersionLine (line : PyStr) : Except PyErr PyStr :=
  if "__version__ = ".data <+: line then
    match line.drop 14 with
    | q :: rest =>
      if q = '"' ∨ q = '\'' then
        let w1 := rest.takeWhile isWordChar
        match w1.isEmpty, rest.dropWhile isWordChar with
        | false, '.' :: rest2 =>
          let w2 := rest2.takeWhile isWordChar
          match w2.isEmpty, rest2.dropWhile isWordChar with
          | false, '.' :: rest3 =>
            let w3 := rest3.takeWhile isWordChar
            match w3.isEmpty, rest3.dropWhile isWordChar with
            | false, q2 :: _ =>
              if q2 = '"' ∨ q2 = '\'' then
                .ok (w1 ++ '.' :: w2 ++ '.' :: w3)
              else .error (.exception "'__version__' must be semantic".data)
            | _, _ => .error (.exception "'__version__' must be semantic".data)
          | _, _ => .error (.exception "'__version__' must be semantic".data)
        | _, _ => .error (.exception "'__version__' must be semantic".data)
      else .error (.exception "'__version__' must be semantic".data)
    | [] => .error (.exception "'__version__' must be semantic".data)
  else .error (.exception "'__version__' must be semantic".data)

/-- `get_init_version` (lines 222-239): the first line starting with
`__version__ =` is parsed; none found gives `None`. -/
def get_init_version (lines : List PyStr) : Except PyErr (Option PyStr) :=
  match lines.find? (fun l => decide ("__version__ =".data <+: l)) with
  | none => .ok none
  | some line => (parseDunderVersionLine line).map some

/-- `FromFiles.get_dunder_version_inits` (lines 212-253), with file paths
reported root-relative. -/
def get_dunder_version_inits (initLines : PyStr → List PyStr)
    (packages : List PyStr) (version_from_toml : TVal) :
    Except PyErr (List PyStr) := do
  let pairs ← packages.mapM (fun p =>
    (get_init_version (initLines p)).map (fun v => (p ++ "/__init__.py".data, v)))
  let fpath_versions := pairs.filterMap (fun q => q.2.map (fun v => (q.1, v)))
  let init_versions := (fpath_versions.map (·.2)).dedup
  if init_versions.isEmpty then
    .ok (fpath_versions.map (·.1))
  else if init_versions.length ≠ 1 then
    .error (.exception "Version mismatch between packages".data)
  else
    match version_from_toml with
    | .str s =>
      if s = init_versions.headD [] then .ok (fpath_versions.map (·.1))
      else .error (.exception
        "Version mismatch between package(s) and pyproject.toml's project.version".data)
    | _ => .error (.exception
        "Version mismatch between package(s) and pyproject.toml's project.version".data)

/-- CPython guarantees nothing about the enumeration order of
`list(set(xs))` beyond it being the distinct elements of `xs` in some
order (string hashing is seed-randomized per process). An admissible
set-enumeration function is therefore any function returning a
permutation of the deduplicated input. -/
def SetEnum (sord : List PyStr → List PyStr) : Prop :=
  ∀ xs : List PyStr, (sord xs).Perm xs.dedup

/-- `PyProjectTomlBuilder._tool_setuptools_packagedata_star` (lines
563-574), generic over the process's set-enumeration order `sord`:
`list(current)` is `sord strs`, and membership in the set `current` is
membership in `strs`; a non-array value is modelled as an error. -/
def packagedata_star_ord (sord : List PyStr → List PyStr)
    (starVal : Option TVal) : Except PyErr (List PyStr) :=
  match starVal with
  | none => .ok ["py.typed".data]
  | some (.arr xs) => do
    let strs ← xs.mapM (fun v => match v with
      | .str s => Except.ok s
      | _ => Except.error PyErr.typeError)
    if "py.typed".data ∈ strs then .ok (sord strs)
    else .ok (sord strs ++ ["py.typed".data])
  | some _ => .error .typeError

/-- `_tool_setuptools_packagedata_star` with the set enumeration fixed to
insertion order (`List.dedup`): the determinization of
`packagedata_star_ord` (see `packagedata_star_dedup`). -/
def packagedata_star (starVal : Option TVal) : Except PyErr (List PyStr) :=
  match starVal with
  | none => .ok ["py.typed".data]
  | some (.arr xs) => do
    let strs ← xs.mapM (fun v => match v with
      | .str s => Except.ok s
      | _ => Except.error PyErr.typeError)
    let current := strs.dedup
    if "py.typed".data ∈ current then .ok current
    else .ok (current ++ ["py.typed".data])
  | some _ => .error .typeError

/-- `PyProjectTomlBuilder._tool_setuptools_packages_find` (lines 549-561). -/
def packages_find (g : GHAInput) : List (PyStr × TVal) :=
  if !g.package_dirs.isEmpty then
    [("include".data, .arr ((g.package_dirs
      ++ g.package_dirs.map (fun p => p ++ ".*".data)).map TVal.str))]
  else
    if !g.exclude_dirs.isEmpty then
      [("namespaces".data, .bool false),
       ("exclude".data, .arr (g.exclude_dirs.map TVal.str))]
    else [("namespaces".data, .bool false)]

/-- Everything the TOML builder reads besides the document. -/
structure TomlPolicy where
  gha : GHAInput
  gh : GhPolicy
  fs : CfgFs
  commit_message : PyStr

/-- `sorted(set(xs))` on strings: order is fully determined by the set. -/
def sortedDedup (xs : List PyStr) : List PyStr := pySorted xs.dedup

/-- `set_multiline_array` with `sort := true` (lines 577-594) on a value:
sort a string array in place (the multiline flag is serialization-only). -/
def sortStrArray (v : TVal) : Except PyErr TVal :=
  match v with
  | .arr xs => do
    let strs ← xs.mapM (fun x => match x with
      | .str s => Except.ok s
      | _ => Except.error PyErr.typeError)
    Except.ok (.arr ((pySorted strs).map TVal.str))
  | other => Except.ok other

def asTable : TVal → Option (List (PyStr × TVal))
  | .table kvs => some kvs
  | _ => none

/-- `_validate_repo_initial_state` (lines 541-547): `toml_dict["project"]`
(a `KeyError` is re-raised as the must-have-project.version exception; a
non-table subscript is a `TypeError`). -/
def ptb_project_table (doc : TomlDoc) : Except PyErr (List (PyStr × TVal)) :=
  match alGet doc "project".data with
  | some (.table p) => Except.ok p
  | some _ => Except.error PyErr.typeError
  | none => Except.error (PyErr.exception "pyproject.toml must have project.version".data)

/-- `toml_dict["project"]["version"]` of `_validate_repo_initial_state`. -/
def ptb_version (proj : List (PyStr × TVal)) : Except PyErr TVal :=
  match alGet proj "version".data with
  | some v => Except.ok v
  | none => Except.error (PyErr.exception "pyproject.toml must have project.version".data)

/-- The `[build-system]` table set at lines 413-417. -/
def BS_SECTION : TVal := .table
  [("requires".data, .arr [.str "setuptools>=61.0".data]),
   ("build-backend".data, .str "setuptools.build_meta".data)]

/-- `get_development_status(toml_dict["project"]["version"], ...)` (lines
454-461): a non-string version has no `.split` (`AttributeError`). -/
def ptb_devstatus (g : GHAInput) (commit_message : PyStr) (version : TVal) :
    Except PyErr PyStr :=
  match version with
  | .str vs =>
    match get_development_status vs g.patch_without_tag commit_message with
    | some st => Except.ok st
    | none => Except.error (PyErr.exception "Could not figure Development Status".data)
  | _ => Except.error PyErr.attributeError

/-- The `[project]` step (lines 419-470). -/
def authorsTable (g : GHAInput) : List (PyStr × TVal) :=
  let a0 : List (PyStr × TVal) := []
  let a1 := if !g.author.isEmpty then alSet a0 "name".data (.str g.author) else a0
  if !g.author_email.isEmpty then alSet a1 "email".data (.str g.author_email) else a1

def ptb_project (pol : TomlPolicy) (packages : List PyStr)
    (readmePair : PyStr × PyStr) (version : TVal) (doc : TomlDoc) :
    Except PyErr TomlDoc :=
  let g := pol.gha
  if g.pypi_name.isEmpty then
    let setP := fun (d : TomlDoc) (k : PyStr) (v : TVal) =>
      alSet d "project".data
        (.table (alSet (((alGet d "project".data).bind asTable).getD []) k v))
    let doc := setP doc "name".data (.str (metaName packages))
    let doc := setP doc "requires-python".data
      (.str (get_requires_python g.python_min g.python_max))
    let doc :=
      if !g.author.isEmpty || !g.author_email.isEmpty then
        setP doc "authors".data (.arr [.table (authorsTable g)])
      else doc
    Except.ok (if !g.keywords.isEmpty then
        setP doc "keywords".data (.arr (g.keywords.map TVal.str)) else doc)
  else
    (ptb_devstatus g pol.commit_message version).map (fun devst =>
      let fields : List (PyStr × TVal) :=
        [("name".data, .str g.pypi_name),
         ("authors".data, .arr [.table
           [("name".data, .str g.author), ("email".data, .str g.author_email)]]),
         ("description".data, .str pol.gh.description),
         ("readme".data, .str readmePair.1),
         ("license".data, .table [("file".data, .str "LICENSE".data)]),
         ("keywords".data, .arr (g.keywords.map TVal.str)),
         ("classifiers".data, .arr
           ((devst :: python_classifiers g.python_min g.python_max).map TVal.str)),
         ("requires-python".data, .str (get_requires_python g.python_min g.python_max))]
      let proj := ((alGet doc "project".data).bind asTable).getD []
      let proj := alMerge proj fields
      let proj := alSet proj "urls".data (.table
        [("Homepage".data, .str ("https://pypi.org/project/".data ++ g.pypi_name ++ "/".data)),
         ("Tracker".data, .str (pol.gh.url ++ "/issues".data)),
         ("Source".data, .str pol.gh.url)])
      alSet doc "project".data (.table proj))

/-- `if not toml_dict.get("tool"): toml_dict["tool"] = {}` (lines 472-474). -/
def ptb_tool_normalize (doc : TomlDoc) : TomlDoc :=
  if !pyTruthy ((alGet doc "tool".data).getD (.table [])) then
    alSet doc "tool".data (.table [])
  else doc

/-- `toml_dict["tool"]` as a table (an `AttributeError`/`TypeError` shape
is modelled as a type error). -/
def tool_table_or_err (doc : TomlDoc) : Except PyErr (List (PyStr × TVal)) :=
  match alGet doc "tool".data with
  | some (.table t) => Except.ok t
  | _ => Except.error PyErr.typeError

/-- The `[tool.semantic_release]` table (lines 475-497). -/
def semrelTable (g : GHAInput) (version_vars : List PyStr) : TVal := .table
  [("version_toml".data, .arr [.str "pyproject.toml:project.version".data]),
   ("version_variables".data, .arr
     ((version_vars.map (fun p => p ++ ":__version__".data)).map TVal.str)),
   ("commit_parser".data, .str "emoji".data),
   ("commit_parser_options".data, .table
     [("major_tags".data, .arr (SEMANTIC_RELEASE_MAJOR.map TVal.str)),
      ("minor_tags".data, .arr (SEMANTIC_RELEASE_MINOR.map TVal.str)),
      ("patch_tags".data, .arr ((if !g.patch_without_tag then SEMANTIC_RELEASE_PATCH
        else SEMANTIC_RELEASE_PATCH ++ pySorted PATCH_WITHOUT_TAG_WORKAROUND).map TVal.str))]),
   ("build_command".data, .str "pip install build && python -m build".data)]

/-- `toml_dict["tool"]["semantic_release"] = {...}` (lines 475-497). -/
def ptb_semrel (g : GHAInput) (version_vars : List PyStr) (doc : TomlDoc) :
    Except PyErr TomlDoc := do
  let tool0 ← tool_table_or_err doc
  Except.ok (alSet doc "tool".data
    (.table (alSet tool0 "semantic_release".data (semrelTable g version_vars))))

/-- A tomlkit value that must be a table. -/
def table_of_or_err (v : Option TVal) : Except PyErr (List (PyStr × TVal)) :=
  match v with
  | some (.table t) => Except.ok t
  | _ => Except.error PyErr.typeError

/-- `toml_dict["tool"]["setuptools"].get("package-data", {})` in the update
dict (line 508): absent means an empty table. -/
def pd_table_or_err (v : Option TVal) : Except PyErr (List (PyStr × TVal)) :=
  match v with
  | none => Except.ok ([] : List (PyStr × TVal))
  | some (.table t) => Except.ok t
  | some _ => Except.error PyErr.typeError

/-- `if not toml_dict["tool"].get("setuptools"): ... = {}` (lines 500-501). -/
def setuptools_ensure (tool1 : List (PyStr × TVal)) : List (PyStr × TVal) :=
  if !pyTruthy ((alGet tool1 "setuptools".data).getD (.table [])) then
    alSet tool1 "setuptools".data (.table [])
  else tool1

/-- The `[tool.setuptools]` step (lines 499-512). -/
def ptb_setuptools (g : GHAInput) (doc : TomlDoc) : Except PyErr TomlDoc := do
  let tool1 ← (tool_table_or_err doc).map setuptools_ensure
  let st ← table_of_or_err (alGet tool1 "setuptools".data)
  let pd0 ← pd_table_or_err (alGet st "package-data".data)
  let star ← packagedata_star (alGet pd0 "*".data)
  Except.ok (alSet doc "tool".data (.table (alSet tool1 "setuptools".data (.table
    (alMerge st
      [("packages".data, .table [("find".data, .table (packages_find g))]),
       ("package-data".data, .table
         (alMerge pd0 [("*".data, .arr (star.map TVal.str))]))])))))

/-- The `[tool.setuptools]` step (lines 499-512) with the set-enumeration
order explicit. -/
def ptb_setuptools_ord (sord : List PyStr → List PyStr) (g : GHAInput)
    (doc : TomlDoc) : Except PyErr TomlDoc := do
  let tool1 ← (tool_table_or_err doc).map setuptools_ensure
  let st ← table_of_or_err (alGet tool1 "setuptools".data)
  let pd0 ← pd_table_or_err (alGet st "package-data".data)
  let star ← packagedata_star_ord sord (alGet pd0 "*".data)
  Except.ok (alSet doc "tool".data (.table (alSet tool1 "setuptools".data (.table
    (alMerge st
      [("packages".data, .table [("find".data, .table (packages_find g))]),
       ("package-data".data, .table
         (alMerge pd0 [("*".data, .arr (star.map TVal.str))]))])))))

/-- The values of a TOML array that must all be strings. -/
def strList_or_err (xs : List TVal) : Except PyErr (List PyStr) :=
  xs.mapM (fun x => match x with
    | .str s => Except.ok s
    | _ => Except.error PyErr.typeError)

/-- The non-`mypy` dependency lists of `[project.optional-dependencies]`
(lines 517-528). -/
def od_deps_or_err (od : List (PyStr × TVal)) : Except PyErr (List (List PyStr)) :=
  (od.filter (fun p => decide (p.1 ≠ "mypy".data))).mapM (fun p =>
    match p.2 with
    | .arr xs => strList_or_err xs
    | _ => Except.error PyErr.typeError)

/-- The `[project.optional-dependencies][mypy]` step (lines 514-528). -/
def ptb_mypy (g : GHAInput) (doc : TomlDoc) : Except PyErr TomlDoc :=
  if g.auto_mypy_option then
    match alGet (((alGet doc "project".data).bind asTable).getD [])
        "optional-dependencies".data with
    | none => Except.ok doc
    | some (.table od) =>
      (od_deps_or_err od).map (fun depLists =>
        alSet doc "project".data (.table
          (alSet (((alGet doc "project".data).bind asTable).getD [])
            "optional-dependencies".data (.table
              (alSet od "mypy".data
                (.arr ((sortedDedup depLists.flatten).map TVal.str)))))))
    | some _ => Except.error PyErr.attributeError
  else Except.ok doc

/-- `set_multiline_array(toml_dict, "project", "dependencies", sort=True)`
(line 624) on the project table. -/
def depsSort (proj : List (PyStr × TVal)) : Except PyErr (List (PyStr × TVal)) :=
  match alGet proj "dependencies".data with
  | some (.arr xs) =>
    (strList_or_err xs).map (fun strs =>
      alSet proj "dependencies".data (.arr ((pySorted strs).map TVal.str)))
  | _ => Except.ok proj

/-- The per-key sort of `[project.optional-dependencies]` in `write_toml`
(lines 627-629). -/
def odSort (proj : List (PyStr × TVal)) : Except PyErr (List (PyStr × TVal)) :=
  match alGet proj "optional-dependencies".data with
  | none => Except.ok proj
  | some (.table od) =>
    (od.mapM (fun p => (sortStrArray p.2).map (fun v => (p.1, v)))).map
      (fun od2 => alSet proj "optional-dependencies".data (.table od2))
  | some _ => Except.error PyErr.attributeError

/-- The array normalization of `write_toml` (lines 623-629). -/
def ptb_multiline (doc : TomlDoc) : Except PyErr TomlDoc := do
  let proj1 ← depsSort (((alGet doc "project".data).bind asTable).getD [])
  let proj1 ← odSort proj1
  Except.ok (alSet doc "project".data (.table proj1))

/-- `PyProjectTomlBuilder.__init__` (lines 396-539) followed by
`write_toml`'s array normalization (lines 623-629), as a transformation of
the TOML document, in source order. (The GitHub API and the README manager
are collaborators outside the document; the README rewrite is modelled
separately.) -/
def pyproject_toml_build (pol : TomlPolicy) (doc0 : TomlDoc) :
    Except PyErr TomlDoc := do
  let packages ← toml_get_package_paths pol.fs.root pol.gha.package_dirs
    pol.gha.exclude_dirs
  let readmePair ← readme_or_err pol.fs.readme
  let proj0 ← ptb_project_table doc0
  let version ← ptb_version proj0
  let doc ← ptb_project pol packages readmePair version
    (alSet doc0 "build-system".data BS_SECTION)
  let version_vars ← get_dunder_version_inits pol.fs.initLines packages version
  let doc ← ptb_semrel pol.gha version_vars (ptb_tool_normalize doc)
  let doc ← ptb_setuptools pol.gha doc
  let doc ← ptb_mypy pol.gha doc
  ptb_multiline doc

/-- The builder with the set-enumeration order of
`_tool_setuptools_packagedata_star` explicit; `pyproject_toml_build` is
this at insertion order (`pyproject_toml_build_dedup`). -/
def pyproject_toml_build_ord (sord : List PyStr → List PyStr)
    (pol : TomlPolicy) (doc0 : TomlDoc) : Except PyErr TomlDoc := do
  let packages ← toml_get_package_paths pol.fs.root pol.gha.package_dirs
    pol.gha.exclude_dirs
  let readmePair ← readme_or_err pol.fs.readme
  let proj0 ← ptb_project_table doc0
  let version ← ptb_version proj0
  let doc ← ptb_project pol packages readmePair version
    (alSet doc0 "build-system".data BS_SECTION)
  let version_vars ← get_dunder_version_inits pol.fs.initLines packages version
  let doc ← ptb_semrel pol.gha version_vars (ptb_tool_normalize doc)
  let doc ← ptb_setuptools_ord sord pol.gha doc
  let doc ← ptb_mypy pol.gha doc
  ptb_multiline doc

/-! ## Association-list and sorting lemmas for the idempotence proofs -/

theorem except_bind_ok {eps alf bet : Type} {x : Except eps alf}
    {f : alf → Except eps bet} {b : bet} :
    (x >>= f = Except.ok b) ↔ ∃ a, x = Except.ok a ∧ f a = Except.ok b := by
  cases x <;> simp [Bind.bind, Except.bind]

theorem alSet_alSet {α : Type} (d : List (PyStr × α)) (k : PyStr) (v w : α) :
    alSet (alSet d k v) k w = alSet d k w := by
  induction d with
  | nil => simp [alSet]
  | cons a t ih =>
    obtain ⟨k0, v0⟩ := a
    by_cases h : k0 = k
    · simp [alSet, h]
    · simp [alSet, h, ih]

theorem alSet_of_alGet_none {α : Type} {d : List (PyStr × α)} {k : PyStr}
    (h : alGet d k = none) (v : α) : alSet d k v = d ++ [(k, v)] := by
  induction d with
  | nil => rfl
  | cons a t ih =>
    obtain ⟨k0, v0⟩ := a
    by_cases h0 : k0 = k
    · rw [alGet, if_pos h0] at h
      cases h
    · rw [alGet, if_neg h0] at h
      rw [alSet, if_neg h0, ih h, List.cons_append]

theorem alGet_alRemove_same {α : Type} (d : List (PyStr × α)) (k : PyStr) :
    alGet (alRemove d k) k = none := by
  induction d with
  | nil => rfl
  | cons a t ih =>
    obtain ⟨k0, v0⟩ := a
    by_cases h0 : k0 = k
    · rw [alRemove, List.filter_cons, if_neg (by simp [h0])]
      exact ih
    · rw [alRemove, List.filter_cons, if_pos (by simp [h0])]
      rw [show (List.filter (fun p => decide (p.1 ≠ k)) t) = alRemove t k from rfl]
      rw [alGet, if_neg h0]
      exact ih

theorem alGet_isSome_iff_mem {α : Type} (d : List (PyStr × α)) (k : PyStr) :
    (alGet d k).isSome = true ↔ k ∈ d.map (·.1) := by
  induction d with
  | nil =>
    constructor
    · intro h
      rw [show alGet ([] : List (PyStr × α)) k = none from rfl, Option.isSome_none] at h
      cases h
    · intro h
      cases h
  | cons a t ih =>
    obtain ⟨k0, v0⟩ := a
    by_cases h0 : k0 = k
    · subst h0
      constructor
      · intro h
        rw [List.map_cons]
        exact List.mem_cons_self _ _
      · intro h
        rw [alGet, if_pos rfl]
        rfl
    · simp only [alGet, if_neg h0, List.map_cons, List.mem_cons]
      rw [ih]
      constructor
      · exact fun h => Or.inr h
      · rintro (h | h)
        · exact absurd h.symm h0
        · exact h

theorem alSet_map_fst_of_some {α : Type} {d : List (PyStr × α)} {k : PyStr}
    (h : (alGet d k).isSome = true) (v : α) :
    (alSet d k v).map (·.1) = d.map (·.1) := by
  induction d with
  | nil =>
    rw [show alGet ([] : List (PyStr × α)) k = none from rfl, Option.isSome_none] at h
    cases h
  | cons a t ih =>
    obtain ⟨k0, v0⟩ := a
    by_cases h0 : k0 = k
    · simp [alSet, h0]
    · rw [alGet, if_neg h0] at h
      simp [alSet, h0, ih h]

theorem alSet_map_fst_of_none {α : Type} {d : List (PyStr × α)} {k : PyStr}
    (h : alGet d k = none) (v : α) :
    (alSet d k v).map (·.1) = d.map (·.1) ++ [k] := by
  rw [alSet_of_alGet_none h v, List.map_append]
  rfl

theorem alSet_nodup_keys {α : Type} {d : List (PyStr × α)} {k : PyStr}
    (h : (d.map (·.1)).Nodup) (v : α) : ((alSet d k v).map (·.1)).Nodup := by
  cases hg : alGet d k with
  | some w =>
    rw [alSet_map_fst_of_some (by rw [hg]; rfl) v]
    exact h
  | none =>
    rw [alSet_map_fst_of_none hg v]
    rw [List.nodup_append]
    refine ⟨h, List.nodup_singleton k, ?_⟩
    intro a ha hb
    rw [List.mem_singleton] at hb
    subst hb
    have := (alGet_isSome_iff_mem d a).mpr ha
    rw [hg] at this
    cases this

theorem alRemove_map_fst {α : Type} (d : List (PyStr × α)) (k : PyStr) :
    (alRemove d k).map (·.1) = (d.map (·.1)).filter (fun x => decide (x ≠ k)) := by
  induction d with
  | nil => rfl
  | cons a t ih =>
    obtain ⟨k0, v0⟩ := a
    by_cases h0 : k0 = k
    · subst h0
      rw [alRemove, List.filter_cons, if_neg (by simp), List.map_cons,
        List.filter_cons, if_neg (by simp)]
      exact ih
    · rw [alRemove, List.filter_cons, if_pos (by simp [h0]), List.map_cons,
        List.map_cons, List.filter_cons, if_pos (by simp [h0])]
      rw [show (List.filter (fun p => decide (p.1 ≠ k)) t) = alRemove t k from rfl, ih]

theorem alRemove_nodup_keys {α : Type} {d : List (PyStr × α)}
    (h : (d.map (·.1)).Nodup) (k : PyStr) :
    ((alRemove d k).map (·.1)).Nodup := by
  rw [alRemove_map_fst]
  exact h.filter _

theorem alGet_filter_keys {α : Type} (d : List (PyStr × α)) (P : PyStr → Bool)
    (k : PyStr) (hk : P k = true) :
    alGet (d.filter (fun p => P p.1)) k = alGet d k := by
  induction d with
  | nil => rfl
  | cons a t ih =>
    obtain ⟨k0, v0⟩ := a
    by_cases h0 : k0 = k
    · subst h0
      rw [List.filter_cons, if_pos (by simpa using hk), alGet, if_pos rfl, alGet, if_pos rfl]
    · rw [List.filter_cons]
      by_cases hp : P k0 = true
      · rw [if_pos (by simpa using hp), alGet, if_neg h0, alGet, if_neg h0]
        exact ih
      · rw [if_neg (by simpa using hp), alGet, if_neg h0]
        exact ih

theorem alGet_pairs_map {α : Type} (c : PyStr → α) {ks : List PyStr} {k : PyStr}
    (hk : k ∈ ks) : alGet (ks.map (fun x => (x, c x))) k = some (c k) := by
  induction ks with
  | nil => cases hk
  | cons a t ih =>
    by_cases h0 : a = k
    · subst h0
      rw [List.map_cons, alGet, if_pos rfl]
    · rw [List.map_cons, alGet, if_neg h0]
      exact ih (by rcases List.mem_cons.mp hk with h | h; exact absurd h.symm h0; exact h)

theorem alGet_pairs_map_none {α : Type} (c : PyStr → α) {ks : List PyStr}
    {k : PyStr} (hk : k ∉ ks) : alGet (ks.map (fun x => (x, c x))) k = none := by
  induction ks with
  | nil => rfl
  | cons a t ih =>
    rw [List.map_cons, alGet, if_neg (fun h => hk (by rw [← h]; exact List.mem_cons_self a t))]
    exact ih (fun h => hk (List.mem_cons_of_mem _ h))

theorem pySorted_perm (l : List PyStr) : (pySorted l).Perm l :=
  List.perm_insertionSort _ _

theorem pySorted_sorted (l : List PyStr) : List.Sorted (· ≤ ·) (pySorted l) :=
  List.sorted_insertionSort _ _

theorem pySorted_congr {l l' : List PyStr} (h : l.Perm l') :
    pySorted l = pySorted l' :=
  List.eq_of_perm_of_sorted
    ((pySorted_perm l).trans (h.trans (pySorted_perm l').symm))
    (pySorted_sorted l) (pySorted_sorted l')

theorem mem_pySorted {l : List PyStr} {a : PyStr} : a ∈ pySorted l ↔ a ∈ l :=
  (pySorted_perm l).mem_iff

theorem sortedDedup_congr {l l' : List PyStr} (h : ∀ a, a ∈ l ↔ a ∈ l') :
    sortedDedup l = sortedDedup l' := by
  refine pySorted_congr ?_
  rw [List.perm_ext_iff_of_nodup (List.nodup_dedup l) (List.nodup_dedup l')]
  intro a
  simp only [List.mem_dedup]
  exact h a

theorem sortedDedup_sorted_nodup (l : List PyStr) :
    sortedDedup (sortedDedup l) = sortedDedup l := by
  rw [sortedDedup, sortedDedup, List.dedup_eq_self.mpr
    ((pySorted_perm l.dedup).nodup_iff.mpr (List.nodup_dedup l)), pySorted_idem]

theorem sortStrArray_idem {v w : TVal} (h : sortStrArray v = Except.ok w) :
    sortStrArray w = Except.ok w := by
  match v with
  | .arr xs =>
    rw [sortStrArray] at h
    rw [except_bind_ok] at h
    obtain ⟨strs, hstrs, hw⟩ := h
    cases hw
    rw [sortStrArray, except_bind_ok]
    refine ⟨pySorted strs, ?_, by rw [pySorted_idem]⟩
    clear hstrs
    induction pySorted strs with
    | nil => rfl
    | cons a t ih =>
      rw [List.map_cons, List.mapM_cons, ih]
      rfl
  | .str s => cases h; rfl
  | .bool b => cases h; rfl
  | .int n => cases h; rfl
  | .table kvs => cases h; rfl

/-! ## Idempotence of the dangling-list re-sort (`OptionsSection.__post_init__`) -/

theorem not_pred_of_mem_splitOnP (p : Char → Bool) :
    ∀ (xs : PyStr) {l : PyStr}, l ∈ xs.splitOnP p → ∀ a ∈ l, p a = false := by
  intro xs
  induction xs with
  | nil =>
    intro l hl a ha
    rw [List.splitOnP_nil, List.mem_singleton] at hl
    subst hl
    cases ha
  | cons x t ih =>
    intro l hl a ha
    rw [List.splitOnP_cons] at hl
    by_cases hx : p x = true
    · rw [if_pos hx] at hl
      rcases List.mem_cons.mp hl with rfl | hl'
      · cases ha
      · exact ih hl' a ha
    · rw [if_neg hx] at hl
      cases hsp : t.splitOnP p with
      | nil => exact absurd hsp (List.splitOnP_ne_nil p t)
      | cons h0 t0 =>
        rw [hsp] at hl
        rw [show (h0 :: t0).modifyHead (List.cons x) = (x :: h0) :: t0 by simp] at hl
        rcases List.mem_cons.mp hl with rfl | hl'
        · rcases List.mem_cons.mp ha with rfl | ha'
          · simpa using hx
          · exact ih (hsp ▸ List.mem_cons_self h0 t0) a ha'
        · exact ih (hsp ▸ List.mem_cons_of_mem h0 hl') a ha

theorem nl_not_mem_of_mem_splitOn {s l : PyStr} (h : l ∈ s.splitOn '\n') :
    '\n' ∉ l := by
  intro hmem
  rw [List.splitOn] at h
  have := not_pred_of_mem_splitOnP (fun c => c == '\n') s h '\n' hmem
  simp at this

theorem pyStrip_head_not_space {l : PyStr} {c : Char} {r : PyStr}
    (h : pyStrip l = c :: r) : isPySpace c = false := by
  rw [pyStrip] at h
  rcases dropTrailing_head_spec isPySpace (l.dropWhile isPySpace) with h2 | h2
  · rw [h2] at h
    cases h
  · rw [h] at h2
    rcases dropWhile_head_spec isPySpace l with h3 | ⟨c', r', h3, hc'⟩
    · rw [h3] at h2
      cases h2
    · rw [h3] at h2
      have : c = c' := by
        have : some c = some c' := h2
        exact Option.some.injEq .. ▸ this
      rw [this]
      exact hc'

theorem pyStrip_last_not_space {l : PyStr} {a : Char}
    (h : (pyStrip l).getLast? = some a) : isPySpace a = false := by
  rw [pyStrip] at h
  rcases dropTrailing_last_spec isPySpace (l.dropWhile isPySpace) with h2 | ⟨b, hb, hpb⟩
  · rw [h2] at h
    cases h
  · rw [hb] at h
    cases h
    exact hpb

theorem intercalate_nl_head (a : PyStr) (tl : List PyStr) (ha : a ≠ []) :
    (List.intercalate ['\n'] (a :: tl)).head? = a.head? := by
  cases tl with
  | nil => simp [List.intercalate, List.intersperse]
  | cons b t =>
    rw [show List.intercalate ['\n'] (a :: b :: t)
        = a ++ '\n' :: List.intercalate ['\n'] (b :: t) by
      simp [List.intercalate, List.intersperse]]
    cases a with
    | nil => exact absurd rfl ha
    | cons c r => rfl

theorem intercalate_nl_last (a : PyStr) (tl : List PyStr)
    (hne : ∀ e ∈ a :: tl, e ≠ []) :
    ∃ e ∈ a :: tl, (List.intercalate ['\n'] (a :: tl)).getLast? = e.getLast? := by
  induction tl generalizing a with
  | nil => exact ⟨a, List.mem_singleton.mpr rfl, by simp [List.intercalate, List.intersperse]⟩
  | cons b t ih =>
    obtain ⟨e, he, hlast⟩ := ih b (fun x hx => hne x (List.mem_cons_of_mem a hx))
    refine ⟨e, List.mem_cons_of_mem a he, ?_⟩
    rw [show List.intercalate ['\n'] (a :: b :: t)
        = a ++ '\n' :: List.intercalate ['\n'] (b :: t) by
      simp [List.intercalate, List.intersperse]]
    rw [List.getLast?_append_of_ne_nil a (by simp), List.getLast?_cons]
    cases hbt : List.intercalate ['\n'] (b :: t) with
    | nil =>
      rw [hbt] at hlast
      have : e.getLast? = none := hlast.symm
      rcases e with _ | ⟨x, xs⟩
      · exact absurd rfl (hne _ (List.mem_cons_of_mem a he))
      · rw [List.getLast?_eq_none_iff] at this
        cases this
    | cons y ys =>
      rw [hbt] at hlast
      obtain ⟨z, hz⟩ : ∃ z, (y :: ys).getLast? = some z :=
        ⟨(y :: ys).getLast (by simp), List.getLast?_eq_getLast _ _⟩
      rw [hz]
      rw [hz] at hlast
      exact hlast

theorem contains_iff_mem {l : PyStr} {c : Char} : l.contains c = true ↔ c ∈ l := by
  simp [List.contains]

theorem osec_install_requires_idem (ir : PyStr) :
    osec_install_requires (osec_install_requires ir) = osec_install_requires ir := by
  by_cases h : (pyStrip ir).contains '\n' = true
  case neg =>
    have hout : osec_install_requires ir = ir := by
      rw [osec_install_requires, if_neg h]
    rw [hout, hout]
  case pos =>
    have hout : osec_install_requires ir = '\n' :: List.intercalate ['\n']
        (pySorted ((((pyStrip ir).splitOn '\n').map pyStrip).filter
          (fun ln => !ln.isEmpty))) := by
      rw [osec_install_requires, if_pos h]
      rfl
    generalize hL : pySorted ((((pyStrip ir).splitOn '\n').map pyStrip).filter
      (fun ln => !ln.isEmpty)) = L at hout
    have hmemL : ∀ l ∈ L, pyStrip l = l ∧ l ≠ [] ∧ '\n' ∉ l := by
      intro l hl
      rw [← hL] at hl
      rw [mem_pySorted] at hl
      have hfil := List.mem_filter.mp hl
      obtain ⟨y, hy, hly⟩ := List.mem_map.mp hfil.1
      refine ⟨?_, ?_, ?_⟩
      · rw [← hly, pyStrip_idem]
      · intro hnil
        rw [hnil] at hfil
        simp at hfil
      · intro hmem
        exact nl_not_mem_of_mem_splitOn hy
          (mem_pyStrip (show '\n' ∈ pyStrip y by rw [hly]; exact hmem))
    have hsortL : pySorted L = L := by
      rw [← hL, pySorted_idem]
    cases L with
    | nil =>
      rw [hout]
      have hc : (pyStrip ('\n' :: List.intercalate ['\n'] ([] : List PyStr))).contains '\n'
          = false := by decide
      rw [osec_install_requires, if_neg (by rw [hc]; exact Bool.false_ne_true)]
    | cons a tl =>
      have hstrip : pyStrip ('\n' :: List.intercalate ['\n'] (a :: tl))
          = List.intercalate ['\n'] (a :: tl) := by
        rw [pyStrip, List.dropWhile_cons, if_pos (by decide)]
        have hhd : (List.intercalate ['\n'] (a :: tl)).head? = a.head? :=
          intercalate_nl_head a tl (hmemL a (List.mem_cons_self a tl)).2.1
        have hdw : (List.intercalate ['\n'] (a :: tl)).dropWhile isPySpace
            = List.intercalate ['\n'] (a :: tl) := by
          cases hbody : List.intercalate ['\n'] (a :: tl) with
          | nil => rfl
          | cons c r =>
            rw [List.dropWhile_cons]
            rw [hbody] at hhd
            have ha := (hmemL a (List.mem_cons_self a tl)).1
            obtain ⟨r', hr'⟩ := exists_cons_of_head_eq hhd.symm
            rw [if_neg ?hns]
            case hns =>
              have := pyStrip_head_not_space (l := a) (by rw [ha, hr'])
              rw [this]
              exact Bool.false_ne_true
        rw [hdw]
        refine dropTrailing_eq_self_of_last _ _ (fun x hx => ?_)
        obtain ⟨e, he, hlast⟩ := intercalate_nl_last a tl (fun e he => (hmemL e he).2.1)
        rw [hlast] at hx
        have := (hmemL e he).1
        exact pyStrip_last_not_space (l := e) (by rw [this]; exact hx)
      cases tl with
      | nil =>
        rw [hout]
        rw [osec_install_requires, if_neg ?hnc]
        case hnc =>
          rw [hstrip]
          rw [show List.intercalate ['\n'] [a] = a by simp [List.intercalate, List.intersperse]]
          intro hc
          exact (hmemL a (List.mem_cons_self a [])).2.2 (contains_iff_mem.mp hc)
      | cons b t =>
        rw [hout]
        rw [osec_install_requires, if_pos ?hc]
        case hc =>
          rw [hstrip]
          rw [show List.intercalate ['\n'] (a :: b :: t)
              = a ++ '\n' :: List.intercalate ['\n'] (b :: t) by
            simp [List.intercalate, List.intersperse]]
          exact contains_iff_mem.mpr (List.mem_append_right a (List.mem_cons_self _ _))
        rw [hstrip]
        rw [List.splitOn_intercalate (a :: b :: t) '\n'
          (fun l hl => (hmemL l hl).2.2) (by simp)]
        rw [list_to_dangling]
        have hmap : ((a :: b :: t).map pyStrip) = a :: b :: t :=
          List.map_congr_left (fun l hl => (hmemL l hl).1) |>.trans (List.map_id _)
        rw [hmap]
        rw [List.filter_eq_self.mpr (fun l hl => by
          simpa [List.isEmpty_iff] using (hmemL l hl).2.1)]
        rw [if_pos rfl, hsortL]

/-! ## The reorder step of `write_setup_cfg`: structure of its outputs -/

theorem mapM_sections_eq (cfg : IniCfg) : ∀ (ks : List PyStr),
    (∀ sec ∈ ks, (alGet cfg sec).isSome = true) →
    ks.mapM (fun sec => match alGet cfg sec with
      | some content => Except.ok (sec, content)
      | none => Except.error PyErr.keyError)
      = Except.ok (ks.map (fun sec => (sec, (alGet cfg sec).getD []))) := by
  intro ks
  induction ks with
  | nil => intro _; rfl
  | cons a t ih =>
    intro hall
    cases hg : alGet cfg a with
    | none =>
      have := hall a (List.mem_cons_self a t)
      rw [hg, Option.isSome_none] at this
      cases this
    | some w =>
      rw [List.mapM_cons, except_bind_ok]
      refine ⟨(a, w), by rw [hg], ?_⟩
      rw [except_bind_ok]
      refine ⟨_, ih (fun sec hsec => hall sec (List.mem_cons_of_mem a hsec)), ?_⟩
      rw [List.map_cons, hg]
      rfl

theorem mapM_sections_ok (cfg : IniCfg) : ∀ (ks : List PyStr)
    (firsts : List (PyStr × IniSection)),
    ks.mapM (fun sec => match alGet cfg sec with
      | some content => Except.ok (sec, content)
      | none => Except.error PyErr.keyError) = Except.ok firsts →
    (∀ sec ∈ ks, (alGet cfg sec).isSome = true) ∧
    firsts = ks.map (fun sec => (sec, (alGet cfg sec).getD [])) := by
  intro ks
  induction ks with
  | nil =>
    intro firsts h
    refine ⟨fun sec hsec => absurd hsec (List.not_mem_nil sec), ?_⟩
    have : Except.ok ([] : List (PyStr × IniSection))
        = (Except.ok firsts : Except PyErr _) := h
    cases this
    rfl
  | cons a t ih =>
    intro firsts h
    rw [List.mapM_cons, except_bind_ok] at h
    obtain ⟨x, hx, h2⟩ := h
    cases hg : alGet cfg a with
    | none =>
      rw [hg] at hx
      cases hx
    | some w =>
      rw [hg] at hx
      have hx' : (Except.ok (a, w) : Except PyErr (PyStr × IniSection)) = Except.ok x := hx
      cases hx'
      rw [except_bind_ok] at h2
      obtain ⟨xs, hxs, h3⟩ := h2
      have h3' : Except.ok ((a, w) :: xs) = (Except.ok firsts : Except PyErr _) := h3
      cases h3'
      obtain ⟨hall, hmap⟩ := ih xs hxs
      refine ⟨?_, ?_⟩
      · intro sec hsec
        rcases List.mem_cons.mp hsec with rfl | hsec'
        · rw [hg]
          rfl
        · exact hall sec hsec'
      · rw [List.map_cons, ← hmap, hg]
        rfl

theorem reorderSections_ok {cfg cfg' : IniCfg}
    (h : reorderSections cfg = Except.ok cfg') :
    (∀ sec ∈ iniTops cfg, (alGet cfg sec).isSome = true) ∧
    cfg' = (iniTops cfg).map (fun sec => (sec, (alGet cfg sec).getD []))
      ++ cfg.filter (fun p => !(iniTops cfg).contains p.1) := by
  rw [reorderSections, except_bind_ok] at h
  obtain ⟨firsts, hfirsts, hmk⟩ := h
  obtain ⟨hall, hmap⟩ := mapM_sections_ok cfg (iniTops cfg) firsts hfirsts
  have hmk' : Except.ok (firsts ++ cfg.filter (fun p => !(iniTops cfg).contains p.1))
      = (Except.ok cfg' : Except PyErr IniCfg) := hmk
  cases hmk'
  exact ⟨hall, by rw [hmap]⟩

theorem map_fst_filter_keys {α : Type} (l : List (PyStr × α)) (q : PyStr → Bool) :
    ((l.filter (fun p => q p.1)).map (·.1)) = (l.map (·.1)).filter q := by
  induction l with
  | nil => rfl
  | cons a t ih =>
    rw [List.filter_cons, List.map_cons, List.filter_cons]
    by_cases hq : q a.1 = true
    · rw [if_pos (by simpa using hq), if_pos hq, List.map_cons, ih]
    · rw [if_neg (by simpa using hq), if_neg hq, ih]

theorem containsStr_true_iff {l : List PyStr} {a : PyStr} :
    l.contains a = true ↔ a ∈ l := by
  simp [List.contains]

theorem alGet_filter_tops {α : Type} (cfg : List (PyStr × α)) (ks : List PyStr)
    (k : PyStr) (hk : (!ks.contains k) = true) :
    alGet (cfg.filter (fun p => !ks.contains p.1)) k = alGet cfg k :=
  alGet_filter_keys cfg (fun x => !ks.contains x) k hk

theorem map_fst_filter_tops {α : Type} (cfg : List (PyStr × α)) (ks : List PyStr) :
    ((cfg.filter (fun p => !ks.contains p.1)).map (·.1))
      = (cfg.map (·.1)).filter (fun x => !ks.contains x) := by
  induction cfg with
  | nil => rfl
  | cons a t ih =>
    rw [List.filter_cons, List.map_cons, List.filter_cons]
    by_cases hq : (!ks.contains a.1) = true
    · rw [if_pos (by simpa using hq), if_pos hq, List.map_cons, ih]
    · rw [if_neg (by simpa using hq), if_neg hq, ih]

theorem iniTops_perm {cfg cfg' : IniCfg}
    (h : (cfg.map (·.1)).Perm (cfg'.map (·.1))) : iniTops cfg = iniTops cfg' := by
  rw [iniTops, iniTops]
  rw [pySorted_congr (h.filter _)]

theorem iniTops_nodup {cfg : IniCfg} (h : ((cfg.map (·.1))).Nodup) :
    (iniTops cfg).Nodup := by
  rw [iniTops]
  rw [List.nodup_append]
  refine ⟨by decide, (pySorted_perm _).nodup_iff.mpr (h.filter _), ?_⟩
  intro a ha hb
  rw [mem_pySorted] at hb
  have := (List.mem_filter.mp hb).2
  rw [Bool.and_eq_true] at this
  have h2 := this.2
  rw [Bool.not_eq_true'] at h2
  exact absurd (containsStr_true_iff.mpr ha) (by rw [h2]; exact Bool.false_ne_true)

theorem mem_iniTops_of_isSome {cfg : IniCfg}
    (hall : ∀ sec ∈ iniTops cfg, (alGet cfg sec).isSome = true) :
    ∀ sec ∈ iniTops cfg, sec ∈ cfg.map (·.1) :=
  fun sec hsec => (alGet_isSome_iff_mem cfg sec).mp (hall sec hsec)

theorem alGet_reorder {cfg cfg' : IniCfg}
    (h : reorderSections cfg = Except.ok cfg') (k : PyStr) :
    alGet cfg' k = alGet cfg k := by
  obtain ⟨hall, hsh⟩ := reorderSections_ok h
  rw [hsh, alGet_append]
  by_cases hk : k ∈ iniTops cfg
  · rw [alGet_pairs_map _ hk]
    cases hg : alGet cfg k with
    | none =>
      have := hall k hk
      rw [hg, Option.isSome_none] at this
      cases this
    | some w => rfl
  · rw [alGet_pairs_map_none _ hk]
    rw [show (Option.none).or (alGet (cfg.filter fun p => !(iniTops cfg).contains p.1) k)
      = alGet (cfg.filter fun p => !(iniTops cfg).contains p.1) k from rfl]
    refine alGet_filter_tops cfg (iniTops cfg) k ?_
    rw [Bool.not_eq_true']
    rw [Bool.eq_false_iff]
    intro hc
    exact hk (containsStr_true_iff.mp hc)

theorem reorder_keys_perm {cfg cfg' : IniCfg} (hnd : ((cfg.map (·.1))).Nodup)
    (h : reorderSections cfg = Except.ok cfg') :
    (cfg'.map (·.1)).Perm (cfg.map (·.1)) := by
  obtain ⟨hall, hsh⟩ := reorderSections_ok h
  rw [hsh, List.map_append]
  have hm1 : ((iniTops cfg).map (fun sec => (sec, (alGet cfg sec).getD []))).map (·.1)
      = iniTops cfg := by
    rw [List.map_map]
    exact List.map_id _
  rw [hm1, map_fst_filter_tops]
  have hnd2 : (iniTops cfg ++ (cfg.map (·.1)).filter
      (fun x => !(iniTops cfg).contains x)).Nodup := by
    rw [List.nodup_append]
    refine ⟨iniTops_nodup hnd, hnd.filter _, ?_⟩
    intro a ha hb
    have h2 := (List.mem_filter.mp hb).2
    rw [Bool.not_eq_true'] at h2
    exact absurd (containsStr_true_iff.mpr ha) (by rw [h2]; exact Bool.false_ne_true)
  rw [List.perm_ext_iff_of_nodup hnd2 hnd]
  intro a
  constructor
  · intro ha
    rcases List.mem_append.mp ha with ha' | ha'
    · exact mem_iniTops_of_isSome hall a ha'
    · exact (List.mem_filter.mp ha').1
  · intro ha
    by_cases hin : a ∈ iniTops cfg
    · exact List.mem_append_left _ hin
    · refine List.mem_append_right _ (List.mem_filter.mpr ⟨ha, ?_⟩)
      rw [Bool.not_eq_true', Bool.eq_false_iff]
      intro hc
      exact hin (containsStr_true_iff.mp hc)

theorem alGet_move_semrel {cfg' : IniCfg} {v : IniSection}
    (hv : alGet cfg' "semantic_release".data = some v) (k : PyStr) :
    alGet (alSet (alRemove cfg' "semantic_release".data) "semantic_release".data v) k
      = alGet cfg' k := by
  rw [alSet_of_alGet_none (alGet_alRemove_same cfg' _) v, alGet_append]
  by_cases hk : k = "semantic_release".data
  · subst hk
    rw [alGet_alRemove_same, hv]
    rw [show alGet [("semantic_release".data, v)] "semantic_release".data = some v from by
      rw [alGet, if_pos rfl]]
    rfl
  · rw [alGet_alRemove_other _ _ _ hk]
    rw [show alGet [("semantic_release".data, v)] k = none from by
      rw [alGet, if_neg (fun h => hk h.symm)]
      rfl]
    cases alGet cfg' k <;> rfl

theorem reorder_move_semrel {cfg cfg' : IniCfg} {v : IniSection}
    (hnd : (cfg.map (·.1)).Nodup)
    (h : reorderSections cfg = Except.ok cfg')
    (hv : alGet cfg' "semantic_release".data = some v) :
    reorderSections
      (alSet (alRemove cfg' "semantic_release".data) "semantic_release".data v)
      = Except.ok cfg' := by
  obtain ⟨hall, hsh⟩ := reorderSections_ok h
  set D := alSet (alRemove cfg' "semantic_release".data) "semantic_release".data v with hD
  have hDform : D = alRemove cfg' "semantic_release".data ++ [("semantic_release".data, v)] := by
    rw [hD, alSet_of_alGet_none (alGet_alRemove_same cfg' _) v]
  have hndcfg' : (cfg'.map (·.1)).Nodup := (reorder_keys_perm hnd h).nodup_iff.mpr hnd
  have hsrmem : "semantic_release".data ∈ cfg'.map (·.1) :=
    (alGet_isSome_iff_mem cfg' _).mp (by rw [hv]; rfl)
  have hDkeys' : (D.map (·.1)).Perm (cfg'.map (·.1)) := by
    rw [hDform, List.map_append, alRemove_map_fst]
    have hnodupD : ((cfg'.map (·.1)).filter (fun x => decide (x ≠ "semantic_release".data))
        ++ (([("semantic_release".data, v)]).map (·.1))).Nodup := by
      rw [List.nodup_append]
      refine ⟨hndcfg'.filter _, by exact List.nodup_singleton _, ?_⟩
      intro a ha hb
      have hmem := List.mem_filter.mp ha
      have : a = "semantic_release".data := by
        have hb' : a ∈ ["semantic_release".data] := hb
        exact List.mem_singleton.mp hb'
      rw [this] at hmem
      simp at hmem
    rw [List.perm_ext_iff_of_nodup hnodupD hndcfg']
    intro a
    constructor
    · intro ha
      rcases List.mem_append.mp ha with ha' | ha'
      · exact (List.mem_filter.mp ha').1
      · have : a = "semantic_release".data := List.mem_singleton.mp ha'
        rw [this]
        exact hsrmem
    · intro ha
      by_cases hsr : a = "semantic_release".data
      · refine List.mem_append_right _ ?_
        rw [hsr]
        exact List.mem_singleton.mpr rfl
      · exact List.mem_append_left _ (List.mem_filter.mpr ⟨ha, by simpa using hsr⟩)
  have hDkeys : (D.map (·.1)).Perm (cfg.map (·.1)) :=
    hDkeys'.trans (reorder_keys_perm hnd h)
  have hTops : iniTops D = iniTops cfg := iniTops_perm hDkeys
  have hDGet : ∀ k, alGet D k = alGet cfg' k := fun k => alGet_move_semrel hv k
  have hDGet2 : ∀ k, alGet D k = alGet cfg k :=
    fun k => (hDGet k).trans (alGet_reorder h k)
  have hsrTops : "semantic_release".data ∈ iniTops cfg := by
    rw [iniTops]
    exact List.mem_append_left _ (by decide)
  rw [reorderSections, except_bind_ok]
  refine ⟨(iniTops D).map (fun sec => (sec, (alGet D sec).getD [])), ?_, ?_⟩
  · exact mapM_sections_eq D (iniTops D) (fun sec hsec => by
      rw [hDGet2]
      exact hall sec (hTops ▸ hsec))
  · have hfirsts : (iniTops D).map (fun sec => (sec, (alGet D sec).getD []))
        = (iniTops cfg).map (fun sec => (sec, (alGet cfg sec).getD [])) := by
      rw [hTops]
      exact List.map_congr_left (fun sec _ => by rw [hDGet2])
    have hrest : D.filter (fun p => !(iniTops D).contains p.1)
        = cfg.filter (fun p => !(iniTops cfg).contains p.1) := by
      rw [hTops, hDform, List.filter_append]
      have h2 : ([("semantic_release".data, v)]).filter
          (fun p => !(iniTops cfg).contains p.1) = [] := by
        rw [List.filter_cons, if_neg ?hneg, List.filter_nil]
        case hneg =>
          rw [Bool.not_eq_true', Bool.not_eq_false]
          exact containsStr_true_iff.mpr hsrTops
      rw [h2, List.append_nil]
      have h3 : (alRemove cfg' "semantic_release".data).filter
          (fun p => !(iniTops cfg).contains p.1)
          = cfg'.filter (fun p => !(iniTops cfg).contains p.1) := by
        rw [alRemove, List.filter_filter]
        refine List.filter_congr (fun p hp => ?_)
        by_cases hq : (!(iniTops cfg).contains p.1) = true
        · rw [hq, Bool.true_and]
          rw [Bool.not_eq_true'] at hq
          refine decide_eq_true ?_
          intro hps
          have := containsStr_true_iff.mpr (hps ▸ hsrTops)
          rw [hq] at this
          cases this
        · rw [Bool.not_eq_true] at hq
          rw [hq, Bool.false_and]
      rw [h3, hsh, List.filter_append]
      have h4 : ((iniTops cfg).map (fun sec => (sec, (alGet cfg sec).getD []))).filter
          (fun p => !(iniTops cfg).contains p.1) = [] := by
        rw [List.filter_eq_nil_iff]
        intro p hp
        obtain ⟨sec, hsec, hpeq⟩ := List.mem_map.mp hp
        intro hcon
        rw [← hpeq] at hcon
        rw [Bool.not_eq_true', Bool.eq_false_iff] at hcon
        exact hcon (containsStr_true_iff.mpr hsec)
      have h5 : (cfg.filter (fun p => !(iniTops cfg).contains p.1)).filter
          (fun p => !(iniTops cfg).contains p.1)
          = cfg.filter (fun p => !(iniTops cfg).contains p.1) := by
        refine List.filter_eq_self.mpr (fun p hp => (List.mem_filter.mp hp).2)
      rw [h4, h5, List.nil_append]
    show Except.ok ((iniTops D).map (fun sec => (sec, (alGet D sec).getD []))
        ++ D.filter (fun p => !(iniTops D).contains p.1)) = Except.ok cfg'
    rw [hfirsts, hrest, hsh]

/-! ## Stage characterizations: each build step rewrites one section -/

theorem ok_bind {eps a b : Type} (x : a) (f : a → Except eps b) :
    (Except.ok x >>= f) = f x := rfl

theorem error_bind {eps a b : Type} (e : eps) (f : a → Except eps b) :
    ((Except.error e : Except eps a) >>= f) = Except.error e := rfl

theorem except_map_ok {eps a b : Type} (f : a → b) (x : a) :
    (Except.ok x : Except eps a).map f = Except.ok (f x) := rfl

theorem except_map_error {eps a b : Type} (f : a → b) (e : eps) :
    (Except.error e : Except eps a).map f = Except.error e := rfl

/-- The ensure-section step reads as plain `alSet` facts. -/
theorem ensure_get (cfg : IniCfg) (K : PyStr) :
    ((alGet (if alHas cfg K then cfg else alSet cfg K []) K).getD [])
      = ((alGet cfg K).getD []) := by
  by_cases h : alHas cfg K = true
  · rw [if_pos h]
  · rw [if_neg h, alGet_alSet_same]
    rw [alHas] at h
    cases hg : alGet cfg K with
    | some w =>
      rw [hg] at h
      cases h rfl
    | none => rfl

theorem ensure_set (cfg : IniCfg) (K : PyStr) (m : IniSection) :
    alSet (if alHas cfg K then cfg else alSet cfg K []) K m = alSet cfg K m := by
  by_cases h : alHas cfg K = true
  · rw [if_pos h]
  · rw [if_neg h, alSet_alSet]

/-- The new `[options]` content as a function of the old content. -/
def optSectionNew (pol : CfgPolicy) (bsec : BuilderSection) (old : IniSection) :
    Except PyErr IniSection := do
  let pr ← (cfg_python_requires bsec.python_min bsec.python_max
    pol.latest_py3).mapError PyErr.exception
  Except.ok (alMerge old
    [("python_requires".data, pr),
     ("install_requires".data, osec_install_requires
       ((alGet old "install_requires".data).getD [])),
     ("packages".data, "find:".data)])

theorem bos_options_char (pol : CfgPolicy) (bsec : BuilderSection) (cfg : IniCfg) :
    bos_options pol bsec cfg
      = (optSectionNew pol bsec ((alGet cfg "options".data).getD [])).map
          (fun m => alSet cfg "options".data m) := by
  rw [bos_options, optSectionNew]
  cases hpr : (cfg_python_requires bsec.python_min bsec.python_max
      pol.latest_py3).mapError PyErr.exception with
  | error e => rfl
  | ok pr =>
    rw [ok_bind]
    rw [ok_bind]
    rw [except_map_ok]
    rw [ensure_get]
    exact congrArg Except.ok (ensure_set cfg "options".data _)

theorem secSet_alSet (cfg : IniCfg) (K k v : PyStr) (m : IniSection) :
    secSet (alSet cfg K m) K k v = alSet cfg K (alSet m k v) := by
  rw [secSet, alGet_alSet_same, alSet_alSet]
  rfl

theorem secSet_ensure (cfg : IniCfg) (K k v : PyStr) :
    secSet (if alHas cfg K then cfg else alSet cfg K []) K k v
      = alSet cfg K (alSet ((alGet cfg K).getD []) k v) := by
  rw [secSet, ensure_get, ensure_set]

/-- The new `[metadata]` content as a function of the old content
(lines 513-560 re-expressed on the section value). -/
def metaSectionNew (pol : CfgPolicy) (bsec : BuilderSection) (packages : List PyStr)
    (dev_status : PyStr) (readmePair : PyStr × PyStr) (old : IniSection) :
    Except PyErr IniSection := do
  let meta_version := "attr: ".data ++ packages.headD [] ++ ".__version__".data
  if bsec.pypi_name.isEmpty then do
    let kws ← keywords_list bsec pol.base_keywords
    Except.ok (alMerge old
      ([("name".data, metaName packages), ("version".data, meta_version)]
       ++ (if !bsec.author.isEmpty then [("author".data, bsec.author)] else [])
       ++ (if !bsec.author_email.isEmpty then
            [("author_email".data, bsec.author_email)] else [])
       ++ (if !kws.isEmpty then
            [("keywords".data, list_to_dangling kws false)] else [])))
  else do
    let kws ← keywords_list bsec pol.base_keywords
    let classifiers ← (cfg_python_classifiers bsec.python_min bsec.python_max
      pol.latest_py3).mapError PyErr.exception
    Except.ok (alMerge old (msecFields pol bsec meta_version readmePair.1 readmePair.2
      kws dev_status classifiers))

theorem bos_metadata_char (pol : CfgPolicy) (bsec : BuilderSection)
    (packages : List PyStr) (dev_status : PyStr) (readmePair : PyStr × PyStr)
    (cfg : IniCfg) :
    bos_metadata pol bsec packages dev_status readmePair cfg
      = (metaSectionNew pol bsec packages dev_status readmePair
          ((alGet cfg "metadata".data).getD [])).map
          (fun m => alSet cfg "metadata".data m) := by
  cases hkw : keywords_list bsec pol.base_keywords with
  | error e =>
    by_cases hpy : bsec.pypi_name.isEmpty = true
    · simp only [bos_metadata, metaSectionNew, hkw, hpy, if_true, error_bind,
        except_map_error]
    · simp only [bos_metadata, metaSectionNew, hkw, Bool.not_eq_true] at hpy ⊢
      simp only [hpy, Bool.false_eq_true, if_false, error_bind, except_map_error]
  | ok kws =>
    by_cases hpy : bsec.pypi_name.isEmpty = true
    · cases hau : bsec.author.isEmpty
      <;> cases hem : bsec.author_email.isEmpty
      <;> cases hke : kws.isEmpty
      <;> simp only [bos_metadata, metaSectionNew, hkw, hpy, if_true, hau, hem, hke,
            Bool.not_eq_true', Bool.not_eq_false, Bool.true_eq_false, Bool.false_eq_true,
            if_false, ok_bind, except_map_ok, secSet_ensure, secSet_alSet,
            alMerge, List.foldl_append, List.foldl_cons, List.foldl_nil,
            List.append_nil, List.nil_append]
    · cases hcls : (cfg_python_classifiers bsec.python_min bsec.python_max
          pol.latest_py3).mapError PyErr.exception with
      | error e =>
        simp only [bos_metadata, metaSectionNew, hkw, Bool.not_eq_true] at hpy ⊢
        simp only [hpy, Bool.false_eq_true, if_false, ok_bind, hcls, error_bind,
          except_map_error]
      | ok classifiers =>
        simp only [bos_metadata, metaSectionNew, hkw, Bool.not_eq_true] at hpy ⊢
        simp only [hpy, Bool.false_eq_true, if_false, ok_bind, hcls, except_map_ok,
          ensure_get, ensure_set]

/-- The regenerated `[options.packages.find]` content (lines 592-598). -/
def findSection (pol : CfgPolicy) (bsec : BuilderSection) : IniSection :=
  let pkgs := pySplitWs (pyStrip bsec.package_dirs)
  let m : IniSection := []
  let m := if !pkgs.isEmpty then
      alSet m "include".data
        (list_to_dangling (pkgs ++ pkgs.map (fun p => p ++ ".*".data)) false)
    else m
  if !pol.dirs_exclude.isEmpty then
    alSet m "exclude".data (list_to_dangling pol.dirs_exclude false)
  else m

theorem bos_find_char (pol : CfgPolicy) (bsec : BuilderSection) (cfg : IniCfg) :
    bos_find pol bsec cfg
      = if (alGet ((alGet cfg "options".data).getD []) "packages".data)
            = some "find:".data then
          alSet cfg "options.packages.find".data (findSection pol bsec)
        else cfg := by
  by_cases hc : (alGet ((alGet cfg "options".data).getD []) "packages".data)
      = some "find:".data
  · cases hpk : (pySplitWs (pyStrip bsec.package_dirs)).isEmpty
    <;> cases hex : pol.dirs_exclude.isEmpty
    <;> simp only [bos_find, findSection, if_pos hc, hpk, hex,
          Bool.not_eq_true', Bool.not_eq_false, Bool.true_eq_false, Bool.false_eq_true,
          if_true, if_false, secSet_alSet]
  · rw [bos_find, if_neg hc, if_neg hc]

theorem bos_pkgdata_char (cfg : IniCfg) :
    bos_pkgdata cfg
      = if !(pyIn "py.typed".data
            ((alGet ((alGet cfg "options.package_data".data).getD []) "*".data).getD [])) then
          alSet cfg "options.package_data".data
            (alSet ((alGet cfg "options.package_data".data).getD []) "*".data
              (if ((alGet ((alGet cfg "options.package_data".data).getD [])
                    "*".data).getD []).isEmpty
               then "py.typed".data
               else "py.typed, ".data
                 ++ ((alGet ((alGet cfg "options.package_data".data).getD [])
                    "*".data).getD [])))
        else cfg := by
  cases hin : pyIn "py.typed".data
      ((alGet ((alGet cfg "options.package_data".data).getD []) "*".data).getD []) with
  | false =>
    simp only [bos_pkgdata, ensure_get, hin, Bool.not_false, if_true, secSet_ensure]
  | true =>
    simp only [bos_pkgdata, ensure_get, hin, Bool.not_true, Bool.false_eq_true, if_false]
    by_cases hhas : alHas cfg "options.package_data".data = true
    · rw [if_pos hhas]
    · exfalso
      rw [alHas] at hhas
      cases hg : alGet cfg "options.package_data".data with
      | some w =>
        rw [hg] at hhas
        exact hhas rfl
      | none =>
        rw [hg] at hin
        have : pyIn "py.typed".data ((alGet ([] : IniSection) "*".data).getD [])
            = false := by decide
        rw [show ((none : Option IniSection)).getD [] = ([] : IniSection) from rfl] at hin
        rw [this] at hin
        cases hin

/-! ## Per-section idempotence of the content functions -/

theorem alMerge_alMerge {α : Type} {old ps : List (PyStr × α)}
    (hnd : (ps.map (·.1)).Nodup) :
    alMerge (alMerge old ps) ps = alMerge old ps :=
  alMerge_eq_self (fun p hp => by
    obtain ⟨k, v⟩ := p
    exact alGet_alMerge_mem old ps k v hnd hp)

theorem metaSectionNew_idem (pol : CfgPolicy) (bsec : BuilderSection)
    (packages : List PyStr) (dev_status : PyStr) (readmePair : PyStr × PyStr)
    {old m1 : IniSection}
    (h : metaSectionNew pol bsec packages dev_status readmePair old = Except.ok m1) :
    metaSectionNew pol bsec packages dev_status readmePair m1 = Except.ok m1 := by
  by_cases hpy : bsec.pypi_name.isEmpty = true
  · cases hkw : keywords_list bsec pol.base_keywords with
    | error e =>
      rw [metaSectionNew, if_pos hpy, hkw, error_bind] at h
      cases h
    | ok kws =>
      rw [metaSectionNew, if_pos hpy, hkw, ok_bind] at h
      rw [metaSectionNew, if_pos hpy, hkw, ok_bind]
      have h' : Except.ok (alMerge old
          ([("name".data, metaName packages),
            ("version".data, "attr: ".data ++ packages.headD [] ++ ".__version__".data)]
           ++ (if !bsec.author.isEmpty then [("author".data, bsec.author)] else [])
           ++ (if !bsec.author_email.isEmpty then
                [("author_email".data, bsec.author_email)] else [])
           ++ (if !kws.isEmpty then
                [("keywords".data, list_to_dangling kws false)] else [])))
          = (Except.ok m1 : Except PyErr IniSection) := h
      cases h'
      refine congrArg Except.ok (alMerge_alMerge ?_)
      cases hau : bsec.author.isEmpty <;> cases hem : bsec.author_email.isEmpty
        <;> cases hke : kws.isEmpty
        <;> simp only [Bool.not_false, Bool.not_true, eq_self_iff_true, if_true,
              Bool.false_eq_true, if_false, List.append_nil, List.nil_append,
              List.map_append, List.map_cons, List.map_nil]
        <;> decide
  · cases hkw : keywords_list bsec pol.base_keywords with
    | error e =>
      rw [metaSectionNew, if_neg hpy, hkw, error_bind] at h
      cases h
    | ok kws =>
      cases hcls : (cfg_python_classifiers bsec.python_min bsec.python_max
          pol.latest_py3).mapError PyErr.exception with
      | error e =>
        rw [metaSectionNew, if_neg hpy, hkw, ok_bind, hcls, error_bind] at h
        cases h
      | ok classifiers =>
        rw [metaSectionNew, if_neg hpy, hkw, ok_bind, hcls, ok_bind] at h
        rw [metaSectionNew, if_neg hpy, hkw, ok_bind, hcls, ok_bind]
        have h' : Except.ok (alMerge old (msecFields pol bsec
            ("attr: ".data ++ packages.headD [] ++ ".__version__".data)
            readmePair.1 readmePair.2 kws dev_status classifiers))
            = (Except.ok m1 : Except PyErr IniSection) := h
        cases h'
        exact congrArg Except.ok (alMerge_alMerge
          (by simp only [msecFields, List.map_cons, List.map_nil]; decide))

theorem optSectionNew_idem (pol : CfgPolicy) (bsec : BuilderSection)
    {old o1 : IniSection} (h : optSectionNew pol bsec old = Except.ok o1) :
    optSectionNew pol bsec o1 = Except.ok o1 := by
  cases hpr : (cfg_python_requires bsec.python_min bsec.python_max
      pol.latest_py3).mapError PyErr.exception with
  | error e =>
    rw [optSectionNew, hpr, error_bind] at h
    cases h
  | ok pr =>
    rw [optSectionNew, hpr, ok_bind] at h
    have h' : Except.ok (alMerge old
        [("python_requires".data, pr),
         ("install_requires".data, osec_install_requires
           ((alGet old "install_requires".data).getD [])),
         ("packages".data, "find:".data)])
        = (Except.ok o1 : Except PyErr IniSection) := h
    cases h'
    rw [optSectionNew, hpr, ok_bind]
    have hir : alGet (alMerge old
        [("python_requires".data, pr),
         ("install_requires".data, osec_install_requires
           ((alGet old "install_requires".data).getD [])),
         ("packages".data, "find:".data)]) "install_requires".data
        = some (osec_install_requires ((alGet old "install_requires".data).getD [])) :=
      alGet_alMerge_mem _ _ _ _ (by simp only [List.map_cons, List.map_nil]; decide)
        (List.mem_cons_of_mem _ (List.mem_cons_self _ _))
    rw [hir, Option.getD_some, osec_install_requires_idem]
    exact congrArg Except.ok (alMerge_alMerge
      (by simp only [List.map_cons, List.map_nil]; decide))

theorem optSectionNew_packages {pol : CfgPolicy} {bsec : BuilderSection}
    {old o1 : IniSection} (h : optSectionNew pol bsec old = Except.ok o1) :
    alGet o1 "packages".data = some "find:".data := by
  cases hpr : (cfg_python_requires bsec.python_min bsec.python_max
      pol.latest_py3).mapError PyErr.exception with
  | error e =>
    rw [optSectionNew, hpr, error_bind] at h
    cases h
  | ok pr =>
    rw [optSectionNew, hpr, ok_bind] at h
    have h' : Except.ok (alMerge old
        [("python_requires".data, pr),
         ("install_requires".data, osec_install_requires
           ((alGet old "install_requires".data).getD [])),
         ("packages".data, "find:".data)])
        = (Except.ok o1 : Except PyErr IniSection) := h
    cases h'
    exact alGet_alMerge_mem _ _ _ _ (by simp only [List.map_cons, List.map_nil]; decide)
      (List.mem_cons_of_mem _ (List.mem_cons_of_mem _ (List.mem_cons_self _ _)))

theorem pyIn_prefix (r : PyStr) :
    pyIn "py.typed".data ("py.typed".data ++ r) = true := by
  refine decide_eq_true ?_
  exact ⟨[], r, rfl⟩

theorem bos_pkgdata_in (cfg : IniCfg) :
    pyIn "py.typed".data
      ((alGet ((alGet (bos_pkgdata cfg) "options.package_data".data).getD [])
        "*".data).getD []) = true := by
  rw [bos_pkgdata_char]
  cases hin : pyIn "py.typed".data
      ((alGet ((alGet cfg "options.package_data".data).getD []) "*".data).getD []) with
  | true =>
    rw [if_neg (by decide)]
    exact hin
  | false =>
    rw [if_pos (by decide)]
    rw [alGet_alSet_same, Option.getD_some, alGet_alSet_same, Option.getD_some]
    by_cases hemp : ((alGet ((alGet cfg "options.package_data".data).getD [])
        "*".data).getD []).isEmpty = true
    · rw [if_pos hemp]
      decide
    · rw [if_neg hemp]
      rw [show "py.typed, ".data
          ++ ((alGet ((alGet cfg "options.package_data".data).getD []) "*".data).getD [])
          = "py.typed".data ++ (", ".data
            ++ ((alGet ((alGet cfg "options.package_data".data).getD [])
              "*".data).getD [])) from by rw [← List.append_assoc]; rfl]
      exact pyIn_prefix _

theorem bos_pkgdata_id {cfg : IniCfg}
    (hin : pyIn "py.typed".data
      ((alGet ((alGet cfg "options.package_data".data).getD []) "*".data).getD [])
      = true) : bos_pkgdata cfg = cfg := by
  rw [bos_pkgdata_char, hin]
  rw [if_neg (by decide)]

/-! ## Stage preservation on other sections, and key-list invariants -/

theorem alGet_bos_semrel_other (pol : CfgPolicy) (bsec : BuilderSection)
    (packages : List PyStr) (cfg : IniCfg) {k : PyStr}
    (hk : k ≠ "semantic_release".data) :
    alGet (bos_semrel pol bsec packages cfg) k = alGet cfg k := by
  rw [bos_semrel, alGet_alSet_other _ _ _ _ hk, alGet_alRemove_other _ _ _ hk]

theorem alGet_bos_semrel_same (pol : CfgPolicy) (bsec : BuilderSection)
    (packages : List PyStr) (cfg : IniCfg) :
    alGet (bos_semrel pol bsec packages cfg) "semantic_release".data
      = some (semrelSection pol bsec packages) := by
  rw [bos_semrel, alGet_alSet_same]

theorem alGet_bos_pkgdata_other (cfg : IniCfg) {k : PyStr}
    (hk : k ≠ "options.package_data".data) :
    alGet (bos_pkgdata cfg) k = alGet cfg k := by
  rw [bos_pkgdata_char]
  by_cases hc : (!(pyIn "py.typed".data
      ((alGet ((alGet cfg "options.package_data".data).getD []) "*".data).getD [])))
      = true
  · rw [if_pos hc, alGet_alSet_other _ _ _ _ hk]
  · rw [if_neg hc]

theorem nodup_bos_semrel {pol : CfgPolicy} {bsec : BuilderSection}
    {packages : List PyStr} {cfg : IniCfg} (h : (cfg.map (·.1)).Nodup) :
    ((bos_semrel pol bsec packages cfg).map (·.1)).Nodup := by
  rw [bos_semrel]
  exact alSet_nodup_keys (alRemove_nodup_keys h _) _

theorem nodup_bos_pkgdata {cfg : IniCfg} (h : (cfg.map (·.1)).Nodup) :
    ((bos_pkgdata cfg).map (·.1)).Nodup := by
  rw [bos_pkgdata_char]
  by_cases hc : (!(pyIn "py.typed".data
      ((alGet ((alGet cfg "options.package_data".data).getD []) "*".data).getD [])))
      = true
  · rw [if_pos hc]
    exact alSet_nodup_keys h _
  · rw [if_neg hc]
    exact h

theorem except_map_ok_iff {eps a b : Type} {x : Except eps a} {f : a → b} {y : b} :
    x.map f = Except.ok y ↔ ∃ v, x = Except.ok v ∧ f v = y := by
  cases x <;> simp [Except.map]

/-- Idempotence of the `write_setup_cfg` document transformation: a second
run on an already-built document reproduces it exactly. -/
theorem write_setup_cfg_model_idem (pol : CfgPolicy) {cfg0 cfg1 : IniCfg}
    (hnd : (cfg0.map (·.1)).Nodup)
    (h : write_setup_cfg_model pol cfg0 = Except.ok cfg1) :
    write_setup_cfg_model pol cfg1 = Except.ok cfg1 := by
  rw [write_setup_cfg_model] at h
  cases hhas : alHas cfg0 BUILDER_SECTION_NAME with
  | false =>
    rw [hhas] at h
    have h' : (Except.error (PyErr.exception
        "setup.cfg is missing the builder section".data) : Except PyErr IniCfg)
        = Except.ok cfg1 := h
    cases h'
  | true =>
    rw [hhas] at h
    replace h : (build_out_sections pol cfg0 >>= fun cfg => reorderSections cfg)
        = Except.ok cfg1 := h
    rw [except_bind_ok] at h
    obtain ⟨built, hbuild, hre⟩ := h
    rw [build_out_sections] at hbuild
    rw [except_bind_ok] at hbuild
    obtain ⟨bsec, hbsec, hbuild⟩ := hbuild
    rw [except_bind_ok] at hbuild
    obtain ⟨packages, hpkg, hbuild⟩ := hbuild
    rw [except_bind_ok] at hbuild
    obtain ⟨version, hver, hbuild⟩ := hbuild
    rw [except_bind_ok] at hbuild
    obtain ⟨readmePair, hrd, hbuild⟩ := hbuild
    rw [except_bind_ok] at hbuild
    obtain ⟨patchBool, hpb, hbuild⟩ := hbuild
    rw [except_bind_ok] at hbuild
    obtain ⟨dev_status, hds, hbuild⟩ := hbuild
    rw [except_bind_ok] at hbuild
    obtain ⟨M2, hM, hbuild⟩ := hbuild
    rw [except_bind_ok] at hbuild
    obtain ⟨O2, hO, hfin⟩ := hbuild
    have hbuilt : built = bos_pkgdata (bos_find pol bsec O2) := (Except.ok.inj hfin).symm
    rw [bos_metadata_char, except_map_ok_iff] at hM
    obtain ⟨m1, hmn, hM2⟩ := hM
    rw [bos_options_char, except_map_ok_iff] at hO
    obtain ⟨o1, hon, hO2⟩ := hO
    have hcond : alGet ((alGet O2 "options".data).getD []) "packages".data
        = some "find:".data := by
      rw [← hO2, alGet_alSet_same]
      exact optSectionNew_packages hon
    have hfind : bos_find pol bsec O2
        = alSet O2 "options.packages.find".data (findSection pol bsec) := by
      rw [bos_find_char, if_pos hcond]
    have hgB : alGet built BUILDER_SECTION_NAME = alGet cfg0 BUILDER_SECTION_NAME := by
      rw [hbuilt, alGet_bos_pkgdata_other _ (by decide), hfind,
        alGet_alSet_other _ _ _ _ (by decide), ← hO2,
        alGet_alSet_other _ _ _ _ (by decide),
        alGet_bos_semrel_other _ _ _ _ (by decide), ← hM2,
        alGet_alSet_other _ _ _ _ (by decide)]
    have hgMD : alGet built "metadata".data = some m1 := by
      rw [hbuilt, alGet_bos_pkgdata_other _ (by decide), hfind,
        alGet_alSet_other _ _ _ _ (by decide), ← hO2,
        alGet_alSet_other _ _ _ _ (by decide),
        alGet_bos_semrel_other _ _ _ _ (by decide), ← hM2, alGet_alSet_same]
    have hgSR : alGet built "semantic_release".data
        = some (semrelSection pol bsec packages) := by
      rw [hbuilt, alGet_bos_pkgdata_other _ (by decide), hfind,
        alGet_alSet_other _ _ _ _ (by decide), ← hO2,
        alGet_alSet_other _ _ _ _ (by decide), alGet_bos_semrel_same]
    have hgOP : alGet built "options".data = some o1 := by
      rw [hbuilt, alGet_bos_pkgdata_other _ (by decide), hfind,
        alGet_alSet_other _ _ _ _ (by decide), ← hO2, alGet_alSet_same]
    have hgOPF : alGet built "options.packages.find".data
        = some (findSection pol bsec) := by
      rw [hbuilt, alGet_bos_pkgdata_other _ (by decide), hfind, alGet_alSet_same]
    have hgOPDin : pyIn "py.typed".data
        ((alGet ((alGet built "options.package_data".data).getD []) "*".data).getD [])
        = true := by
      rw [hbuilt]
      exact bos_pkgdata_in _
    have hndbuilt : (built.map (·.1)).Nodup := by
      rw [hbuilt]
      refine nodup_bos_pkgdata ?_
      rw [hfind]
      refine alSet_nodup_keys ?_ _
      rw [← hO2]
      refine alSet_nodup_keys ?_ _
      refine nodup_bos_semrel ?_
      rw [← hM2]
      exact alSet_nodup_keys hnd _
    have h1B : alGet cfg1 BUILDER_SECTION_NAME = alGet cfg0 BUILDER_SECTION_NAME :=
      (alGet_reorder hre _).trans hgB
    have h1MD : alGet cfg1 "metadata".data = some m1 :=
      (alGet_reorder hre _).trans hgMD
    have h1SR : alGet cfg1 "semantic_release".data
        = some (semrelSection pol bsec packages) :=
      (alGet_reorder hre _).trans hgSR
    have h1OP : alGet cfg1 "options".data = some o1 :=
      (alGet_reorder hre _).trans hgOP
    have h1OPF : alGet cfg1 "options.packages.find".data
        = some (findSection pol bsec) :=
      (alGet_reorder hre _).trans hgOPF
    have h1OPDin : pyIn "py.typed".data
        ((alGet ((alGet cfg1 "options.package_data".data).getD []) "*".data).getD [])
        = true := by
      rw [alGet_reorder hre]
      exact hgOPDin
    have hhas1 : alHas cfg1 BUILDER_SECTION_NAME = true := by
      rw [alHas, h1B, ← alHas]
      exact hhas
    rw [write_setup_cfg_model, hhas1]
    show (build_out_sections pol cfg1 >>= fun cfg => reorderSections cfg)
        = Except.ok cfg1
    have hDget : ∀ k, alGet (bos_semrel pol bsec packages cfg1) k = alGet cfg1 k := by
      intro k
      rw [bos_semrel]
      exact alGet_move_semrel h1SR k
    have hbuild2 : build_out_sections pol cfg1
        = Except.ok (bos_semrel pol bsec packages cfg1) := by
      rw [build_out_sections, except_bind_ok]
      refine ⟨bsec, by rw [h1B]; exact hbsec, ?_⟩
      rw [except_bind_ok]
      refine ⟨packages, hpkg, ?_⟩
      rw [except_bind_ok]
      refine ⟨version, hver, ?_⟩
      rw [except_bind_ok]
      refine ⟨readmePair, hrd, ?_⟩
      rw [except_bind_ok]
      refine ⟨patchBool, hpb, ?_⟩
      rw [except_bind_ok]
      refine ⟨dev_status, hds, ?_⟩
      rw [except_bind_ok]
      refine ⟨cfg1, ?_, ?_⟩
      · rw [bos_metadata_char, h1MD]
        rw [show ((some m1).getD ([] : IniSection)) = m1 from rfl]
        rw [metaSectionNew_idem pol bsec packages dev_status readmePair hmn]
        rw [except_map_ok]
        rw [alSet_eq_self h1MD]
      · rw [except_bind_ok]
        refine ⟨bos_semrel pol bsec packages cfg1, ?_, ?_⟩
        · rw [bos_options_char, hDget, h1OP]
          rw [show ((some o1).getD ([] : IniSection)) = o1 from rfl]
          rw [optSectionNew_idem pol bsec hon]
          rw [except_map_ok]
          rw [alSet_eq_self (by rw [hDget]; exact h1OP)]
        · have hcond2 : alGet ((alGet (bos_semrel pol bsec packages cfg1)
              "options".data).getD []) "packages".data = some "find:".data := by
            rw [hDget, h1OP]
            exact optSectionNew_packages hon
          have hfind2 : bos_find pol bsec (bos_semrel pol bsec packages cfg1)
              = bos_semrel pol bsec packages cfg1 := by
            rw [bos_find_char, if_pos hcond2]
            exact alSet_eq_self (by rw [hDget]; exact h1OPF)
          rw [hfind2, bos_pkgdata_id (by rw [hDget]; exact h1OPDin)]
    rw [except_bind_ok]
    refine ⟨bos_semrel pol bsec packages cfg1, hbuild2, ?_⟩
    rw [bos_semrel]
    exact reorder_move_semrel hndbuilt hre h1SR

/-! ## TOML-side utilities for the idempotence proof -/

theorem strList_or_err_map_str (l : List PyStr) :
    strList_or_err (l.map TVal.str) = Except.ok l := by
  induction l with
  | nil => rfl
  | cons a t ih =>
    rw [strList_or_err] at ih ⊢
    rw [List.map_cons, List.mapM_cons, ih]
    rfl

theorem strList_or_err_inv : ∀ {xs : List TVal} {l : List PyStr},
    strList_or_err xs = Except.ok l → xs = l.map TVal.str := by
  intro xs
  induction xs with
  | nil =>
    intro l h
    have h' : Except.ok ([] : List PyStr) = (Except.ok l : Except PyErr _) := h
    cases h'
    rfl
  | cons a t ih =>
    intro l h
    cases a with
    | str s0 =>
      rw [strList_or_err, List.mapM_cons, except_bind_ok] at h
      obtain ⟨s, hs, h2⟩ := h
      have hss : s0 = s := Except.ok.inj hs
      rw [except_bind_ok] at h2
      obtain ⟨ts, hts, h3⟩ := h2
      have h3' : Except.ok (s :: ts) = (Except.ok l : Except PyErr _) := h3
      have h3'' : s :: ts = l := Except.ok.inj h3'
      rw [← h3'', ← hss, List.map_cons, ih hts]
    | bool b =>
      rw [strList_or_err, List.mapM_cons, except_bind_ok] at h
      obtain ⟨s, hs, _⟩ := h
      cases hs
    | int n =>
      rw [strList_or_err, List.mapM_cons, except_bind_ok] at h
      obtain ⟨s, hs, _⟩ := h
      cases hs
    | arr xs2 =>
      rw [strList_or_err, List.mapM_cons, except_bind_ok] at h
      obtain ⟨s, hs, _⟩ := h
      cases hs
    | table kvs =>
      rw [strList_or_err, List.mapM_cons, except_bind_ok] at h
      obtain ⟨s, hs, _⟩ := h
      cases hs

theorem sortStrArray_arr_str (l : List PyStr) :
    sortStrArray (.arr (l.map TVal.str))
      = Except.ok (.arr ((pySorted l).map TVal.str)) := by
  rw [sortStrArray]
  rw [show (List.mapM (fun x => match x with
      | TVal.str s => Except.ok s
      | x => Except.error PyErr.typeError) (l.map TVal.str))
    = strList_or_err (l.map TVal.str) from rfl]
  rw [strList_or_err_map_str]
  rfl

theorem alSet_ne_nil {α : Type} (d : List (PyStr × α)) (k : PyStr) (v : α) :
    alSet d k v ≠ [] := by
  cases d with
  | nil => exact fun h => by cases h
  | cons a t =>
    obtain ⟨k0, v0⟩ := a
    by_cases h0 : k0 = k
    · rw [alSet, if_pos h0]
      exact fun h => by cases h
    · rw [alSet, if_neg h0]
      exact fun h => by cases h

theorem filter_ne_alSet {α : Type} (d : List (PyStr × α)) (k : PyStr) (v : α) :
    (alSet d k v).filter (fun p => decide (p.1 ≠ k))
      = d.filter (fun p => decide (p.1 ≠ k)) := by
  induction d with
  | nil =>
    rw [show alSet ([] : List (PyStr × α)) k v = [(k, v)] from rfl]
    rw [List.filter_cons, if_neg (by simp)]
  | cons a t ih =>
    obtain ⟨k0, v0⟩ := a
    by_cases h0 : k0 = k
    · subst h0
      rw [alSet, if_pos rfl, List.filter_cons, List.filter_cons,
        if_neg (by simp), if_neg (by simp)]
    · rw [alSet, if_neg h0, List.filter_cons, List.filter_cons]
      by_cases hk : (decide (k0 ≠ k)) = true
      · rw [if_pos (by simpa using hk), if_pos (by simpa using hk), ih]
      · rw [if_neg (by simpa using hk), if_neg (by simpa using hk), ih]

theorem mapM_sortpairs_alGet :
    ∀ {od od2 : List (PyStr × TVal)},
    od.mapM (fun p => (sortStrArray p.2).map (fun v => (p.1, v))) = Except.ok od2 →
    ∀ (k : PyStr) (v : TVal), alGet od k = some v →
    ∃ w, sortStrArray v = Except.ok w ∧ alGet od2 k = some w := by
  intro od
  induction od with
  | nil =>
    intro od2 _ k v hv
    cases hv
  | cons a t ih =>
    intro od2 h k v hv
    rw [List.mapM_cons, except_bind_ok] at h
    obtain ⟨p2, hp2, h2⟩ := h
    rw [except_bind_ok] at h2
    obtain ⟨t2, ht2, h3⟩ := h2
    have h3' : Except.ok (p2 :: t2) = (Except.ok od2 : Except PyErr _) := h3
    cases h3'
    rw [except_map_ok_iff] at hp2
    obtain ⟨w0, hw0, hp2e⟩ := hp2
    obtain ⟨k0, v0⟩ := a
    by_cases h0 : k0 = k
    · subst h0
      rw [alGet, if_pos rfl] at hv
      cases hv
      refine ⟨w0, hw0, ?_⟩
      rw [← hp2e, alGet, if_pos rfl]
    · rw [alGet, if_neg h0] at hv
      obtain ⟨w, hw, hget⟩ := ih ht2 k v hv
      refine ⟨w, hw, ?_⟩
      rw [← hp2e, alGet, if_neg h0]
      exact hget

theorem mapM_sortpairs_filter :
    ∀ {od od2 : List (PyStr × TVal)},
    od.mapM (fun p => (sortStrArray p.2).map (fun v => (p.1, v))) = Except.ok od2 →
    (od.filter (fun p => decide (p.1 ≠ "mypy".data))).mapM
        (fun p => (sortStrArray p.2).map (fun v => (p.1, v)))
      = Except.ok (od2.filter (fun p => decide (p.1 ≠ "mypy".data))) := by
  intro od
  induction od with
  | nil =>
    intro od2 h
    have h' : Except.ok ([] : List (PyStr × TVal)) = (Except.ok od2 : Except PyErr _) := h
    cases h'
    rfl
  | cons a t ih =>
    intro od2 h
    rw [List.mapM_cons, except_bind_ok] at h
    obtain ⟨p2, hp2, h2⟩ := h
    rw [except_bind_ok] at h2
    obtain ⟨t2, ht2, h3⟩ := h2
    have h3' : Except.ok (p2 :: t2) = (Except.ok od2 : Except PyErr _) := h3
    cases h3'
    have hfst : p2.1 = a.1 := by
      rw [except_map_ok_iff] at hp2
      obtain ⟨w0, _, hp2e⟩ := hp2
      rw [← hp2e]
    rw [List.filter_cons, List.filter_cons, hfst]
    by_cases hk : (decide (a.1 ≠ "mypy".data)) = true
    · rw [if_pos (by simpa using hk), if_pos (by simpa using hk)]
      rw [List.mapM_cons, except_bind_ok]
      refine ⟨p2, hp2, ?_⟩
      rw [except_bind_ok]
      exact ⟨_, ih ht2, rfl⟩
    · rw [if_neg (by simpa using hk), if_neg (by simpa using hk)]
      exact ih ht2

theorem mapM_sortpairs_idem :
    ∀ {od od2 : List (PyStr × TVal)},
    od.mapM (fun p => (sortStrArray p.2).map (fun v => (p.1, v))) = Except.ok od2 →
    od2.mapM (fun p => (sortStrArray p.2).map (fun v => (p.1, v))) = Except.ok od2 := by
  intro od
  induction od with
  | nil =>
    intro od2 h
    have h' : Except.ok ([] : List (PyStr × TVal)) = (Except.ok od2 : Except PyErr _) := h
    cases h'
    rfl
  | cons a t ih =>
    intro od2 h
    rw [List.mapM_cons, except_bind_ok] at h
    obtain ⟨p2, hp2, h2⟩ := h
    rw [except_bind_ok] at h2
    obtain ⟨t2, ht2, h3⟩ := h2
    have h3' : Except.ok (p2 :: t2) = (Except.ok od2 : Except PyErr _) := h3
    cases h3'
    rw [except_map_ok_iff] at hp2
    obtain ⟨w0, hw0, hp2e⟩ := hp2
    rw [List.mapM_cons, except_bind_ok]
    refine ⟨p2, ?_, ?_⟩
    · rw [except_map_ok_iff]
      exact ⟨w0, by rw [← hp2e]; exact sortStrArray_idem hw0, by rw [← hp2e]⟩
    · rw [except_bind_ok]
      exact ⟨t2, ih ht2, rfl⟩

theorem od_lists_sorted :
    ∀ {ods ods2 : List (PyStr × TVal)} {L : List (List PyStr)},
    ods.mapM (fun p => match p.2 with
      | TVal.arr xs => strList_or_err xs
      | _ => Except.error PyErr.typeError) = Except.ok L →
    ods.mapM (fun p => (sortStrArray p.2).map (fun v => (p.1, v))) = Except.ok ods2 →
    ods2.mapM (fun p => match p.2 with
      | TVal.arr xs => strList_or_err xs
      | _ => Except.error PyErr.typeError) = Except.ok (L.map pySorted) := by
  intro ods
  induction ods with
  | nil =>
    intro ods2 L h1 h2
    have h1' : Except.ok ([] : List (List PyStr)) = (Except.ok L : Except PyErr _) := h1
    cases h1'
    have h2' : Except.ok ([] : List (PyStr × TVal)) = (Except.ok ods2 : Except PyErr _) := h2
    cases h2'
    rfl
  | cons a t ih =>
    intro ods2 L h1 h2
    rw [List.mapM_cons, except_bind_ok] at h1
    obtain ⟨l0, hl0, h1b⟩ := h1
    rw [except_bind_ok] at h1b
    obtain ⟨Lt, hLt, h1c⟩ := h1b
    have h1c' : Except.ok (l0 :: Lt) = (Except.ok L : Except PyErr _) := h1c
    cases h1c'
    rw [List.mapM_cons, except_bind_ok] at h2
    obtain ⟨p2, hp2, h2b⟩ := h2
    rw [except_bind_ok] at h2b
    obtain ⟨t2, ht2, h2c⟩ := h2b
    have h2c' : Except.ok (p2 :: t2) = (Except.ok ods2 : Except PyErr _) := h2c
    cases h2c'
    rw [except_map_ok_iff] at hp2
    obtain ⟨w0, hw0, hp2e⟩ := hp2
    cases hv : a.2 with
    | arr xs =>
      rw [hv] at hl0 hw0
      have hxs : xs = l0.map TVal.str := strList_or_err_inv hl0
      rw [hxs, sortStrArray_arr_str] at hw0
      have hw0' : Except.ok (TVal.arr ((pySorted l0).map TVal.str))
          = (Except.ok w0 : Except PyErr _) := hw0
      cases hw0'
      rw [List.mapM_cons, except_bind_ok]
      refine ⟨pySorted l0, ?_, ?_⟩
      · rw [← hp2e]
        exact strList_or_err_map_str (pySorted l0)
      · rw [except_bind_ok]
        exact ⟨Lt.map pySorted, ih hLt ht2, rfl⟩
    | str s => rw [hv] at hl0; cases hl0
    | bool b => rw [hv] at hl0; cases hl0
    | int n => rw [hv] at hl0; cases hl0
    | table kvs => rw [hv] at hl0; cases hl0

theorem mem_flatten_map_pySorted (L : List (List PyStr)) (a : PyStr) :
    a ∈ (L.map pySorted).flatten ↔ a ∈ L.flatten := by
  induction L with
  | nil => exact Iff.rfl
  | cons l t ih =>
    rw [List.map_cons, List.flatten_cons, List.flatten_cons, List.mem_append,
      List.mem_append, mem_pySorted, ih]

/-! ## The `[project]` step as a section transformation -/

theorem projOf_set_raw (d : TomlDoc) (K : PyStr) (p : List (PyStr × TVal)) :
    (((alGet (alSet d K (.table p)) K).bind asTable).getD []) = p := by
  rw [alGet_alSet_same]
  rfl

/-- The `ptb_project` PyPI field list (lines 440-466). -/
def projFields (pol : TomlPolicy) (readmePair : PyStr × PyStr) (devst : PyStr) :
    List (PyStr × TVal) :=
  [("name".data, .str pol.gha.pypi_name),
   ("authors".data, .arr [.table
     [("name".data, .str pol.gha.author), ("email".data, .str pol.gha.author_email)]]),
   ("description".data, .str pol.gh.description),
   ("readme".data, .str readmePair.1),
   ("license".data, .table [("file".data, .str "LICENSE".data)]),
   ("keywords".data, .arr (pol.gha.keywords.map TVal.str)),
   ("classifiers".data, .arr
     ((devst :: python_classifiers pol.gha.python_min pol.gha.python_max).map TVal.str)),
   ("requires-python".data, .str
     (get_requires_python pol.gha.python_min pol.gha.python_max))]

/-- The `[project.urls]` table (lines 466-470). -/
def projUrls (pol : TomlPolicy) : TVal := .table
  [("Homepage".data, .str ("https://pypi.org/project/".data ++ pol.gha.pypi_name ++ "/".data)),
   ("Tracker".data, .str (pol.gh.url ++ "/issues".data)),
   ("Source".data, .str pol.gh.url)]

/-- The new `[project]` content as a function of the old content. -/
def projNew (pol : TomlPolicy) (packages : List PyStr) (readmePair : PyStr × PyStr)
    (version : TVal) (proj : List (PyStr × TVal)) :
    Except PyErr (List (PyStr × TVal)) :=
  let g := pol.gha
  if g.pypi_name.isEmpty then
    Except.ok (alMerge proj
      ([("name".data, .str (metaName packages)),
        ("requires-python".data, .str (get_requires_python g.python_min g.python_max))]
       ++ (if !g.author.isEmpty || !g.author_email.isEmpty then
            [("authors".data, .arr [.table (authorsTable g)])] else [])
       ++ (if !g.keywords.isEmpty then
            [("keywords".data, .arr (g.keywords.map TVal.str))] else [])))
  else
    (ptb_devstatus g pol.commit_message version).map (fun devst =>
      alSet (alMerge proj (projFields pol readmePair devst)) "urls".data (projUrls pol))

theorem ptb_project_char (pol : TomlPolicy) (packages : List PyStr)
    (readmePair : PyStr × PyStr) (version : TVal) (doc : TomlDoc) :
    ptb_project pol packages readmePair version doc
      = (projNew pol packages readmePair version
          (((alGet doc "project".data).bind asTable).getD [])).map
          (fun p => alSet doc "project".data (.table p)) := by
  by_cases hpy : pol.gha.pypi_name.isEmpty = true
  · cases hao : (!pol.gha.author.isEmpty || !pol.gha.author_email.isEmpty)
    <;> cases hkw : pol.gha.keywords.isEmpty
    <;> simp only [ptb_project, projNew, hpy, if_true, hao, hkw,
          Bool.not_true, Bool.not_false, Bool.true_eq_false, Bool.false_eq_true,
          eq_self_iff_true, if_false, except_map_ok,
          alMerge, List.foldl_append, List.foldl_cons, List.foldl_nil,
          List.append_nil, List.nil_append, projOf_set_raw, alSet_alSet]
  · cases hds : ptb_devstatus pol.gha pol.commit_message version with
    | error e =>
      simp only [ptb_project, projNew, Bool.not_eq_true] at hpy ⊢
      simp only [hpy, Bool.false_eq_true, if_false, hds, except_map_error]
    | ok devst =>
      simp only [ptb_project, projNew, Bool.not_eq_true] at hpy ⊢
      simp only [hpy, Bool.false_eq_true, if_false, hds, except_map_ok,
        projFields, projUrls]

/-- Every key `projNew` writes is one of these section keys. -/
def projTouchedKeys : List PyStr :=
  ["name".data, "requires-python".data, "authors".data, "keywords".data,
   "description".data, "readme".data, "license".data, "classifiers".data,
   "urls".data]

theorem projNew_get_other {pol : TomlPolicy} {packages : List PyStr}
    {readmePair : PyStr × PyStr} {version : TVal} {proj P : List (PyStr × TVal)}
    (h : projNew pol packages readmePair version proj = Except.ok P)
    {k : PyStr} (hk : k ∉ projTouchedKeys) :
    alGet P k = alGet proj k := by
  by_cases hpy : pol.gha.pypi_name.isEmpty = true
  · rw [projNew, if_pos hpy] at h
    have h' := Except.ok.inj h
    rw [← h']
    refine alGet_alMerge_other _ _ _ (fun p hp he => hk ?_)
    rw [← he]
    rcases List.mem_append.mp hp with hp1 | hp1
    · rcases List.mem_append.mp hp1 with hp2 | hp2
      · rcases List.mem_cons.mp hp2 with rfl | hp3
        · exact List.mem_cons_self _ _
        · rcases List.mem_cons.mp hp3 with rfl | hp4
          · exact List.mem_cons_of_mem _ (List.mem_cons_self _ _)
          · cases hp4
      · by_cases hc : (!pol.gha.author.isEmpty || !pol.gha.author_email.isEmpty) = true
        · rw [if_pos hc] at hp2
          rcases List.mem_cons.mp hp2 with rfl | hp3
          · rw [projTouchedKeys]
            exact List.mem_cons_of_mem _ (List.mem_cons_of_mem _ (List.mem_cons_self _ _))
          · cases hp3
        · rw [if_neg hc] at hp2
          cases hp2
    · by_cases hc : (!pol.gha.keywords.isEmpty) = true
      · rw [if_pos hc] at hp1
        rcases List.mem_cons.mp hp1 with rfl | hp3
        · rw [projTouchedKeys]
          exact List.mem_cons_of_mem _ (List.mem_cons_of_mem _
            (List.mem_cons_of_mem _ (List.mem_cons_self _ _)))
        · cases hp3
      · rw [if_neg hc] at hp1
        cases hp1
  · rw [projNew, if_neg hpy, except_map_ok_iff] at h
    obtain ⟨devst, hds, hP⟩ := h
    rw [← hP]
    rw [alGet_alSet_other _ _ _ _ (fun he => hk (by
      rw [he, projTouchedKeys]
      exact List.mem_cons_of_mem _ (List.mem_cons_of_mem _ (List.mem_cons_of_mem _
        (List.mem_cons_of_mem _ (List.mem_cons_of_mem _ (List.mem_cons_of_mem _
          (List.mem_cons_of_mem _ (List.mem_cons_of_mem _ (List.mem_cons_self _ _))))))))))]
    refine alGet_alMerge_other _ _ _ (fun p hp he => hk ?_)
    rw [← he]
    rw [projFields] at hp
    rw [projTouchedKeys]
    rcases List.mem_cons.mp hp with rfl | hp
    · exact List.mem_cons_self _ _
    rcases List.mem_cons.mp hp with rfl | hp
    · exact List.mem_cons_of_mem _ (List.mem_cons_of_mem _ (List.mem_cons_self _ _))
    rcases List.mem_cons.mp hp with rfl | hp
    · exact List.mem_cons_of_mem _ (List.mem_cons_of_mem _ (List.mem_cons_of_mem _
        (List.mem_cons_of_mem _ (List.mem_cons_self _ _))))
    rcases List.mem_cons.mp hp with rfl | hp
    · exact List.mem_cons_of_mem _ (List.mem_cons_of_mem _ (List.mem_cons_of_mem _
        (List.mem_cons_of_mem _ (List.mem_cons_of_mem _ (List.mem_cons_self _ _)))))
    rcases List.mem_cons.mp hp with rfl | hp
    · exact List.mem_cons_of_mem _ (List.mem_cons_of_mem _ (List.mem_cons_of_mem _
        (List.mem_cons_of_mem _ (List.mem_cons_of_mem _ (List.mem_cons_of_mem _
          (List.mem_cons_self _ _))))))
    rcases List.mem_cons.mp hp with rfl | hp
    · exact List.mem_cons_of_mem _ (List.mem_cons_of_mem _ (List.mem_cons_of_mem _
        (List.mem_cons_self _ _)))
    rcases List.mem_cons.mp hp with rfl | hp
    · exact List.mem_cons_of_mem _ (List.mem_cons_of_mem _ (List.mem_cons_of_mem _
        (List.mem_cons_of_mem _ (List.mem_cons_of_mem _ (List.mem_cons_of_mem _
          (List.mem_cons_of_mem _ (List.mem_cons_self _ _)))))))
    rcases List.mem_cons.mp hp with rfl | hp
    · exact List.mem_cons_of_mem _ (List.mem_cons_self _ _)
    cases hp

theorem projNew_idem (pol : TomlPolicy) (packages : List PyStr)
    (readmePair : PyStr × PyStr) (version : TVal) {proj P : List (PyStr × TVal)}
    (h : projNew pol packages readmePair version proj = Except.ok P) :
    projNew pol packages readmePair version P = Except.ok P := by
  by_cases hpy : pol.gha.pypi_name.isEmpty = true
  · rw [projNew, if_pos hpy] at h ⊢
    have h' := Except.ok.inj h
    rw [← h']
    refine congrArg Except.ok (alMerge_alMerge ?_)
    cases hao : (!pol.gha.author.isEmpty || !pol.gha.author_email.isEmpty)
      <;> cases hkw : pol.gha.keywords.isEmpty
      <;> simp only [hao, hkw, Bool.not_true, Bool.not_false, Bool.true_eq_false,
            Bool.false_eq_true, eq_self_iff_true, if_true, if_false,
            List.append_nil, List.nil_append, List.map_append, List.map_cons,
            List.map_nil]
      <;> decide
  · rw [projNew, if_neg hpy] at h ⊢
    rw [except_map_ok_iff] at h
    obtain ⟨devst, hds, hP⟩ := h
    rw [hds, except_map_ok]
    have hfieldmem : ∀ p ∈ projFields pol readmePair devst,
        alGet P p.1 = some p.2 := by
      intro p hp
      have hne : p.1 ≠ "urls".data := by
        intro he
        rw [projFields] at hp
        rcases List.mem_cons.mp hp with rfl | hp <;>
          [skip; rcases List.mem_cons.mp hp with rfl | hp] <;>
          [cases he; skip; rcases List.mem_cons.mp hp with rfl | hp] <;>
          [cases he; skip; rcases List.mem_cons.mp hp with rfl | hp] <;>
          [cases he; skip; rcases List.mem_cons.mp hp with rfl | hp] <;>
          [cases he; skip; rcases List.mem_cons.mp hp with rfl | hp] <;>
          [cases he; skip; rcases List.mem_cons.mp hp with rfl | hp] <;>
          [cases he; skip; rcases List.mem_cons.mp hp with rfl | hp] <;>
          [cases he; skip; cases hp] <;> cases he
      rw [← hP]
      obtain ⟨k, v⟩ := p
      rw [alGet_alSet_other _ _ _ _ hne]
      exact alGet_alMerge_mem _ _ _ _
        (by simp only [projFields, List.map_cons, List.map_nil]; decide) hp
    have hm : alMerge P (projFields pol readmePair devst) = P :=
      alMerge_eq_self hfieldmem
    rw [hm]
    refine congrArg Except.ok (alSet_eq_self ?_)
    rw [← hP, alGet_alSet_same]

/-! ## Fixed points of the sort and tool steps -/

theorem depsSort_get_other {proj proj' : List (PyStr × TVal)}
    (h : depsSort proj = Except.ok proj') {k : PyStr}
    (hk : k ≠ "dependencies".data) : alGet proj' k = alGet proj k := by
  cases hd : alGet proj "dependencies".data with
  | none =>
    rw [depsSort, hd] at h
    have h' := Except.ok.inj h
    rw [← h']
  | some v =>
    cases v with
    | arr xs =>
      rw [depsSort, hd, except_map_ok_iff] at h
      obtain ⟨strs, _, hP⟩ := h
      rw [← hP, alGet_alSet_other _ _ _ _ hk]
    | str s =>
      rw [depsSort, hd] at h
      have h' := Except.ok.inj h
      rw [← h']
    | bool b =>
      rw [depsSort, hd] at h
      have h' := Except.ok.inj h
      rw [← h']
    | int n =>
      rw [depsSort, hd] at h
      have h' := Except.ok.inj h
      rw [← h']
    | table kvs =>
      rw [depsSort, hd] at h
      have h' := Except.ok.inj h
      rw [← h']

theorem depsSort_of_get_arr {proj : List (PyStr × TVal)} {xs : List TVal}
    (hd : alGet proj "dependencies".data = some (.arr xs)) :
    depsSort proj = (strList_or_err xs).map (fun strs =>
      alSet proj "dependencies".data (.arr ((pySorted strs).map TVal.str))) := by
  rw [depsSort, hd]

theorem depsSort_roundtrip {proj proj' : List (PyStr × TVal)}
    (h : depsSort proj = Except.ok proj') : depsSort proj' = Except.ok proj' := by
  cases hd : alGet proj "dependencies".data with
  | none =>
    rw [depsSort, hd] at h
    have h' := Except.ok.inj h
    rw [← h', depsSort, hd]
  | some v =>
    cases v with
    | arr xs =>
      rw [depsSort_of_get_arr hd, except_map_ok_iff] at h
      obtain ⟨strs, hstrs, hP⟩ := h
      rw [← hP]
      rw [depsSort_of_get_arr (alGet_alSet_same _ _ _)]
      rw [strList_or_err_map_str, except_map_ok, alSet_alSet, pySorted_idem]
    | str s =>
      rw [depsSort, hd] at h
      have h' := Except.ok.inj h
      rw [← h', depsSort, hd]
    | bool b =>
      rw [depsSort, hd] at h
      have h' := Except.ok.inj h
      rw [← h', depsSort, hd]
    | int n =>
      rw [depsSort, hd] at h
      have h' := Except.ok.inj h
      rw [← h', depsSort, hd]
    | table kvs =>
      rw [depsSort, hd] at h
      have h' := Except.ok.inj h
      rw [← h', depsSort, hd]

theorem depsSort_fixpoint {proj1 proj2 : List (PyStr × TVal)}
    (hsame : alGet proj2 "dependencies".data = alGet proj1 "dependencies".data)
    (h1 : depsSort proj1 = Except.ok proj1) : depsSort proj2 = Except.ok proj2 := by
  cases hd : alGet proj1 "dependencies".data with
  | none =>
    rw [depsSort, hsame, hd]
  | some v =>
    cases v with
    | arr xs =>
      rw [depsSort_of_get_arr hd, except_map_ok_iff] at h1
      obtain ⟨strs, hstrs, hP⟩ := h1
      have hxs : alGet proj1 "dependencies".data
          = some (.arr (((pySorted strs).map TVal.str))) := by
        rw [← hP, alGet_alSet_same]
      rw [hd] at hxs
      have hxs' : TVal.arr xs = TVal.arr ((pySorted strs).map TVal.str) :=
        Option.some.inj hxs
      have hxs'' : xs = (pySorted strs).map TVal.str := by
        cases hxs'
        rfl
      have hd2 : alGet proj2 "dependencies".data
          = some (.arr ((pySorted strs).map TVal.str)) := by
        rw [hsame, hd, hxs'']
      rw [depsSort_of_get_arr hd2]
      rw [strList_or_err_map_str, except_map_ok, pySorted_idem]
      refine congrArg Except.ok (alSet_eq_self ?_)
      rw [hd2]
    | str s => rw [depsSort, hsame, hd]
    | bool b => rw [depsSort, hsame, hd]
    | int n => rw [depsSort, hsame, hd]
    | table kvs => rw [depsSort, hsame, hd]

theorem odSort_get_other {proj proj' : List (PyStr × TVal)}
    (h : odSort proj = Except.ok proj') {k : PyStr}
    (hk : k ≠ "optional-dependencies".data) : alGet proj' k = alGet proj k := by
  cases hd : alGet proj "optional-dependencies".data with
  | none =>
    rw [odSort, hd] at h
    have h' := Except.ok.inj h
    rw [← h']
  | some v =>
    cases v with
    | table od =>
      rw [odSort, hd, except_map_ok_iff] at h
      obtain ⟨od2, _, hP⟩ := h
      rw [← hP, alGet_alSet_other _ _ _ _ hk]
    | str s => rw [odSort, hd] at h; cases h
    | bool b => rw [odSort, hd] at h; cases h
    | int n => rw [odSort, hd] at h; cases h
    | arr xs => rw [odSort, hd] at h; cases h

theorem odSort_of_get_table {proj : List (PyStr × TVal)} {od : List (PyStr × TVal)}
    (hd : alGet proj "optional-dependencies".data = some (.table od)) :
    odSort proj = (od.mapM (fun p => (sortStrArray p.2).map (fun v => (p.1, v)))).map
      (fun od2 => alSet proj "optional-dependencies".data (.table od2)) := by
  rw [odSort, hd]

theorem odSort_roundtrip {proj proj' : List (PyStr × TVal)}
    (h : odSort proj = Except.ok proj') : odSort proj' = Except.ok proj' := by
  cases hd : alGet proj "optional-dependencies".data with
  | none =>
    rw [odSort, hd] at h
    have h' := Except.ok.inj h
    rw [← h', odSort, hd]
  | some v =>
    cases v with
    | table od =>
      rw [odSort_of_get_table hd, except_map_ok_iff] at h
      obtain ⟨od2, hod2, hP⟩ := h
      rw [← hP]
      rw [odSort_of_get_table (alGet_alSet_same _ _ _)]
      rw [mapM_sortpairs_idem hod2, except_map_ok, alSet_alSet]
    | str s => rw [odSort, hd] at h; cases h
    | bool b => rw [odSort, hd] at h; cases h
    | int n => rw [odSort, hd] at h; cases h
    | arr xs => rw [odSort, hd] at h; cases h

theorem ptb_tool_normalize_get_other (doc : TomlDoc) {k : PyStr}
    (hk : k ≠ "tool".data) :
    alGet (ptb_tool_normalize doc) k = alGet doc k := by
  rw [ptb_tool_normalize]
  by_cases hc : (!pyTruthy ((alGet doc "tool".data).getD (.table []))) = true
  · rw [if_pos hc, alGet_alSet_other _ _ _ _ hk]
  · rw [if_neg hc]

theorem packagedata_star_mem {o : Option TVal} {star : List PyStr}
    (h : packagedata_star o = Except.ok star) : "py.typed".data ∈ star := by
  match o with
  | none =>
    have h' := Except.ok.inj h
    rw [← h']
    exact List.mem_singleton.mpr rfl
  | some (.arr xs) =>
    rw [packagedata_star, except_bind_ok] at h
    obtain ⟨strs, hstrs, h2⟩ := h
    by_cases hmem : "py.typed".data ∈ strs.dedup
    · rw [if_pos hmem] at h2
      have h' := Except.ok.inj h2
      rw [← h']
      exact hmem
    · rw [if_neg hmem] at h2
      have h' := Except.ok.inj h2
      rw [← h']
      exact List.mem_append_right _ (List.mem_singleton.mpr rfl)
  | some (.str s) => cases h
  | some (.bool b) => cases h
  | some (.int n) => cases h
  | some (.table kvs) => cases h

theorem packagedata_star_nodup {o : Option TVal} {star : List PyStr}
    (h : packagedata_star o = Except.ok star) : star.Nodup := by
  match o with
  | none =>
    have h' := Except.ok.inj h
    rw [← h']
    exact List.nodup_singleton _
  | some (.arr xs) =>
    rw [packagedata_star, except_bind_ok] at h
    obtain ⟨strs, hstrs, h2⟩ := h
    by_cases hmem : "py.typed".data ∈ strs.dedup
    · rw [if_pos hmem] at h2
      have h' := Except.ok.inj h2
      rw [← h']
      exact List.nodup_dedup strs
    · rw [if_neg hmem] at h2
      have h' := Except.ok.inj h2
      rw [← h']
      rw [List.nodup_append]
      refine ⟨List.nodup_dedup strs, List.nodup_singleton _, ?_⟩
      intro a ha hb
      rw [List.mem_singleton] at hb
      subst hb
      exact hmem ha
  | some (.str s) => cases h
  | some (.bool b) => cases h
  | some (.int n) => cases h
  | some (.table kvs) => cases h

theorem packagedata_star_again {o : Option TVal} {star : List PyStr}
    (h : packagedata_star o = Except.ok star) :
    packagedata_star (some (.arr (star.map TVal.str))) = Except.ok star := by
  rw [packagedata_star, except_bind_ok]
  refine ⟨star, ?_, ?_⟩
  · exact strList_or_err_map_str star
  · rw [List.dedup_eq_self.mpr (packagedata_star_nodup h)]
    rw [if_pos (packagedata_star_mem h)]

theorem ptb_project_table_inv {doc : TomlDoc} {proj : List (PyStr × TVal)}
    (h : ptb_project_table doc = Except.ok proj) :
    alGet doc "project".data = some (.table proj) := by
  cases hg : alGet doc "project".data with
  | none =>
    rw [ptb_project_table, hg] at h
    cases h
  | some v =>
    cases v with
    | table p =>
      rw [ptb_project_table, hg] at h
      have h' := Except.ok.inj h
      rw [h']
    | str sv => rw [ptb_project_table, hg] at h; cases h
    | bool b => rw [ptb_project_table, hg] at h; cases h
    | int n => rw [ptb_project_table, hg] at h; cases h
    | arr xs => rw [ptb_project_table, hg] at h; cases h

theorem ptb_version_inv {proj : List (PyStr × TVal)} {v : TVal}
    (h : ptb_version proj = Except.ok v) :
    alGet proj "version".data = some v := by
  cases hg : alGet proj "version".data with
  | none =>
    rw [ptb_version, hg] at h
    cases h
  | some w =>
    rw [ptb_version, hg] at h
    have h' := Except.ok.inj h
    rw [h']

theorem tool_table_or_err_inv {doc : TomlDoc} {t : List (PyStr × TVal)}
    (h : tool_table_or_err doc = Except.ok t) :
    alGet doc "tool".data = some (.table t) := by
  cases hg : alGet doc "tool".data with
  | none =>
    rw [tool_table_or_err, hg] at h
    cases h
  | some v =>
    cases v with
    | table p =>
      rw [tool_table_or_err, hg] at h
      have h' := Except.ok.inj h
      rw [h']
    | str sv => rw [tool_table_or_err, hg] at h; cases h
    | bool b => rw [tool_table_or_err, hg] at h; cases h
    | int n => rw [tool_table_or_err, hg] at h; cases h
    | arr xs => rw [tool_table_or_err, hg] at h; cases h

theorem setuptools_ensure_get_other (tool1 : List (PyStr × TVal)) {k : PyStr}
    (hk : k ≠ "setuptools".data) :
    alGet (setuptools_ensure tool1) k = alGet tool1 k := by
  rw [setuptools_ensure]
  by_cases hc : (!pyTruthy ((alGet tool1 "setuptools".data).getD (.table []))) = true
  · rw [if_pos hc, alGet_alSet_other _ _ _ _ hk]
  · rw [if_neg hc]

theorem ptb_mypy_get_other {g : GHAInput} {doc doc' : TomlDoc} {k : PyStr}
    (h : ptb_mypy g doc = Except.ok doc') (hk : k ≠ "project".data) :
    alGet doc' k = alGet doc k := by
  rw [ptb_mypy] at h
  by_cases hau : g.auto_mypy_option = true
  · rw [if_pos hau] at h
    cases hod : alGet (((alGet doc "project".data).bind asTable).getD [])
        "optional-dependencies".data with
    | none =>
      rw [hod] at h
      have h' := Except.ok.inj h
      rw [← h']
    | some v =>
      cases v with
      | table od =>
        rw [hod, except_map_ok_iff] at h
        obtain ⟨L, _, hP⟩ := h
        rw [← hP, alGet_alSet_other _ _ _ _ hk]
      | str sv => rw [hod] at h; cases h
      | bool b => rw [hod] at h; cases h
      | int n => rw [hod] at h; cases h
      | arr xs => rw [hod] at h; cases h
  · rw [if_neg hau] at h
    have h' := Except.ok.inj h
    rw [← h']

theorem ptb_mypy_projOf_get_other {g : GHAInput} {doc doc' : TomlDoc} {k : PyStr}
    (h : ptb_mypy g doc = Except.ok doc') (hk : k ≠ "optional-dependencies".data) :
    alGet (((alGet doc' "project".data).bind asTable).getD []) k
      = alGet (((alGet doc "project".data).bind asTable).getD []) k := by
  rw [ptb_mypy] at h
  by_cases hau : g.auto_mypy_option = true
  · rw [if_pos hau] at h
    cases hod : alGet (((alGet doc "project".data).bind asTable).getD [])
        "optional-dependencies".data with
    | none =>
      rw [hod] at h
      have h' := Except.ok.inj h
      rw [← h']
    | some v =>
      cases v with
      | table od =>
        rw [hod, except_map_ok_iff] at h
        obtain ⟨L, _, hP⟩ := h
        rw [← hP, projOf_set_raw, alGet_alSet_other _ _ _ _ hk]
      | str sv => rw [hod] at h; cases h
      | bool b => rw [hod] at h; cases h
      | int n => rw [hod] at h; cases h
      | arr xs => rw [hod] at h; cases h
  · rw [if_neg hau] at h
    have h' := Except.ok.inj h
    rw [← h']

theorem projNew_fixpoint (pol : TomlPolicy) (packages : List PyStr)
    (readmePair : PyStr × PyStr) (version : TVal)
    {proj P P2 : List (PyStr × TVal)}
    (h : projNew pol packages readmePair version proj = Except.ok P)
    (hsame : ∀ k ∈ projTouchedKeys, alGet P2 k = alGet P k) :
    projNew pol packages readmePair version P2 = Except.ok P2 := by
  by_cases hpy : pol.gha.pypi_name.isEmpty = true
  · rw [projNew, if_pos hpy] at h ⊢
    have h' := Except.ok.inj h
    have hnodup : ((([("name".data, TVal.str (metaName packages)),
        ("requires-python".data, TVal.str
          (get_requires_python pol.gha.python_min pol.gha.python_max))]
       ++ (if !pol.gha.author.isEmpty || !pol.gha.author_email.isEmpty then
            [("authors".data, TVal.arr [TVal.table (authorsTable pol.gha)])] else [])
       ++ (if !pol.gha.keywords.isEmpty then
            [("keywords".data, TVal.arr (pol.gha.keywords.map TVal.str))] else []))).map
            (·.1)).Nodup := by
      cases hao : (!pol.gha.author.isEmpty || !pol.gha.author_email.isEmpty)
        <;> cases hkw : pol.gha.keywords.isEmpty
        <;> simp only [hao, hkw, Bool.not_true, Bool.not_false, Bool.true_eq_false,
              Bool.false_eq_true, eq_self_iff_true, if_true, if_false,
              List.append_nil, List.nil_append, List.map_append, List.map_cons,
              List.map_nil]
        <;> decide
    refine congrArg Except.ok (alMerge_eq_self (fun p hp => ?_))
    have htouch : p.1 ∈ projTouchedKeys := by
      rcases List.mem_append.mp hp with hp1 | hp1
      · rcases List.mem_append.mp hp1 with hp2 | hp2
        · rcases List.mem_cons.mp hp2 with rfl | hp3
          · exact List.mem_cons_self _ _
          · rcases List.mem_cons.mp hp3 with rfl | hp4
            · exact List.mem_cons_of_mem _ (List.mem_cons_self _ _)
            · cases hp4
        · by_cases hc : (!pol.gha.author.isEmpty || !pol.gha.author_email.isEmpty) = true
          · rw [if_pos hc] at hp2
            rcases List.mem_cons.mp hp2 with rfl | hp3
            · rw [projTouchedKeys]
              exact List.mem_cons_of_mem _ (List.mem_cons_of_mem _ (List.mem_cons_self _ _))
            · cases hp3
          · rw [if_neg hc] at hp2
            cases hp2
      · by_cases hc : (!pol.gha.keywords.isEmpty) = true
        · rw [if_pos hc] at hp1
          rcases List.mem_cons.mp hp1 with rfl | hp3
          · rw [projTouchedKeys]
            exact List.mem_cons_of_mem _ (List.mem_cons_of_mem _
              (List.mem_cons_of_mem _ (List.mem_cons_self _ _)))
          · cases hp3
        · rw [if_neg hc] at hp1
          cases hp1
    rw [hsame p.1 htouch, ← h']
    obtain ⟨k, v⟩ := p
    exact alGet_alMerge_mem _ _ _ _ hnodup hp
  · rw [projNew, if_neg hpy] at h ⊢
    rw [except_map_ok_iff] at h
    obtain ⟨devst, hds, hP⟩ := h
    rw [hds, except_map_ok]
    have hfieldmem : ∀ p ∈ projFields pol readmePair devst,
        alGet P2 p.1 = some p.2 := by
      intro p hp
      have hne : p.1 ≠ "urls".data := by
        intro he
        rw [projFields] at hp
        rcases List.mem_cons.mp hp with rfl | hp <;>
          [skip; rcases List.mem_cons.mp hp with rfl | hp] <;>
          [cases he; skip; rcases List.mem_cons.mp hp with rfl | hp] <;>
          [cases he; skip; rcases List.mem_cons.mp hp with rfl | hp] <;>
          [cases he; skip; rcases List.mem_cons.mp hp with rfl | hp] <;>
          [cases he; skip; rcases List.mem_cons.mp hp with rfl | hp] <;>
          [cases he; skip; rcases List.mem_cons.mp hp with rfl | hp] <;>
          [cases he; skip; rcases List.mem_cons.mp hp with rfl | hp] <;>
          [cases he; skip; cases hp] <;> cases he
      have htouch : p.1 ∈ projTouchedKeys := by
        rw [projFields] at hp
        rw [projTouchedKeys]
        rcases List.mem_cons.mp hp with rfl | hp
        · exact List.mem_cons_self _ _
        rcases List.mem_cons.mp hp with rfl | hp
        · exact List.mem_cons_of_mem _ (List.mem_cons_of_mem _ (List.mem_cons_self _ _))
        rcases List.mem_cons.mp hp with rfl | hp
        · exact List.mem_cons_of_mem _ (List.mem_cons_of_mem _ (List.mem_cons_of_mem _
            (List.mem_cons_of_mem _ (List.mem_cons_self _ _))))
        rcases List.mem_cons.mp hp with rfl | hp
        · exact List.mem_cons_of_mem _ (List.mem_cons_of_mem _ (List.mem_cons_of_mem _
            (List.mem_cons_of_mem _ (List.mem_cons_of_mem _ (List.mem_cons_self _ _)))))
        rcases List.mem_cons.mp hp with rfl | hp
        · exact List.mem_cons_of_mem _ (List.mem_cons_of_mem _ (List.mem_cons_of_mem _
            (List.mem_cons_of_mem _ (List.mem_cons_of_mem _ (List.mem_cons_of_mem _
              (List.mem_cons_self _ _))))))
        rcases List.mem_cons.mp hp with rfl | hp
        · exact List.mem_cons_of_mem _ (List.mem_cons_of_mem _ (List.mem_cons_of_mem _
            (List.mem_cons_self _ _)))
        rcases List.mem_cons.mp hp with rfl | hp
        · exact List.mem_cons_of_mem _ (List.mem_cons_of_mem _ (List.mem_cons_of_mem _
            (List.mem_cons_of_mem _ (List.mem_cons_of_mem _ (List.mem_cons_of_mem _
              (List.mem_cons_of_mem _ (List.mem_cons_self _ _)))))))
        rcases List.mem_cons.mp hp with rfl | hp
        · exact List.mem_cons_of_mem _ (List.mem_cons_self _ _)
        cases hp
      rw [hsame p.1 htouch, ← hP]
      obtain ⟨k, v⟩ := p
      rw [alGet_alSet_other _ _ _ _ hne]
      exact alGet_alMerge_mem _ _ _ _
        (by simp only [projFields, List.map_cons, List.map_nil]; decide) hp
    rw [alMerge_eq_self hfieldmem]
    refine congrArg Except.ok (alSet_eq_self ?_)
    have hurlsmem : "urls".data ∈ projTouchedKeys := by
      rw [projTouchedKeys]
      decide
    rw [hsame "urls".data hurlsmem, ← hP, alGet_alSet_same]

/-- Equation lemmas for the mypy step. -/
theorem ptb_mypy_of_get_none {g : GHAInput} {doc : TomlDoc}
    (hau : g.auto_mypy_option = true)
    (hod : alGet (((alGet doc "project".data).bind asTable).getD [])
      "optional-dependencies".data = none) :
    ptb_mypy g doc = Except.ok doc := by
  rw [ptb_mypy, if_pos hau, hod]

theorem ptb_mypy_of_get_table {g : GHAInput} {doc : TomlDoc}
    {od : List (PyStr × TVal)} (hau : g.auto_mypy_option = true)
    (hod : alGet (((alGet doc "project".data).bind asTable).getD [])
      "optional-dependencies".data = some (.table od)) :
    ptb_mypy g doc = (od_deps_or_err od).map (fun depLists =>
      alSet doc "project".data (.table
        (alSet (((alGet doc "project".data).bind asTable).getD [])
          "optional-dependencies".data (.table
            (alSet od "mypy".data
              (.arr ((sortedDedup depLists.flatten).map TVal.str))))))) := by
  rw [ptb_mypy, if_pos hau, hod]

/-- Idempotence of the insertion-order determinization of the
`pyproject.toml` builder: a second run on an already-built document
reproduces it exactly. Together with the divergence of the order-generic
builder this isolates the set-enumeration order of
`_tool_setuptools_packagedata_star` as the only obstruction to
idempotence of the full pipeline. -/
theorem pyproject_toml_build_idem (pol : TomlPolicy) {doc0 doc1 : TomlDoc}
    (h : pyproject_toml_build pol doc0 = Except.ok doc1) :
    pyproject_toml_build pol doc1 = Except.ok doc1 := by
  rw [pyproject_toml_build] at h
  rw [except_bind_ok] at h
  obtain ⟨packages, hpkg, h⟩ := h
  rw [except_bind_ok] at h
  obtain ⟨readmePair, hrd, h⟩ := h
  rw [except_bind_ok] at h
  obtain ⟨proj0, hproj0, h⟩ := h
  rw [except_bind_ok] at h
  obtain ⟨version, hver, h⟩ := h
  rw [except_bind_ok] at h
  obtain ⟨docP, hP, h⟩ := h
  rw [except_bind_ok] at h
  obtain ⟨version_vars, hvv, h⟩ := h
  rw [except_bind_ok] at h
  obtain ⟨docS, hS, h⟩ := h
  rw [except_bind_ok] at h
  obtain ⟨docT, hT, h⟩ := h
  rw [except_bind_ok] at h
  obtain ⟨docM, hM, hml⟩ := h
  rw [ptb_project_char, except_map_ok_iff] at hP
  obtain ⟨P_b, hPn, hPe⟩ := hP
  rw [ptb_semrel, except_bind_ok] at hS
  obtain ⟨T_c, hTc, hS2⟩ := hS
  have hSe : alSet (ptb_tool_normalize docP) "tool".data
      (.table (alSet T_c "semantic_release".data (semrelTable pol.gha version_vars)))
      = docS := Except.ok.inj hS2
  rw [ptb_setuptools, except_bind_ok] at hT
  obtain ⟨tool1, htool1, hT⟩ := hT
  rw [except_map_ok_iff] at htool1
  obtain ⟨T_d, hTd, htool1e⟩ := htool1
  rw [except_bind_ok] at hT
  obtain ⟨ST, hST, hT⟩ := hT
  rw [except_bind_ok] at hT
  obtain ⟨PD0, hPD0, hT⟩ := hT
  rw [except_bind_ok] at hT
  obtain ⟨star, hstar, hTfin⟩ := hT
  have hTe : alSet docS "tool".data (.table (alSet tool1 "setuptools".data (.table
      (alMerge ST
        [("packages".data, .table [("find".data, .table (packages_find pol.gha))]),
         ("package-data".data, .table
           (alMerge PD0 [("*".data, .arr (star.map TVal.str))]))])))) = docT :=
    Except.ok.inj hTfin
  rw [ptb_multiline, except_bind_ok] at hml
  obtain ⟨P_m, hPm, hml⟩ := hml
  rw [except_bind_ok] at hml
  obtain ⟨P_g, hPg, hml2⟩ := hml
  have hmle : alSet docM "project".data (.table P_g) = doc1 := Except.ok.inj hml2
  set STm := alMerge ST
    [("packages".data, TVal.table [("find".data, TVal.table (packages_find pol.gha))]),
     ("package-data".data, TVal.table
       (alMerge PD0 [("*".data, TVal.arr (star.map TVal.str))]))] with hSTm
  set T_g := alSet tool1 "setuptools".data (TVal.table STm) with hTg
  -- run-1 value facts
  have hd0proj := ptb_project_table_inv hproj0
  have hverget := ptb_version_inv hver
  have hprojOfP : (((alGet docP "project".data).bind asTable).getD []) = P_b := by
    rw [← hPe, projOf_set_raw]
  have hPbver : alGet P_b "version".data = some version := by
    rw [projNew_get_other hPn (by rw [projTouchedKeys]; decide)]
    rw [show (((alGet (alSet doc0 "build-system".data BS_SECTION) "project".data).bind
        asTable).getD []) = (((alGet doc0 "project".data).bind asTable).getD []) from by
      rw [alGet_alSet_other _ _ _ _ (by decide)]]
    rw [hd0proj]
    exact hverget
  have hprojOfT : (((alGet docT "project".data).bind asTable).getD []) = P_b := by
    rw [← hTe, alGet_alSet_other _ _ _ _ (by decide), ← hSe,
      alGet_alSet_other _ _ _ _ (by decide),
      show alGet (ptb_tool_normalize docP) "project".data = alGet docP "project".data
        from ptb_tool_normalize_get_other docP (by decide)]
    exact hprojOfP
  have h1proj : alGet doc1 "project".data = some (.table P_g) := by
    rw [← hmle, alGet_alSet_same]
  have hpOf1 : (((alGet doc1 "project".data).bind asTable).getD []) = P_g := by
    rw [h1proj]
    rfl
  have h1tool : alGet doc1 "tool".data = some (.table T_g) := by
    rw [← hmle, alGet_alSet_other _ _ _ _ (by decide),
      ptb_mypy_get_other hM (by decide), ← hTe, alGet_alSet_same]
  have h1bs : alGet doc1 "build-system".data = some BS_SECTION := by
    rw [← hmle, alGet_alSet_other _ _ _ _ (by decide),
      ptb_mypy_get_other hM (by decide), ← hTe,
      alGet_alSet_other _ _ _ _ (by decide), ← hSe,
      alGet_alSet_other _ _ _ _ (by decide),
      ptb_tool_normalize_get_other docP (by decide), ← hPe,
      alGet_alSet_other _ _ _ _ (by decide), alGet_alSet_same]
  have hPgPb : ∀ k, k ≠ "optional-dependencies".data → k ≠ "dependencies".data →
      alGet P_g k = alGet P_b k := by
    intro k h1 h2
    rw [odSort_get_other hPg h1, depsSort_get_other hPm h2,
      ptb_mypy_projOf_get_other hM h1, hprojOfT]
  have hPgver : alGet P_g "version".data = some version := by
    rw [hPgPb _ (by decide) (by decide)]
    exact hPbver
  -- semantic_release value inside the built tool table
  have hTdval : T_d = alSet T_c "semantic_release".data
      (semrelTable pol.gha version_vars) := by
    have h1 := tool_table_or_err_inv hTd
    rw [← hSe, alGet_alSet_same] at h1
    have h2 := Option.some.inj h1
    cases h2
    rfl
  have hT1sr : alGet tool1 "semantic_release".data
      = some (semrelTable pol.gha version_vars) := by
    rw [← htool1e, setuptools_ensure_get_other _ (by decide), hTdval, alGet_alSet_same]
  have hTgsr : alGet T_g "semantic_release".data
      = some (semrelTable pol.gha version_vars) := by
    rw [hTg, alGet_alSet_other _ _ _ _ (by decide)]
    exact hT1sr
  have hSTmne : STm ≠ [] := by
    rw [hSTm]
    exact alSet_ne_nil _ _ _
  have hTgst : alGet T_g "setuptools".data = some (TVal.table STm) := by
    rw [hTg, alGet_alSet_same]
  have hSTmpkgs : alGet STm "packages".data
      = some (TVal.table [("find".data, TVal.table (packages_find pol.gha))]) := by
    rw [hSTm]
    exact alGet_alMerge_mem _ _ _ _
      (by simp only [List.map_cons, List.map_nil]; decide) (List.mem_cons_self _ _)
  have hSTmpd : alGet STm "package-data".data
      = some (TVal.table (alMerge PD0 [("*".data, TVal.arr (star.map TVal.str))])) := by
    rw [hSTm]
    exact alGet_alMerge_mem _ _ _ _
      (by simp only [List.map_cons, List.map_nil]; decide)
      (List.mem_cons_of_mem _ (List.mem_cons_self _ _))
  have hPDmstar : alGet (alMerge PD0 [("*".data, TVal.arr (star.map TVal.str))])
      "*".data = some (TVal.arr (star.map TVal.str)) :=
    alGet_alMerge_mem _ _ _ _
      (by simp only [List.map_cons, List.map_nil]; decide) (List.mem_cons_self _ _)
  -- run 2
  rw [pyproject_toml_build, except_bind_ok]
  refine ⟨packages, hpkg, ?_⟩
  rw [except_bind_ok]
  refine ⟨readmePair, hrd, ?_⟩
  rw [except_bind_ok]
  refine ⟨P_g, by rw [ptb_project_table, h1proj], ?_⟩
  rw [except_bind_ok]
  refine ⟨version, by rw [ptb_version, hPgver], ?_⟩
  rw [except_bind_ok]
  refine ⟨doc1, ?_, ?_⟩
  · rw [alSet_eq_self h1bs, ptb_project_char, hpOf1]
    rw [projNew_fixpoint pol packages readmePair version hPn ?hsame]
    case hsame =>
      intro k hk
      rw [projTouchedKeys] at hk
      refine hPgPb k ?_ ?_ <;> fin_cases hk <;> decide
    rw [except_map_ok, alSet_eq_self h1proj]
  · rw [except_bind_ok]
    refine ⟨version_vars, hvv, ?_⟩
    rw [except_bind_ok]
    have hnorm : ptb_tool_normalize doc1 = doc1 := by
      rw [ptb_tool_normalize, h1tool]
      rw [if_neg ?_]
      intro hcond
      have hTgemp : T_g.isEmpty = false := by
        cases hemp : T_g.isEmpty with
        | false => rfl
        | true => exact absurd (List.isEmpty_iff.mp hemp) (by rw [hTg]; exact alSet_ne_nil _ _ _)
      rw [show ((some (TVal.table T_g)).getD (TVal.table [])) = TVal.table T_g from rfl,
        show pyTruthy (TVal.table T_g) = !T_g.isEmpty from rfl, hTgemp] at hcond
      cases hcond
    refine ⟨doc1, ?_, ?_⟩
    · rw [hnorm, ptb_semrel, except_bind_ok]
      refine ⟨T_g, by rw [tool_table_or_err, h1tool], ?_⟩
      rw [alSet_eq_self hTgsr, alSet_eq_self h1tool]
    · rw [except_bind_ok]
      refine ⟨doc1, ?_, ?_⟩
      · -- setuptools is a fixed point on doc1
        rw [ptb_setuptools, except_bind_ok]
        have hens : setuptools_ensure T_g = T_g := by
          rw [setuptools_ensure, hTgst]
          rw [if_neg ?_]
          intro hcond
          have hemp : STm.isEmpty = false := by
            cases hemp : STm.isEmpty with
            | false => rfl
            | true => exact absurd (List.isEmpty_iff.mp hemp) hSTmne
          rw [show ((some (TVal.table STm)).getD (TVal.table [])) = TVal.table STm from rfl,
            show pyTruthy (TVal.table STm) = !STm.isEmpty from rfl, hemp] at hcond
          cases hcond
        refine ⟨T_g, ?_, ?_⟩
        · rw [tool_table_or_err, h1tool]
          rw [show Except.map setuptools_ensure
              (Except.ok T_g : Except PyErr (List (PyStr × TVal)))
            = Except.ok (setuptools_ensure T_g) from rfl, hens]
        · rw [except_bind_ok]
          refine ⟨STm, by rw [hTgst]; rfl, ?_⟩
          rw [except_bind_ok]
          refine ⟨alMerge PD0 [("*".data, TVal.arr (star.map TVal.str))],
            by rw [hSTmpd]; rfl, ?_⟩
          rw [except_bind_ok]
          refine ⟨star, ?_, ?_⟩
          · rw [hPDmstar]
            exact packagedata_star_again hstar
          · rw [show alMerge (alMerge PD0 [("*".data, TVal.arr (star.map TVal.str))])
                [("*".data, TVal.arr (star.map TVal.str))]
              = alSet (alMerge PD0 [("*".data, TVal.arr (star.map TVal.str))]) "*".data
                (TVal.arr (star.map TVal.str)) from rfl, alSet_eq_self hPDmstar]
            have hmerge : alMerge STm
                [("packages".data, TVal.table
                  [("find".data, TVal.table (packages_find pol.gha))]),
                 ("package-data".data, TVal.table
                  (alMerge PD0 [("*".data, TVal.arr (star.map TVal.str))]))] = STm := by
              refine alMerge_eq_self (fun p hp => ?_)
              rcases List.mem_cons.mp hp with rfl | hp
              · exact hSTmpkgs
              rcases List.mem_cons.mp hp with rfl | hp
              · exact hSTmpd
              cases hp
            rw [hmerge]
            rw [show alSet T_g "setuptools".data (TVal.table STm) = T_g from by
              rw [hTg, alSet_alSet]]
            rw [alSet_eq_self h1tool]
      · rw [except_bind_ok]
        refine ⟨doc1, ?_, ?_⟩
        · -- mypy is a fixed point on doc1
          by_cases hau : pol.gha.auto_mypy_option = true
          · rw [ptb_mypy, if_pos hau] at hM
            rw [hprojOfT] at hM
            cases hod : alGet P_b "optional-dependencies".data with
            | none =>
              rw [hod] at hM
              have hM' : Except.ok docT = (Except.ok docM : Except PyErr TomlDoc) := hM
              have hMeq : docT = docM := Except.ok.inj hM'
              have hPmod : alGet P_m "optional-dependencies".data = none := by
                rw [depsSort_get_other hPm (by decide), ← hMeq, hprojOfT, hod]
              have hPgeq : P_m = P_g := by
                rw [odSort, hPmod] at hPg
                exact Except.ok.inj hPg
              have hPgod : alGet P_g "optional-dependencies".data = none := by
                rw [← hPgeq]
                exact hPmod
              rw [ptb_mypy_of_get_none hau (by rw [hpOf1]; exact hPgod)]
            | some v =>
              cases v with
              | table OD0 =>
                rw [hod] at hM
                rw [except_map_ok_iff] at hM
                obtain ⟨depLists, hdep, hMe⟩ := hM
                have hpOfM : (((alGet docM "project".data).bind asTable).getD [])
                    = alSet P_b "optional-dependencies".data (.table
                      (alSet OD0 "mypy".data
                        (.arr ((sortedDedup depLists.flatten).map TVal.str)))) := by
                  rw [← hMe, projOf_set_raw]
                have hPmod : alGet P_m "optional-dependencies".data
                    = some (.table (alSet OD0 "mypy".data
                      (.arr ((sortedDedup depLists.flatten).map TVal.str)))) := by
                  rw [depsSort_get_other hPm (by decide), hpOfM, alGet_alSet_same]
                rw [odSort_of_get_table hPmod, except_map_ok_iff] at hPg
                obtain ⟨OD_g, hODg, hPge⟩ := hPg
                have hPgod : alGet P_g "optional-dependencies".data
                    = some (.table OD_g) := by
                  rw [← hPge, alGet_alSet_same]
                rw [ptb_mypy_of_get_table hau (by rw [hpOf1]; exact hPgod)]
                have harr : ((alSet OD0 "mypy".data
                    (.arr ((sortedDedup depLists.flatten).map TVal.str))).filter
                      (fun p => decide (p.1 ≠ "mypy".data))).mapM
                    (fun p => match p.2 with
                      | TVal.arr xs => strList_or_err xs
                      | _ => Except.error PyErr.typeError) = Except.ok depLists := by
                  rw [filter_ne_alSet]
                  exact hdep
                have hdepg : od_deps_or_err OD_g = Except.ok (depLists.map pySorted) :=
                  od_lists_sorted harr (mapM_sortpairs_filter hODg)
                rw [hdepg, except_map_ok]
                have hm2 : sortedDedup (depLists.map pySorted).flatten
                    = sortedDedup depLists.flatten :=
                  sortedDedup_congr (fun a => mem_flatten_map_pySorted depLists a)
                rw [hm2]
                obtain ⟨w, hw, hget⟩ := mapM_sortpairs_alGet hODg "mypy".data _
                  (alGet_alSet_same OD0 "mypy".data _)
                rw [sortStrArray_arr_str] at hw
                have hsm1 : pySorted (sortedDedup depLists.flatten)
                    = sortedDedup depLists.flatten := by
                  rw [sortedDedup]
                  exact pySorted_idem _
                rw [hsm1] at hw
                have hweq : TVal.arr ((sortedDedup depLists.flatten).map TVal.str)
                    = w := Except.ok.inj hw
                rw [← hweq] at hget
                rw [hpOf1, alSet_eq_self hget, alSet_eq_self hPgod,
                  alSet_eq_self h1proj]
              | str sv => rw [hod] at hM; cases hM
              | bool b => rw [hod] at hM; cases hM
              | int n => rw [hod] at hM; cases hM
              | arr xs => rw [hod] at hM; cases hM
          · rw [ptb_mypy, if_neg hau]
        · -- multiline is a fixed point on doc1
          rw [ptb_multiline, except_bind_ok]
          refine ⟨P_g, ?_, ?_⟩
          · rw [hpOf1]
            exact depsSort_fixpoint (odSort_get_other hPg (by decide))
              (depsSort_roundtrip hPm)
          · rw [except_bind_ok]
            refine ⟨P_g, odSort_roundtrip hPg, ?_⟩
            rw [alSet_eq_self h1proj]


/-! ## Claim C2: merge idempotence of both builders -/

theorem packagedata_star_dedup (starVal : Option TVal) :
    packagedata_star_ord List.dedup starVal = packagedata_star starVal := by
  cases starVal with
  | none => rfl
  | some v =>
    cases v with
    | str sv => rfl
    | bool b => rfl
    | int n => rfl
    | table kvs => rfl
    | arr xs =>
      simp only [packagedata_star_ord, packagedata_star]
      cases hm : xs.mapM (fun v => match v with
          | TVal.str s => Except.ok s
          | _ => Except.error PyErr.typeError) with
      | error e => simp [hm]
      | ok strs =>
        simp only [hm, ok_bind]
        by_cases hpy : "py.typed".data ∈ strs
        · rw [if_pos hpy, if_pos (List.mem_dedup.mpr hpy)]
        · rw [if_neg hpy, if_neg (fun h => hpy (List.mem_dedup.mp h))]

theorem ptb_setuptools_dedup (g : GHAInput) (doc : TomlDoc) :
    ptb_setuptools_ord List.dedup g doc = ptb_setuptools g doc := by
  rw [ptb_setuptools_ord, ptb_setuptools]
  simp only [packagedata_star_dedup]

/-- `pyproject_toml_build` is the order-generic builder at insertion-order
set enumeration. -/
theorem pyproject_toml_build_dedup (pol : TomlPolicy) (doc0 : TomlDoc) :
    pyproject_toml_build_ord List.dedup pol doc0
      = pyproject_toml_build pol doc0 := by
  rw [pyproject_toml_build_ord, pyproject_toml_build]
  simp only [ptb_setuptools_dedup]

/-- A concrete GitHub-API policy for exercising the builders. -/
def c2gh : GhPolicy :=
  { url := "https://github.com/org/mypkg".data,
    default_branch := "main".data,
    description := "A package".data }

/-- A concrete filesystem: one package directory with a matching
`__version__`, and a Markdown README. -/
def c2fs : CfgFs :=
  { root := [{ name := "mypkg".data, isDir := true, hasInit := true }],
    initLines := fun _ => ["__version__ = \"1.2.3\"".data],
    readme := some ("README.md".data, ".md".data) }

def c2gha : GHAInput :=
  { python_min := (3, 9),
    python_max := (3, 12),
    package_dirs := [],
    exclude_dirs := [],
    pypi_name := [],
    patch_without_tag := false,
    keywords := [],
    author := [],
    author_email := [],
    auto_mypy_option := false }

def c2polT : TomlPolicy :=
  { gha := c2gha, gh := c2gh, fs := c2fs,
    commit_message := "chore: update".data }

/-- The reversed enumeration: `xs.dedup.reverse` lists exactly the
distinct elements of `xs`, so it is an admissible `list(set(xs))`
outcome. -/
def revOrd (xs : List PyStr) : List PyStr := xs.dedup.reverse

/-- A well-formed input document carrying a pre-existing
`[tool.setuptools.package-data]` entry `"*" = ["aaa", "bbb"]`. -/
def c2docB : TomlDoc :=
  [("project".data, .table [("version".data, .str "1.2.3".data)]),
   ("tool".data, .table
     [("setuptools".data, .table
       [("package-data".data, .table
         [("*".data, .arr [.str "aaa".data, .str "bbb".data])])])])]

/-- The first run's output on `c2docB` under the reversed enumeration. -/
def c2docB1 : TomlDoc :=
  (pyproject_toml_build_ord revOrd c2polT c2docB).toOption.getD []

/-- The second run's output, on `c2docB1`. -/
def c2docB2 : TomlDoc :=
  (pyproject_toml_build_ord revOrd c2polT c2docB1).toOption.getD []

/-- The string entries of a document's `[tool.setuptools.package-data]`
`"*"` array. -/
def pdStarOf (doc : TomlDoc) : List PyStr :=
  match alGet doc "tool".data with
  | some (.table t) =>
    match alGet t "setuptools".data with
    | some (.table st) =>
      match alGet st "package-data".data with
      | some (.table pd) =>
        match alGet pd "*".data with
        | some (.arr xs) => xs.filterMap (fun v => match v with
            | .str s => some s
            | _ => none)
        | _ => []
      | _ => []
    | _ => []
  | _ => []

/-- C2: the claimed byte-identical idempotence fails in the program. The
faithful model of `_tool_setuptools_packagedata_star` leaves the
enumeration order of `list(set(...))` unspecified, since CPython string
hashing is seed-randomized across processes. The reversed enumeration
`revOrd` is admissible (`SetEnum`), and under it the builder maps a
document with a pre-existing `[tool.setuptools.package-data]`
`"*" = ["aaa", "bbb"]` to an output whose `"*"` array is
`["bbb", "aaa", "py.typed"]`, while a second run on that output produces
`["py.typed", "aaa", "bbb"]`: the two runs differ byte-for-byte, so
`merge(merge(doc, policy), policy) == merge(doc, policy)` does not hold
for the TOML builder. (The INI builder's half of the claim does hold:
`write_setup_cfg_model_idem`.) -/
theorem C2_set_order_breaks_idempotence :
    SetEnum revOrd ∧
    pyproject_toml_build_ord revOrd c2polT c2docB = Except.ok c2docB1 ∧
    pyproject_toml_build_ord revOrd c2polT c2docB1 = Except.ok c2docB2 ∧
    c2docB1 ≠ c2docB2 :=
  ⟨fun xs => List.reverse_perm _, rfl, rfl,
   fun h => absurd (congrArg pdStarOf h) (by decide)⟩


/-! ## Claim C6: mismatched dunder versions abort the run -/

theorem get_dunder_version_inits_mismatch {initLines : PyStr → List PyStr}
    {pkgs : List PyStr} (vs : PyStr) {pairs : List (PyStr × Option PyStr)}
    (hpairs : pkgs.mapM (fun p =>
      (get_init_version (initLines p)).map (fun v => (p ++ "/__init__.py".data, v)))
      = Except.ok pairs)
    (hne : ((pairs.filterMap (fun q => q.2.map (fun v => (q.1, v)))).map (·.2)).dedup ≠ [])
    (hneq : ((pairs.filterMap (fun q => q.2.map (fun v => (q.1, v)))).map (·.2)).dedup ≠ [vs]) :
    ∃ msg : PyStr, get_dunder_version_inits initLines pkgs (TVal.str vs)
        = Except.error (PyErr.exception msg) ∧ "Version mismatch".data <+: msg := by
  rw [get_dunder_version_inits]
  simp only [hpairs, ok_bind]
  have hiv_ne : (((pairs.filterMap (fun q => q.2.map (fun v => (q.1, v)))).map
      (·.2)).dedup).isEmpty = false := by
    cases hc : ((pairs.filterMap (fun q => q.2.map (fun v => (q.1, v)))).map (·.2)).dedup with
    | nil => exact absurd hc hne
    | cons a t => rfl
  rw [if_neg (by simp [hiv_ne])]
  by_cases hlen : (((pairs.filterMap (fun q => q.2.map (fun v => (q.1, v)))).map
      (·.2)).dedup).length = 1
  · rw [if_neg (not_not_intro hlen)]
    obtain ⟨w, hw⟩ := List.length_eq_one.mp hlen
    have hwne : vs ≠ w := by
      intro hvw
      exact hneq (by rw [hw, hvw])
    refine ⟨("Version mismatch between package(s) and " ++
      "pyproject.toml\'s project.version").data, ?_, by decide⟩
    rw [hw]
    show (if vs = [w].headD [] then _ else _) = _
    rw [if_neg (by simpa using hwne)]
    rfl
  · rw [if_pos hlen]
    exact ⟨"Version mismatch between packages".data, rfl, by decide⟩

/-- C6: if the discovered package directories declare mismatched
`__version__` strings (INI variant: two packages whose parsed versions
differ; TOML variant: the set of declared `__version__`s is non-empty and
differs from `[project.version]`), the run returns a version-mismatch
error. The builders' only output is the `Except.ok` payload (the document
that would be written), so an error result means no config file or README
is written or modified. -/
theorem C6_version_mismatch_aborts :
    (∀ (pol : CfgPolicy) (cfg0 : IniCfg) (bsec : BuilderSection)
       (pkgs versions : List PyStr),
      alHas cfg0 BUILDER_SECTION_NAME = true →
      mkBuilderSection ((alGet cfg0 BUILDER_SECTION_NAME).getD []) = Except.ok bsec →
      cfg_get_package_paths pol.fs.root (pySplitWs (pyStrip bsec.package_dirs))
        pol.dirs_exclude = Except.ok pkgs →
      pkgs.mapM (fun p => cfg_version_of_init (pol.fs.initLines p))
        = Except.ok versions →
      versions.dedup.length ≠ 1 →
      write_setup_cfg_model pol cfg0 = Except.error
        (PyErr.exception "Version mismatch between packages".data)) ∧
    (∀ (pol : TomlPolicy) (doc0 doc : TomlDoc) (pkgs : List PyStr)
       (readmePair : PyStr × PyStr) (proj0 : List (PyStr × TVal)) (vs : PyStr)
       (pairs : List (PyStr × Option PyStr)),
      toml_get_package_paths pol.fs.root pol.gha.package_dirs pol.gha.exclude_dirs
        = Except.ok pkgs →
      readme_or_err pol.fs.readme = Except.ok readmePair →
      ptb_project_table doc0 = Except.ok proj0 →
      ptb_version proj0 = Except.ok (TVal.str vs) →
      ptb_project pol pkgs readmePair (TVal.str vs)
        (alSet doc0 "build-system".data BS_SECTION) = Except.ok doc →
      pkgs.mapM (fun p => (get_init_version (pol.fs.initLines p)).map
        (fun v => (p ++ "/__init__.py".data, v))) = Except.ok pairs →
      ((pairs.filterMap (fun q => q.2.map (fun v => (q.1, v)))).map (·.2)).dedup ≠ [] →
      ((pairs.filterMap (fun q => q.2.map (fun v => (q.1, v)))).map (·.2)).dedup ≠ [vs] →
      ∃ msg : PyStr, pyproject_toml_build pol doc0
          = Except.error (PyErr.exception msg) ∧ "Version mismatch".data <+: msg) := by
  constructor
  · intro pol cfg0 bsec pkgs versions hhas hbsec hpkgs hv hlen
    have hver : cfg_get_version pol.fs.initLines pkgs = Except.error
        (PyErr.exception "Version mismatch between packages".data) := by
      rw [cfg_get_version]
      simp only [hv, ok_bind]
      exact if_neg hlen
    rw [write_setup_cfg_model, hhas]
    show (build_out_sections pol cfg0 >>= fun cfg => reorderSections cfg)
        = Except.error (PyErr.exception "Version mismatch between packages".data)
    have hbos : build_out_sections pol cfg0 = Except.error
        (PyErr.exception "Version mismatch between packages".data) := by
      rw [build_out_sections]
      simp only [hbsec, ok_bind, hpkgs, hver, error_bind]
    rw [hbos, error_bind]
  · intro pol doc0 doc pkgs readmePair proj0 vs pairs hpkg hrd hproj0 hversion
      hproj hpairs hne hneq
    obtain ⟨msg, hmsg, hpre⟩ := get_dunder_version_inits_mismatch vs hpairs hne hneq
    refine ⟨msg, ?_, hpre⟩
    rw [pyproject_toml_build]
    simp only [hpkg, hrd, hproj0, hversion, hproj, ok_bind, hmsg, error_bind]

def c6gh : GhPolicy :=
  { url := "https://github.com/org/mypkg".data,
    default_branch := "main".data,
    description := "A package".data }

/-- Two package directories declaring different `__version__`s. -/
def c6fsI : CfgFs :=
  { root := [{ name := "pkga".data, isDir := true, hasInit := true },
             { name := "pkgb".data, isDir := true, hasInit := true }],
    initLines := fun p => if p = "pkga".data
      then ["__version__ = \"1.0.0\"".data]
      else ["__version__ = \"2.0.0\"".data],
    readme := some ("README.md".data, ".md".data) }

def c6polI : CfgPolicy :=
  { gh := c6gh, base_keywords := [], dirs_exclude := [],
    repo_license := "MIT".data, commit_message := "chore: update".data,
    latest_py3 := (3, 12), fs := c6fsI }

def c6cfg0 : IniCfg :=
  [(BUILDER_SECTION_NAME,
    [("python_min".data, "3.9".data),
     ("package_dirs".data, "pkga pkgb".data)])]

def c6bsec : BuilderSection :=
  { python_min := "3.9".data, author := [], author_email := [], pypi_name := [],
    python_max := [], package_dirs := "pkga pkgb".data, keywords_spaced := [],
    patch_without_tag := "True".data }

def c6ghaT : GHAInput :=
  { python_min := (3, 9), python_max := (3, 12), package_dirs := [],
    exclude_dirs := [], pypi_name := [], patch_without_tag := false,
    keywords := [], author := [], author_email := [], auto_mypy_option := false }

/-- One package whose `__version__` differs from `project.version`. -/
def c6fsT : CfgFs :=
  { root := [{ name := "mypkg".data, isDir := true, hasInit := true }],
    initLines := fun _ => ["__version__ = \"9.9.9\"".data],
    readme := some ("README.md".data, ".md".data) }

def c6polT : TomlPolicy :=
  { gha := c6ghaT, gh := c6gh, fs := c6fsT,
    commit_message := "chore: update".data }

def c6doc0 : TomlDoc :=
  [("project".data, .table [("version".data, .str "1.2.3".data)])]

def c6docP : TomlDoc :=
  (ptb_project c6polT ["mypkg".data] ("README.md".data, ".md".data)
    (TVal.str "1.2.3".data) (alSet c6doc0 "build-system".data BS_SECTION)).toOption.getD []

def c6pairs : List (PyStr × Option PyStr) :=
  [("mypkg/__init__.py".data, some "9.9.9".data)]

/-- Witness for C6: concrete runs in which the INI variant sees two
packages at `1.0.0` and `2.0.0`, and the TOML variant sees a package at
`9.9.9` against `project.version = "1.2.3"`; both abort with a
version-mismatch error. -/
theorem C6_version_mismatch_aborts_witness :
    write_setup_cfg_model c6polI c6cfg0 = Except.error
      (PyErr.exception "Version mismatch between packages".data) ∧
    (∃ msg : PyStr, pyproject_toml_build c6polT c6doc0
      = Except.error (PyErr.exception msg) ∧ "Version mismatch".data <+: msg) := by
  constructor
  · exact C6_version_mismatch_aborts.1 c6polI c6cfg0 c6bsec
      ["pkga".data, "pkgb".data] ["1.0.0".data, "2.0.0".data]
      (by decide) (by rfl) (by rfl) (by rfl) (by decide)
  · exact C6_version_mismatch_aborts.2 c6polT c6doc0 c6docP ["mypkg".data]
      ("README.md".data, ".md".data)
      [("version".data, TVal.str "1.2.3".data)] "1.2.3".data c6pairs
      (by rfl) (by rfl) (by rfl) (by rfl) (by rfl) (by rfl) (by decide) (by decide)


/-! ## Claim C7: required PyPI metadata fields -/

def c7sec : IniSection :=
  [("python_min".data, "3.9".data),
   ("pypi_name".data, "my-pkg".data),
   ("author".data, "Ann Author".data),
   ("author_email".data, "ann@example.com".data)]

def c7bsec : BuilderSection :=
  { python_min := "3.9".data, author := "Ann Author".data,
    author_email := "ann@example.com".data, pypi_name := "my-pkg".data,
    python_max := [], package_dirs := [], keywords_spaced := [],
    patch_without_tag := "True".data }

/-- Counterexample to C7 as stated: in the INI builder, a builder section
with `pypi_name`, `author` and `author_email` set but no keywords is
accepted by `BuilderSection.__post_init__` — constructing the builder
inputs does NOT raise; the missing-keywords error only surfaces later,
in `keywords_list`. -/
theorem C7_counterexample_keywords_accepted_at_construction :
    mkBuilderSection c7sec = Except.ok c7bsec := by rfl

/-- C7 (corrected): with `pypi_name` non-empty, the TOML builder rejects a
missing `keywords`, `author` or `author_email` at `GHAInput` construction
(`__post_init__`); the INI builder rejects a missing `author` or
`author_email` at `BuilderSection` construction, while missing keywords
(no words in `keywords_spaced`, no base keywords) are rejected later, when
`keywords_list` is evaluated during the metadata build — still before any
section is produced, hence before any file write. -/
theorem C7_required_pypi_fields :
    (∀ g : GHAInput, g.pypi_name.isEmpty = false →
      (g.keywords.isEmpty || g.author.isEmpty || g.author_email.isEmpty) = true →
      mkGHAInput g = Except.error (PyErr.exception
        "\'keywords\', \'author\', and \'author_email\' must be provided".data)) ∧
    (∀ sec : IniSection,
      sec.all (fun p => bsecFieldNames.contains p.1) = true →
      (alGet sec "python_min".data).isSome = true →
      ((alGet sec "pypi_name".data).getD []).isEmpty = false →
      (((alGet sec "author".data).getD []).isEmpty = true ∨
        ((alGet sec "author_email".data).getD []).isEmpty = true) →
      mkBuilderSection sec = Except.error (PyErr.exception
        "author and author_email must be provided".data)) ∧
    (∀ (bsec : BuilderSection) (base_keywords : List PyStr),
      pySplitWs (pyStrip bsec.keywords_spaced) = [] →
      base_keywords = [] →
      bsec.pypi_name.isEmpty = false →
      keywords_list bsec base_keywords = Except.error (PyErr.exception
        "keywords must be provided".data)) := by
  refine ⟨?_, ?_, ?_⟩
  · intro g h1 h2
    rw [mkGHAInput, if_pos (by simp [h1, h2])]
  · intro sec hall hsome hpypi hae
    obtain ⟨pm, hpm⟩ := Option.isSome_iff_exists.mp hsome
    rw [mkBuilderSection, if_neg (by rw [hall]; decide), hpm]
    show (if (!((alGet sec "pypi_name".data).getD []).isEmpty &&
        (((alGet sec "author".data).getD []).isEmpty ||
         ((alGet sec "author_email".data).getD []).isEmpty)) = true
      then Except.error (PyErr.exception
        "author and author_email must be provided".data)
      else Except.ok
        ({ python_min := pm,
           author := (alGet sec "author".data).getD [],
           author_email := (alGet sec "author_email".data).getD [],
           pypi_name := (alGet sec "pypi_name".data).getD [],
           python_max := (alGet sec "python_max".data).getD [],
           package_dirs := (alGet sec "package_dirs".data).getD [],
           keywords_spaced := (alGet sec "keywords_spaced".data).getD [],
           patch_without_tag := (alGet sec "patch_without_tag".data).getD "True".data } : BuilderSection))
      = Except.error (PyErr.exception
        "author and author_email must be provided".data)
    rw [if_pos (by rcases hae with h | h <;> simp [hpypi, h])]
  · intro bsec base_keywords hsplit hbase hpypi
    rw [keywords_list, hsplit, hbase]
    show (if (([] : List PyStr).isEmpty && !bsec.pypi_name.isEmpty) = true
      then Except.error (PyErr.exception "keywords must be provided".data)
      else Except.ok ([] : List PyStr))
      = Except.error (PyErr.exception "keywords must be provided".data)
    rw [if_pos (by simp [hpypi])]

def c7gha : GHAInput :=
  { python_min := (3, 9), python_max := (3, 12), package_dirs := [],
    exclude_dirs := [], pypi_name := "my-pkg".data, patch_without_tag := false,
    keywords := [], author := "Ann Author".data,
    author_email := "ann@example.com".data, auto_mypy_option := false }

def c7secNoAuthor : IniSection :=
  [("python_min".data, "3.9".data), ("pypi_name".data, "my-pkg".data)]

/-- Witness for C7: a `GHAInput` with `pypi_name` set and no keywords is
rejected at construction; a builder section with `pypi_name` set and no
author is rejected at construction; a constructed `BuilderSection` with
`pypi_name` set and no keywords anywhere is rejected by `keywords_list`. -/
theorem C7_required_pypi_fields_witness :
    mkGHAInput c7gha = Except.error (PyErr.exception
      "\'keywords\', \'author\', and \'author_email\' must be provided".data) ∧
    mkBuilderSection c7secNoAuthor = Except.error (PyErr.exception
      "author and author_email must be provided".data) ∧
    keywords_list c7bsec [] = Except.error (PyErr.exception
      "keywords must be provided".data) :=
  ⟨C7_required_pypi_fields.1 c7gha (by decide) (by decide),
   C7_required_pypi_fields.2.1 c7secNoAuthor (by decide) (by decide) (by decide)
     (Or.inl (by decide)),
   C7_required_pypi_fields.2.2 c7bsec [] (by rfl) rfl (by decide)⟩

end WipacSetup
